import Mathlib

/-!
# Half-edge graph (`vsr::HEGraph<T>`, `src/vsr/vsr_graph.h`)

Shallow embedding of the half-edge mesh topology structure.

* The three vectors `mHalfEdge`, `mFace`, `mNode` become lists of records.
* A pointer to a record becomes `Option Nat`: `none` is `NULL`, `some i` is the
  record stored at position `i` of the corresponding vector.  Every record the
  source allocates with `new` is pushed onto its vector before the operation
  returns, so a fresh record is named by the position its `push_back` gives it.
* Dereferencing `NULL` or a handle that is not a position of the vector is
  undefined behaviour in the source; the embedding returns `none` there.
* A reference `T&` to caller-owned vertex data is a natural number (its identity).
* Loops that the source runs until a pointer becomes `NULL` or returns to its
  start take a `fuel` bound; running out of fuel is `none`.
-/

namespace Versor

/-- Record `HEGraph::Node`: `ptr`, `edge`, `bVisited`. -/
structure Node where
  ptr : Option Nat
  edge : Option Nat
  bVisited : Bool
deriving DecidableEq, Repr

/-- Record `HEGraph::HalfEdge`: `bVisited`, `node`, `face`, `opp`, `next`. -/
structure HalfEdge where
  bVisited : Bool
  node : Option Nat
  face : Option Nat
  opp : Option Nat
  next : Option Nat
deriving DecidableEq, Repr

/-- Record `HEGraph::Face`: `edge`. -/
structure Face where
  edge : Option Nat
deriving DecidableEq, Repr

/-- The graph `HEGraph<T>`: its three private vectors. -/
structure HEGraph where
  mHalfEdge : List HalfEdge
  mFace : List Face
  mNode : List Node
deriving DecidableEq, Repr

/-- Constructor `Node()`. -/
def Node.new : Node := { ptr := none, edge := none, bVisited := false }

/-- Constructor `HalfEdge()`. -/
def HalfEdge.new : HalfEdge :=
  { bVisited := false, node := none, face := none, opp := none, next := none }

/-- Constructor `Face()`. -/
def Face.new : Face := { edge := none }

/-- The graph a default-constructed `HEGraph` holds: three empty vectors. -/
def HEGraph.empty : HEGraph := { mHalfEdge := [], mFace := [], mNode := [] }

namespace HEGraph

/-- Dereference of a half-edge handle. -/
def he (g : HEGraph) (i : Nat) : Option HalfEdge := g.mHalfEdge[i]?

/-- Field `next` of the half-edge `i` (`none` when `i` does not resolve or the field is `NULL`). -/
def next (g : HEGraph) (i : Nat) : Option Nat := (g.he i).bind (fun r => r.next)

/-- Field `opp` of the half-edge `i`. -/
def opp (g : HEGraph) (i : Nat) : Option Nat := (g.he i).bind (fun r => r.opp)

/-- Field `node` of the half-edge `i`. -/
def node (g : HEGraph) (i : Nat) : Option Nat := (g.he i).bind (fun r => r.node)

/-- Field `face` of the half-edge `i`. -/
def face (g : HEGraph) (i : Nat) : Option Nat := (g.he i).bind (fun r => r.face)

/-- Source: `HalfEdge::prev`: `*(next -> next)`. -/
def prev (g : HEGraph) (i : Nat) : Option Nat := (g.next i).bind g.next

/-- Source: `HalfEdge::isBorder`: `opp == NULL`. -/
def isBorder (g : HEGraph) (i : Nat) : Bool :=
  match g.he i with
  | some r => r.opp.isNone
  | none => false

/-- Loop of the clockwise branch of `HalfEdge::nextNull`:
`while (e != NULL) { t = e -> next; e = e -> next -> opp; }  return *t;`. -/
def nextNullCW (g : HEGraph) : Nat → Option Nat → Nat → Option Nat
  | _, none, t => some t
  | 0, some _, _ => none
  | fuel + 1, some e, _ => do
      let re ← g.he e
      let t ← re.next
      let rt ← g.he t
      nextNullCW g fuel rt.opp t

/-- Loop of the other branch of `HalfEdge::nextNull`:
`while (e != NULL) { t = e -> next -> next; e = e -> next -> next -> opp; }  return *t;`. -/
def nextNullCCW (g : HEGraph) : Nat → Option Nat → Nat → Option Nat
  | _, none, t => some t
  | 0, some _, _ => none
  | fuel + 1, some e, _ => do
      let re ← g.he e
      let n ← re.next
      let rn ← g.he n
      let t ← rn.next
      let rt ← g.he t
      nextNullCCW g fuel rt.opp t

/-- Source: `HalfEdge::nextNull(bool clockwise)` called on the half-edge `self`. -/
def nextNull (g : HEGraph) (fuel : Nat) (clockwise : Bool) (self : Nat) : Option Nat :=
  if clockwise then do
    let r ← g.he self
    let n ← r.next
    let rn ← g.he n
    nextNullCW g fuel rn.opp n
  else do
    let r ← g.he self
    let n ← r.next
    let rn ← g.he n
    let nn ← rn.next
    let rnn ← g.he nn
    nextNullCCW g fuel rnn.opp nn

/-- Source: `HalfEdge::triangle`:
`auto& eb = nextNull(false); if (&nextNull(true) == &(eb.nextNull(false))) return true; else return false;`. -/
def triangle (g : HEGraph) (fuel : Nat) (self : Nat) : Option Bool := do
  let eb ← g.nextNull fuel false self
  let x ← g.nextNull fuel true self
  let y ← g.nextNull fuel false eb
  pure (decide (x = y))

/-- Source: `HEGraph::addNode`. -/
def addNode (v : Nat) (g : HEGraph) : HEGraph :=
  { g with mNode := g.mNode ++ [{ Node.new with ptr := some v }] }

/-- Source: `HEGraph::seedNodes`.  The nodes are `mNode[0]`, `mNode[1]`, `mNode[2]`; the new
half-edges `ea`, `eb`, `ec` are pushed in this order and `f` is the pushed face. -/
def seedNodes (g : HEGraph) : Option HEGraph := do
  let na ← g.mNode[0]?
  let nb ← g.mNode[1]?
  let nc ← g.mNode[2]?
  let s := g.mHalfEdge.length
  let f := g.mFace.length
  let ea : HalfEdge := { HalfEdge.new with node := some 1, next := some (s + 1), face := some f }
  let eb : HalfEdge := { HalfEdge.new with node := some 2, next := some (s + 2), face := some f }
  let ec : HalfEdge := { HalfEdge.new with node := some 0, next := some s, face := some f }
  pure { mHalfEdge := g.mHalfEdge ++ [ea, eb, ec]
         mFace := g.mFace ++ [{ edge := some s }]
         mNode := ((g.mNode.set 0 { na with edge := some s }).set 1
                    { nb with edge := some (s + 1) }).set 2 { nc with edge := some (s + 2) } }

/-- Source: `HEGraph::lastEdge`: `*mHalfEdge.back()`. -/
def lastEdge (g : HEGraph) : Option Nat :=
  if g.mHalfEdge.length = 0 then none else some (g.mHalfEdge.length - 1)

/-- Source: `HEGraph::lastFace`: `*mFace.back()`. -/
def lastFace (g : HEGraph) : Option Nat :=
  if g.mFace.length = 0 then none else some (g.mFace.length - 1)

/-- Source: `HEGraph::lastNode`: `*(mHalfEdge.back() -> node)`. -/
def lastNode (g : HEGraph) : Option Nat := do
  let e ← g.lastEdge
  let r ← g.he e
  let n ← r.node
  if n < g.mNode.length then some n else none

/-- Source: `HEGraph::edge(int idx)`:
`idx < 0 ? *mHalfEdge[ mHalfEdge.size() + idx ] : *mHalfEdge[idx]`; the sum is taken in
the 64-bit unsigned type of `size()`. -/
def edge (g : HEGraph) (idx : Int) : Option Nat :=
  let k : Int := if idx < 0 then ((g.mHalfEdge.length : Int) + idx) % 2 ^ 64 else idx
  if k.toNat < g.mHalfEdge.length then some k.toNat else none

/-- Source: `HEGraph::addAt(T& v, HalfEdge& e)`.  New half-edges `ea`, `eb`, `ec` are pushed in
this order, `n` and `f` are the pushed node and face.  The only write to an existing
record is `e.opp = eb`; the reads `e.node` and `e.next -> next -> node` are of fields it
does not touch. -/
def addAt (v : Nat) (e : Nat) (g : HEGraph) : Option HEGraph := do
  let re ← g.he e
  let e1 ← re.next
  let r1 ← g.he e1
  let e2 ← r1.next
  let r2 ← g.he e2
  let s := g.mHalfEdge.length
  let f := g.mFace.length
  let n := g.mNode.length
  let ea : HalfEdge := { HalfEdge.new with next := some (s + 1), face := some f, node := re.node }
  let eb : HalfEdge :=
    { HalfEdge.new with next := some (s + 2), face := some f, opp := some e, node := r2.node }
  let ec : HalfEdge := { HalfEdge.new with next := some s, face := some f, node := some n }
  pure { mHalfEdge := g.mHalfEdge.set e { re with opp := some (s + 1) } ++ [ea, eb, ec]
         mFace := g.mFace ++ [{ edge := some s }]
         mNode := g.mNode ++ [{ Node.new with ptr := some v, edge := some s }] }

/-- Source: `HEGraph::add`:
`if (num < 3) addNode(v); if (num == 2) seedNodes(); if (num >= 3) addAt(v, lastEdge());`
with `num` read once before the three tests. -/
def add (v : Nat) (g : HEGraph) : Option HEGraph := do
  let num := g.mNode.length
  let g1 := if num < 3 then g.addNode v else g
  let g2 ← if num = 2 then g1.seedNodes else some g1
  if num ≥ 3 then do
    let e ← g2.lastEdge
    g2.addAt v e
  else some g2

/-- Write `r` at position `i` of the half-edge vector. -/
def setHE (g : HEGraph) (i : Nat) (r : HalfEdge) : HEGraph :=
  { g with mHalfEdge := g.mHalfEdge.set i r }

/-- The graph of `HEGraph::insert` once its fresh records are filled in and stored, before
any existing record is written.  `re` is the record of `e` and `r1` the record of
`e.next`; the new half-edges are pushed in the order `eb`, `ec`, `ea`:
`ea -> set(e); ea -> face = f; f -> edge = ea;`
`ec->opp = eb; eb->opp = ec; ec->next = ea; ec->node = n; ec->face = f;`
`eb->node = e.next->node; eb->next = e.next->next; eb->face = e.face;`
`n -> ptr = &pa; n -> edge = ea;`. -/
def insertFresh (g : HEGraph) (pa : Nat) (re r1 : HalfEdge) : HEGraph :=
  let s := g.mHalfEdge.length
  let f := g.mFace.length
  let n := g.mNode.length
  let reb : HalfEdge :=
    { HalfEdge.new with opp := some (s + 1), node := r1.node, next := r1.next, face := re.face }
  let rec_ : HalfEdge :=
    { HalfEdge.new with opp := some s, next := some (s + 2), node := some n, face := some f }
  let rea : HalfEdge :=
    { HalfEdge.new with node := re.node, face := some f, opp := re.opp, next := re.next }
  { mHalfEdge := g.mHalfEdge ++ [reb, rec_, rea]
    mFace := g.mFace ++ [{ edge := some (s + 2) }]
    mNode := g.mNode ++ [{ Node.new with ptr := some pa, edge := some (s + 2) }] }

/-- The assignment `e.next -> face = f`. -/
def setNextFace (g : HEGraph) (e f : Nat) : Option HEGraph := do
  let x ← g.next e
  let rx ← g.he x
  pure (g.setHE x { rx with face := some f })

/-- The assignment `e.next -> next = ec`. -/
def setNextNext (g : HEGraph) (e ec : Nat) : Option HEGraph := do
  let x ← g.next e
  let rx ← g.he x
  pure (g.setHE x { rx with next := some ec })

/-- The assignments `e.node = n; e.next = eb;`. -/
def setNodeNext (g : HEGraph) (e n eb : Nat) : Option HEGraph := do
  let r ← g.he e
  pure (g.setHE e { r with node := some n, next := some eb })

/-- The assignment `e.face -> edge = &e`. -/
def setFaceEdge (g : HEGraph) (e : Nat) : Option HEGraph := do
  let fe ← g.face e
  let rf ← g.mFace[fe]?
  pure { g with mFace := g.mFace.set fe { rf with edge := some e } }

/-- Source: `HEGraph::insert(T& pa, HalfEdge& e)`.  The fresh records are filled from reads of
the graph as it stands (`insertFresh`); then the writes to existing records
`e.next -> face = f; e.next -> next = ec; e.node = n; e.next = eb; e.face -> edge = &e;`
run one after the other, each reading the fields through the handles as the previous
writes left them. -/
def insert (pa : Nat) (e : Nat) (g : HEGraph) : Option HEGraph := do
  let re ← g.he e
  let e1 ← re.next
  let r1 ← g.he e1
  let s := g.mHalfEdge.length
  let g0 := g.insertFresh pa re r1
  let g1 ← g0.setNextFace e g.mFace.length
  let g2 ← g1.setNextNext e (s + 1)
  let g3 ← g2.setNodeNext e g.mNode.length s
  g3.setFaceEdge e

/-- Source: `HEGraph::close(HalfEdge& ha, HalfEdge& hb)`.  `facet(ea, eb, ec, f)` links the three
new half-edges, pushed in the order `ea`, `eb`, `ec`.  The writes to existing records
are `ha.opp = eb;` then `hb.opp = ea;`. -/
def close2 (ha hb : Nat) (g : HEGraph) : Option HEGraph := do
  let ra ← g.he ha
  let rb ← g.he hb
  let pb ← g.prev hb
  let rpb ← g.he pb
  let pa ← g.prev ha
  let rpa ← g.he pa
  let s := g.mHalfEdge.length
  let f := g.mFace.length
  let ea : HalfEdge :=
    { HalfEdge.new with next := some (s + 1), face := some f, node := rpb.node, opp := some hb }
  let eb : HalfEdge :=
    { HalfEdge.new with next := some (s + 2), face := some f, node := rpa.node, opp := some ha }
  let ec : HalfEdge := { HalfEdge.new with next := some s, face := some f, node := rb.node }
  let l1 := g.mHalfEdge.set ha { ra with opp := some (s + 1) }
  let rb1 ← l1[hb]?
  let l2 := l1.set hb { rb1 with opp := some s }
  pure { g with mHalfEdge := l2 ++ [ea, eb, ec], mFace := g.mFace ++ [{ edge := some s }] }

/-- Source: `HEGraph::close(HalfEdge& e, Node& n)`. -/
def closeN (e n : Nat) (g : HEGraph) : Option HEGraph := do
  let re ← g.he e
  let p ← g.prev e
  let rp ← g.he p
  let _ ← g.mNode[n]?
  let s := g.mHalfEdge.length
  let f := g.mFace.length
  let ea : HalfEdge := { HalfEdge.new with next := some (s + 1), face := some f, node := re.node }
  let eb : HalfEdge :=
    { HalfEdge.new with next := some (s + 2), face := some f, node := rp.node, opp := some e }
  let ec : HalfEdge := { HalfEdge.new with next := some s, face := some f, node := some n }
  pure { g with mHalfEdge := g.mHalfEdge.set e { re with opp := some (s + 1) } ++ [ea, eb, ec]
                mFace := g.mFace ++ [{ edge := some s }] }

/-- Source: `HEGraph::close(HalfEdge& e)`.  `tb = e.nextNull(false)` and `tc = e.nextNull(true)`
are walked before any existing record is written; the writes are
`e.opp = ea; tb.opp = eb; tc.opp = ec;` in this order. -/
def close (fuel : Nat) (e : Nat) (g : HEGraph) : Option HEGraph := do
  let tb ← g.nextNull fuel false e
  let tc ← g.nextNull fuel true e
  let re ← g.he e
  let rtb ← g.he tb
  let rtc ← g.he tc
  let s := g.mHalfEdge.length
  let f := g.mFace.length
  let ea : HalfEdge :=
    { HalfEdge.new with next := some (s + 1), face := some f, node := rtb.node, opp := some e }
  let eb : HalfEdge :=
    { HalfEdge.new with next := some (s + 2), face := some f, node := rtc.node, opp := some tb }
  let ec : HalfEdge :=
    { HalfEdge.new with next := some s, face := some f, node := re.node, opp := some tc }
  let l1 := g.mHalfEdge.set e { re with opp := some s }
  let rtb1 ← l1[tb]?
  let l2 := l1.set tb { rtb1 with opp := some (s + 1) }
  let rtc1 ← l2[tc]?
  let l3 := l2.set tc { rtc1 with opp := some (s + 2) }
  pure { g with mHalfEdge := l3 ++ [ea, eb, ec], mFace := g.mFace ++ [{ edge := some s }] }

/-- The border half-edges among `l`, whose first element has position `i`. -/
def nullEdgesFrom : Nat → List HalfEdge → List Nat
  | _, [] => []
  | i, r :: t => if r.opp.isNone then i :: nullEdgesFrom (i + 1) t else nullEdgesFrom (i + 1) t

/-- Source: `HEGraph::nullEdges`: the half-edges with `isBorder()`, in vector order. -/
def nullEdges (g : HEGraph) : List Nat := nullEdgesFrom 0 g.mHalfEdge

/-- Source: `HEGraph::hasBorder`. -/
def hasBorder (g : HEGraph) : Bool := g.mHalfEdge.any (fun r => r.opp.isNone)

/-- The first border half-edge among `l`, whose first element has position `i`. -/
def firstNullFrom : Nat → List HalfEdge → Option Nat
  | _, [] => none
  | i, r :: t => if r.opp.isNone then some i else firstNullFrom (i + 1) t

/-- Source: `HEGraph::firstNull`; control reaching the end of the function without `return` is `none`. -/
def firstNull (g : HEGraph) : Option Nat := firstNullFrom 0 g.mHalfEdge

/-- Source: the call `he -> nextNull()` in `HEGraph::nullEdgeLoop`.  `HalfEdge::nextNull` is
declared with one parameter, `nextNull(bool clockwise)`, and no default argument; a call
without argument names no function, so it has no result. -/
def nextNullNoArg (_g : HEGraph) (_self : Nat) : Option Nat := none

/-- The `do { tmp.push_back(he); he = &(he -> nextNull()); } while (he != mHalfEdge[it]);`
loop of `HEGraph::nullEdgeLoop`, with `tmp` accumulated in `acc`. -/
def nullEdgeWalk (g : HEGraph) (start : Nat) : Nat → Nat → List Nat → Option (List Nat)
  | 0, _, _ => none
  | k + 1, cur, acc => do
      let nx ← g.nextNullNoArg cur
      if nx = start then some (acc ++ [cur]) else nullEdgeWalk g start k nx (acc ++ [cur])

/-- Source: `HEGraph::nullEdgeLoop`.  The `for` loop skips to the first half-edge `it` whose
`opp` is `NULL` and runs the `do ... while` loop from it; with no such half-edge control
reaches the end of the function without `return`. -/
def nullEdgeLoop (g : HEGraph) (fuel : Nat) : Option (List Nat) := do
  let it ← firstNullFrom 0 g.mHalfEdge
  nullEdgeWalk g it fuel it []

/-- The loop of the boundary walk the specification describes, from the border half-edge
`start` in the fixed sense `s`: push the current half-edge and step by `nextNull(s)` until
the step returns `start`; `k` bounds the number of steps. -/
def boundaryWalk (g : HEGraph) (fuel : Nat) (s : Bool) (start : Nat) :
    Nat → Nat → List Nat → Option (List Nat)
  | 0, _, _ => none
  | k + 1, cur, acc => do
      let nx ← g.nextNull fuel s cur
      if nx = start then some (acc ++ [cur]) else boundaryWalk g fuel s start k nx (acc ++ [cur])

/-- The boundary walk the specification describes: start at `firstNull()` and repeat
`nextNull(s)` in the fixed sense `s` until it returns to the start. -/
def boundaryLoop (g : HEGraph) (fuel : Nat) (s : Bool) : Option (List Nat) := do
  let it ← firstNullFrom 0 g.mHalfEdge
  boundaryWalk g fuel s it fuel it []

/-- Body of the first loop of `HEGraph::UV` for row `j`. -/
def uvFirst (h : Nat) (p : List Nat) (g : HEGraph) (j : Nat) : Option HEGraph := do
  let idx := j
  let idxB := j + h
  let pi ← p[idx]?
  let pb ← p[idxB]?
  let g1 ← if j < 2 then g.add pi else do
    let e ← g.edge (-3)
    g.addAt pi e
  if j = 0 then g1.add pb
  else if j < 2 then do
    let e ← g1.edge (-2)
    g1.addAt pb e
  else do
    let e ← g1.edge (-1)
    g1.addAt pb e

/-- Body of the inner loop of the second loop of `HEGraph::UV`. -/
def uvInner (h : Nat) (p : List Nat) (i : Nat) (idx : Int) (g : HEGraph) (j : Nat) :
    Option HEGraph := do
  let pidxC := i * h + j
  let a ← g.edge (-3)
  let b ← g.edge (idx + ((j : Int) - 1) * 6)
  let g1 ← g.close2 a b
  let pc ← p[pidxC]?
  g1.add pc

/-- Body of the second loop of `HEGraph::UV` for column `i`. -/
def uvSecond (w h : Nat) (p : List Nat) (g : HEGraph) (i : Nat) : Option HEGraph := do
  let idx : Int := (((i : Int) - 2) * ((w : Int) - 1) + 1) * 6 - 1
  let pidx := i * h
  let pidxB := pidx + 1
  let e ← g.edge idx
  let pa ← p[pidx]?
  let g1 ← g.addAt pa e
  let e1 ← g1.edge (-3)
  let pb ← p[pidxB]?
  let g2 ← g1.addAt pb e1
  ((List.range h).drop 2).foldlM (uvInner h p i idx) g2

/-- Source: `HEGraph::UV(int w, int h, S& p)` for non-negative `w` and `h`; `p[k]` is the `k`-th
entry of the point sequence. -/
def UV (w h : Nat) (p : List Nat) (g : HEGraph) : Option HEGraph := do
  let g1 ← (List.range h).foldlM (uvFirst h p) g
  ((List.range w).drop 2).foldlM (uvSecond w h p) g1

/-- Next-3-cycle condition: every half-edge `h` has `h.next.next.next = h`, and `h`,
`h.next`, `h.next.next` carry one and the same face, a record of the face vector. -/
def NextCycle (g : HEGraph) : Prop :=
  ∀ h, h < g.mHalfEdge.length → ∃ a b f, g.next h = some a ∧ g.next a = some b ∧
    g.next b = some h ∧ g.face h = some f ∧ g.face a = some f ∧ g.face b = some f ∧
    f < g.mFace.length

/-- Triangulation: the next-3-cycle condition with no half-edge being its own `next`, so
that the three half-edges of a cycle are distinct. -/
def Tri (g : HEGraph) : Prop :=
  NextCycle g ∧ ∀ h, h < g.mHalfEdge.length → g.next h ≠ some h

/-- Symmetry of `opp`: `a.opp = b` gives `b.opp = a`, and `a != b`. -/
def OppSym (g : HEGraph) : Prop := ∀ a b, g.opp a = some b → g.opp b = some a ∧ a ≠ b

/-- The next-3-cycle condition at the half-edge `h`, as a test. -/
def cycleAt (g : HEGraph) (h : Nat) : Bool :=
  match g.next h, g.face h with
  | some a, some f =>
    match g.next a with
    | some b => g.next b == some h && g.face a == some f && g.face b == some f &&
        decide (f < g.mFace.length)
    | none => false
  | _, _ => false

instance (g : HEGraph) : Decidable (NextCycle g) :=
  decidable_of_iff (∀ h, h < g.mHalfEdge.length → g.cycleAt h = true) (by
    constructor
    · intro hc h hh
      have := hc h hh
      unfold cycleAt at this
      split at this
      · rename_i a f h1 h4
        split at this
        · rename_i b h2
          simp only [Bool.and_eq_true, beq_iff_eq, decide_eq_true_eq] at this
          exact ⟨a, b, f, h1, h2, this.1.1.1, h4, this.1.1.2, this.1.2, this.2⟩
        · cases this
      · cases this
    · intro hc h hh
      obtain ⟨a, b, f, h1, h2, h3, h4, h5, h6, h7⟩ := hc h hh
      simp [cycleAt, h1, h2, h3, h4, h5, h6, h7])

instance (g : HEGraph) : Decidable (Tri g) := by
  unfold Tri; infer_instance

instance (g : HEGraph) : Decidable (OppSym g) :=
  decidable_of_iff (∀ a, a < g.mHalfEdge.length → ∀ b ∈ g.opp a, g.opp b = some a ∧ a ≠ b) (by
    constructor
    · intro hs a b hab
      have hlt : a < g.mHalfEdge.length := by
        unfold opp he at hab
        obtain ⟨r, hr, _⟩ := Option.bind_eq_some.1 hab
        exact (List.getElem?_eq_some.1 hr).1
      exact hs a hlt b hab
    · intro hs a _ b hb
      exact hs a b hb)

/-- Field `edge` of the face `f`. -/
def faceEdge (g : HEGraph) (f : Nat) : Option Nat := (g.mFace[f]?).bind (fun r => r.edge)

/-- Every face stores a half-edge from which following `next` three times returns to it. -/
def FaceCycle (g : HEGraph) : Prop :=
  ∀ f, f < g.mFace.length → ∃ h a b, g.faceEdge f = some h ∧ g.next h = some a ∧
    g.next a = some b ∧ g.next b = some h

/-- A graph with one half-edge that is its own `next`, one face and one node. -/
def selfLoop : HEGraph :=
  { mHalfEdge := [{ HalfEdge.new with node := some 0, face := some 0, next := some 0 }]
    mFace := [{ edge := some 0 }]
    mNode := [{ Node.new with ptr := some 0, edge := some 0 }] }

/-- The seeded triangle: `addNode` three times on the empty graph, then `seedNodes`. -/
def seeded : Option HEGraph :=
  (((HEGraph.empty.addNode 10).addNode 11).addNode 12).seedNodes

/-- The graph `seedNodes` builds from three registered nodes (see `seeded`). -/
def tri0 : HEGraph :=
  { mHalfEdge := [{ HalfEdge.new with node := some 1, face := some 0, next := some 1 },
                  { HalfEdge.new with node := some 2, face := some 0, next := some 2 },
                  { HalfEdge.new with node := some 0, face := some 0, next := some 0 }]
    mFace := [{ edge := some 0 }]
    mNode := [{ ptr := some 10, edge := some 0, bVisited := false },
              { ptr := some 11, edge := some 1, bVisited := false },
              { ptr := some 12, edge := some 2, bVisited := false }] }

/-- A function `o` from handles to optional handles is symmetric and has no fixed point. -/
def SymF (o : Nat → Option Nat) : Prop := ∀ a b, o a = some b → o b = some a ∧ a ≠ b

/-- Field `edge` of the node `n`. -/
def nodeEdge (g : HEGraph) (n : Nat) : Option Nat := (g.mNode[n]?).bind (fun r => r.edge)

/-- Node-edge condition: a node whose `edge` is present has `edge.next.next.node` equal
to itself. -/
def NodeEdge (g : HEGraph) : Prop :=
  ∀ n e, g.nodeEdge n = some e → ∃ a b, g.next e = some a ∧ g.next a = some b ∧
    g.node b = some n

/-- The graphs built from the empty graph by calls of `addNode`, `add`, `seedNodes`,
`addAt`, `insert` and the three `close` overloads that return. -/
inductive Built : HEGraph → Prop
  | empty : Built HEGraph.empty
  | addNode {g : HEGraph} (v : Nat) : Built g → Built (g.addNode v)
  | add {g g' : HEGraph} (v : Nat) : Built g → g.add v = some g' → Built g'
  | seedNodes {g g' : HEGraph} : Built g → g.seedNodes = some g' → Built g'
  | addAt {g g' : HEGraph} (v e : Nat) : Built g → g.addAt v e = some g' → Built g'
  | insert {g g' : HEGraph} (v e : Nat) : Built g → g.insert v e = some g' → Built g'
  | close2 {g g' : HEGraph} (ha hb : Nat) : Built g → g.close2 ha hb = some g' → Built g'
  | closeN {g g' : HEGraph} (e n : Nat) : Built g → g.closeN e n = some g' → Built g'
  | close {g g' : HEGraph} (fuel e : Nat) : Built g → g.close fuel e = some g' → Built g'

/-- The graph `g` with the vertex data `v` of every node replaced by `φ v`. -/
def relabel (φ : Nat → Nat) (g : HEGraph) : HEGraph :=
  { g with mNode := g.mNode.map (fun n => { n with ptr := n.ptr.map φ }) }

/-- The graph `UV(3, 3, p)` builds from the empty graph when `p` is the sequence of
points 0, 1, ..., 8. -/
def grid33 : HEGraph :=
  { mHalfEdge :=
      [{ bVisited := false, node := some 1, face := some 0, opp := none, next := some 1 },
       { bVisited := false, node := some 2, face := some 0, opp := some 4, next := some 2 },
       { bVisited := false, node := some 0, face := some 0, opp := none, next := some 0 },
       { bVisited := false, node := some 2, face := some 1, opp := some 7, next := some 4 },
       { bVisited := false, node := some 1, face := some 1, opp := some 1, next := some 5 },
       { bVisited := false, node := some 3, face := some 1, opp := some 13, next := some 3 },
       { bVisited := false, node := some 2, face := some 2, opp := none, next := some 7 },
       { bVisited := false, node := some 3, face := some 2, opp := some 3, next := some 8 },
       { bVisited := false, node := some 4, face := some 2, opp := some 10, next := some 6 },
       { bVisited := false, node := some 4, face := some 3, opp := none, next := some 10 },
       { bVisited := false, node := some 3, face := some 3, opp := some 8, next := some 11 },
       { bVisited := false, node := some 5, face := some 3, opp := some 18, next := some 9 },
       { bVisited := false, node := some 3, face := some 4, opp := some 16, next := some 13 },
       { bVisited := false, node := some 1, face := some 4, opp := some 5, next := some 14 },
       { bVisited := false, node := some 6, face := some 4, opp := none, next := some 12 },
       { bVisited := false, node := some 3, face := some 5, opp := some 19, next := some 16 },
       { bVisited := false, node := some 6, face := some 5, opp := some 12, next := some 17 },
       { bVisited := false, node := some 7, face := some 5, opp := none, next := some 15 },
       { bVisited := false, node := some 3, face := some 6, opp := some 11, next := some 19 },
       { bVisited := false, node := some 7, face := some 6, opp := some 15, next := some 20 },
       { bVisited := false, node := some 5, face := some 6, opp := some 22, next := some 18 },
       { bVisited := false, node := some 5, face := some 7, opp := none, next := some 22 },
       { bVisited := false, node := some 7, face := some 7, opp := some 20, next := some 23 },
       { bVisited := false, node := some 8, face := some 7, opp := none, next := some 21 }]
    mFace := [{ edge := some 0 }, { edge := some 3 }, { edge := some 6 }, { edge := some 9 },
              { edge := some 12 }, { edge := some 15 }, { edge := some 18 },
              { edge := some 21 }]
    mNode := [{ ptr := some 0, edge := some 0, bVisited := false },
              { ptr := some 3, edge := some 1, bVisited := false },
              { ptr := some 1, edge := some 2, bVisited := false },
              { ptr := some 4, edge := some 3, bVisited := false },
              { ptr := some 2, edge := some 6, bVisited := false },
              { ptr := some 5, edge := some 9, bVisited := false },
              { ptr := some 6, edge := some 12, bVisited := false },
              { ptr := some 7, edge := some 15, bVisited := false },
              { ptr := some 8, edge := some 21, bVisited := false }] }

/-- The loop shared by the two branches of `HalfEdge::nextNull`, for a move `m` from a
half-edge to another one of its face (`next` in the clockwise branch, `next -> next` in
the other): `while (e != NULL) { t = m(e); e = t -> opp; }  return *t;`. -/
def walk (g : HEGraph) (m : Nat → Option Nat) : Nat → Option Nat → Nat → Option Nat
  | _, none, t => some t
  | 0, some _, _ => none
  | fuel + 1, some e, _ => do
      let t ← m e
      let rt ← g.he t
      walk g m fuel rt.opp t

/-- The move of a branch of `nextNull`: `next` when clockwise, `next -> next` otherwise. -/
def mv (g : HEGraph) (c : Bool) : Nat → Option Nat := if c then g.next else g.prev

/-- The moves `m` and `m'` stay among the half-edges of `g`, and `m'` undoes `m`. -/
structure Move (g : HEGraph) (m m' : Nat → Option Nat) : Prop where
  total : ∀ x, x < g.mHalfEdge.length → ∃ y, y < g.mHalfEdge.length ∧ m x = some y
  inv : ∀ x y, m x = some y → m' y = some x

/-- One round of the loop of `walk` as a total function: `t ↦ m(t.opp)`. -/
def roundOf (g : HEGraph) (m : Nat → Option Nat) (t : Nat) : Nat :=
  ((g.opp t).bind m).getD 0

/-- The half-edge `nextNull(s)` returns, as a total function. -/
def nextNullD (g : HEGraph) (fuel : Nat) (s : Bool) (e : Nat) : Nat :=
  (g.nextNull fuel s e).getD 0

/-- The list `m` has the records of `l` up to their `opp` and `bVisited` fields. -/
structure SameLinks (l m : List HalfEdge) : Prop where
  len : m.length = l.length
  hnext : ∀ i : Nat,
    (m[i]?).bind (fun r : HalfEdge => r.next) = (l[i]?).bind (fun r : HalfEdge => r.next)
  hface : ∀ i : Nat,
    (m[i]?).bind (fun r : HalfEdge => r.face) = (l[i]?).bind (fun r : HalfEdge => r.face)
  hnode : ∀ i : Nat,
    (m[i]?).bind (fun r : HalfEdge => r.node) = (l[i]?).bind (fun r : HalfEdge => r.node)

/-- A graph `g'` that keeps the `next`, `face` and `node` links of the half-edges of `g`
and has three more half-edges, linked in a cycle and carrying one new face. -/
structure TriExt (g g' : HEGraph) : Prop where
  len : g'.mHalfEdge.length = g.mHalfEdge.length + 3
  faces : g'.mFace = g.mFace ++ [{ edge := some g.mHalfEdge.length }]
  next_old : ∀ i, i < g.mHalfEdge.length → g'.next i = g.next i
  face_old : ∀ i, i < g.mHalfEdge.length → g'.face i = g.face i
  node_old : ∀ i, i < g.mHalfEdge.length → g'.node i = g.node i
  next0 : g'.next g.mHalfEdge.length = some (g.mHalfEdge.length + 1)
  next1 : g'.next (g.mHalfEdge.length + 1) = some (g.mHalfEdge.length + 2)
  next2 : g'.next (g.mHalfEdge.length + 2) = some g.mHalfEdge.length
  face0 : g'.face g.mHalfEdge.length = some g.mFace.length
  face1 : g'.face (g.mHalfEdge.length + 1) = some g.mFace.length
  face2 : g'.face (g.mHalfEdge.length + 2) = some g.mFace.length

/-- Records of the half-edges of the graph `HEGraph::insert` returns, in the case where
`e.next` is a half-edge other than `e`. -/
def insertHE (g : HEGraph) (e e1 : Nat) (re r1 : HalfEdge) (i : Nat) : Option HalfEdge :=
  if i = e then some { re with node := some g.mNode.length, next := some g.mHalfEdge.length }
  else if i = e1 then
    some { r1 with face := some g.mFace.length, next := some (g.mHalfEdge.length + 1) }
  else if i < g.mHalfEdge.length then g.he i
  else if i = g.mHalfEdge.length then
    some { HalfEdge.new with opp := some (g.mHalfEdge.length + 1), node := r1.node,
                             next := r1.next, face := re.face }
  else if i = g.mHalfEdge.length + 1 then
    some { HalfEdge.new with opp := some g.mHalfEdge.length,
                             next := some (g.mHalfEdge.length + 2),
                             node := some g.mNode.length, face := some g.mFace.length }
  else if i = g.mHalfEdge.length + 2 then
    some { HalfEdge.new with node := re.node, face := some g.mFace.length, opp := re.opp,
                             next := re.next }
  else none

/-- What `HEGraph::insert` does to a triangulated graph: the half-edge `e` of the face `F`
with cycle `e`, `e1`, `e2`, and the links of the returned graph. -/
structure InsertView (g g' : HEGraph) (pa e : Nat) : Prop where
  ex : ∃ re r1 r2 e1 e2 F rF, g.he e = some re ∧ re.next = some e1 ∧ g.he e1 = some r1 ∧
    r1.next = some e2 ∧ g.he e2 = some r2 ∧ r2.next = some e ∧ re.face = some F ∧
    r1.face = some F ∧ r2.face = some F ∧ g.mFace[F]? = some rF ∧
    e1 ≠ e ∧ e2 ≠ e1 ∧ e2 ≠ e ∧
    (∀ i, g'.he i = insertHE g e e1 re r1 i) ∧
    g'.mHalfEdge.length = g.mHalfEdge.length + 3 ∧
    g'.mFace = (g.mFace ++ [({ edge := some (g.mHalfEdge.length + 2) } : Face)]).set F
      { rF with edge := some e } ∧
    g'.mNode = g.mNode ++
      [{ Node.new with ptr := some pa, edge := some (g.mHalfEdge.length + 2) }] ∧
    (∀ i, g'.next i =
      if i = e then some g.mHalfEdge.length
      else if i = e1 then some (g.mHalfEdge.length + 1)
      else if i < g.mHalfEdge.length then g.next i
      else if i = g.mHalfEdge.length then some e2
      else if i = g.mHalfEdge.length + 1 then some (g.mHalfEdge.length + 2)
      else if i = g.mHalfEdge.length + 2 then some e1 else none) ∧
    (∀ i, g'.face i =
      if i = e then some F
      else if i = e1 then some g.mFace.length
      else if i < g.mHalfEdge.length then g.face i
      else if i = g.mHalfEdge.length then some F
      else if i = g.mHalfEdge.length + 1 then some g.mFace.length
      else if i = g.mHalfEdge.length + 2 then some g.mFace.length else none) ∧
    (∀ i, g'.node i =
      if i = e then some g.mNode.length
      else if i < g.mHalfEdge.length then g.node i
      else if i = g.mHalfEdge.length then r1.node
      else if i = g.mHalfEdge.length + 1 then some g.mNode.length
      else if i = g.mHalfEdge.length + 2 then re.node else none) ∧
    (∀ i, g'.opp i =
      if i < g.mHalfEdge.length then g.opp i
      else if i = g.mHalfEdge.length then some (g.mHalfEdge.length + 1)
      else if i = g.mHalfEdge.length + 1 then some g.mHalfEdge.length
      else if i = g.mHalfEdge.length + 2 then re.opp else none)

/-! ## Methods of `HEGraph::Node` and further queries

A method of `Node` is called on the node stored at position `self` of `mNode`.  A vector
of pointers the source returns is a list of handles; where the source can push a `NULL`
pointer the entries are `Option Nat`. -/

/-- Source: `HalfEdge::ccwFrom(eb)` called on `self`: `node == eb.prev().node`. -/
def ccwFrom (g : HEGraph) (self eb : Nat) : Option Bool := do
  let r ← g.he self
  let pb ← g.prev eb
  let rpb ← g.he pb
  pure (decide (r.node = rpb.node))

/-- Source: `HalfEdge::cwFrom(eb)` called on `self`: `prev().node == eb.node`. -/
def cwFrom (g : HEGraph) (self eb : Nat) : Option Bool := do
  let p ← g.prev self
  let rp ← g.he p
  let rb ← g.he eb
  pure (decide (rp.node = rb.node))

/-- Source: `HalfEdge::isOpp(eb)` called on `self`:
`( node == eb.prev().node ) && ( prev().node == eb.node )`; the second comparison is
evaluated only when the first one holds. -/
def isOpp (g : HEGraph) (self eb : Nat) : Option Bool := do
  let a ← g.ccwFrom self eb
  if a then g.cwFrom self eb else pure false

/-- Loop of `Node::closed`, entered with `e` not `NULL`:
`while ( e != edge -> next -> next ){ e = e -> next -> opp; if (e == NULL) return false; }
return true;`. -/
def closedLoop (g : HEGraph) (edge : Nat) : Nat → Nat → Option Bool
  | 0, _ => none
  | fuel + 1, e => do
      let redge ← g.he edge
      let n ← redge.next
      let rn ← g.he n
      if some e = rn.next then some true else do
        let re ← g.he e
        let t ← re.next
        let rt ← g.he t
        match rt.opp with
        | none => some false
        | some e1 => closedLoop g edge fuel e1

/-- Source: `Node::closed`: `HalfEdge * e = edge -> opp; if (e == NULL) return false;`
followed by the loop `closedLoop`. -/
def closed (g : HEGraph) (fuel : Nat) (self : Nat) : Option Bool := do
  let rs ← g.mNode[self]?
  let edge ← rs.edge
  let redge ← g.he edge
  match redge.opp with
  | none => some false
  | some e => closedLoop g edge fuel e

/-- Loop of the closed branch of `Node::valence`:
`do { tmp.push_back(e); e = e -> next -> next -> opp; } while( e != edge );`.
A `NULL` reached here differs from `edge`, so the next round dereferences it. -/
def valenceCycle (g : HEGraph) (edge : Nat) : Nat → Nat → List Nat → Option (List Nat)
  | 0, _, _ => none
  | fuel + 1, e, tmp => do
      let re ← g.he e
      let n ← re.next
      let rn ← g.he n
      let p ← rn.next
      let rp ← g.he p
      let e1 ← rp.opp
      if e1 = edge then some (tmp ++ [e]) else valenceCycle g edge fuel e1 (tmp ++ [e])

/-- Second loop of the open branch of `Node::valence`:
`while(e != NULL){ tmp.push_back(e); e = e -> next -> next -> opp; }`. -/
def valenceOpen (g : HEGraph) : Nat → Option Nat → List Nat → Option (List Nat)
  | _, none, tmp => some tmp
  | 0, some _, _ => none
  | fuel + 1, some e, tmp => do
      let re ← g.he e
      let n ← re.next
      let rn ← g.he n
      let p ← rn.next
      let rp ← g.he p
      valenceOpen g fuel rp.opp (tmp ++ [e])

/-- Source: `Node::valence`.  The first loop of the open branch,
`auto te = edge->opp; while (te != NULL ){ e = te->next; te = te->next->opp; }`,
is the loop `nextNullCW` entered with `edge -> opp` and `edge`. -/
def valence (g : HEGraph) (fuel : Nat) (self : Nat) : Option (List Nat) := do
  let rs ← g.mNode[self]?
  let c ← g.closed fuel self
  let edge ← rs.edge
  if c then valenceCycle g edge fuel edge []
  else do
    let redge ← g.he edge
    let e ← g.nextNullCW fuel redge.opp edge
    valenceOpen g fuel (some e) []

/-- Source: `Node::neighbors`:
`auto res = valence(); for(auto& i : res){ tmp.push_back( i->node ); }
if( !closed() ) tmp.push_back( res.back()->next->node ); return tmp;`. -/
def neighbors (g : HEGraph) (fuel : Nat) (self : Nat) : Option (List (Option Nat)) := do
  let res ← g.valence fuel self
  let tmp ← res.mapM (fun i => (g.he i).map (fun r => r.node))
  let c ← g.closed fuel self
  if c then some tmp
  else do
    let b ← res.getLast?
    let rb ← g.he b
    let n ← rb.next
    let rn ← g.he n
    some (tmp ++ [rn.node])

/-- Source: `Node::faces`:
`vector<Face*> tmp; for (auto& i : valence() ){ tmp.push_back( i -> face ); }`
and the closing brace: the body has no `return` statement, so control flows off the end
of a function that returns a vector, which is undefined behaviour. -/
def faces (g : HEGraph) (fuel : Nat) (self : Nat) : Option (List (Option Nat)) := do
  let res ← g.valence fuel self
  let _tmp ← res.mapM (fun i => (g.he i).map (fun r => r.face))
  none

/-- First loop of `Node::nulls`, returning the final value of `e`:
`while ( e != NULL && e != edge -> next -> next ){ e = e -> next -> opp; }`. -/
def nullsFirst (g : HEGraph) (edge : Nat) : Nat → Option Nat → Option (Option Nat)
  | _, none => some none
  | 0, some _ => none
  | fuel + 1, some e => do
      let redge ← g.he edge
      let n ← redge.next
      let rn ← g.he n
      if some e = rn.next then some (some e) else do
        let re ← g.he e
        let t ← re.next
        let rt ← g.he t
        nullsFirst g edge fuel rt.opp

/-- Second loop of `Node::nulls`, returning the final value of `e`:
`while ( e != NULL ){ e = e -> next -> next -> opp; }`. -/
def nullsSecond (g : HEGraph) : Nat → Option Nat → Option (Option Nat)
  | _, none => some none
  | 0, some _ => none
  | fuel + 1, some e => do
      let re ← g.he e
      let n ← re.next
      let rn ← g.he n
      let p ← rn.next
      let rp ← g.he p
      nullsSecond g fuel rp.opp

/-- Source: `Node::nulls`:
`HalfEdge * e = edge -> opp;` first loop; `if (e == NULL ){ tmp.push_back( e );
e = edge -> next -> next -> opp;` second loop; `tmp.push_back(e); } return tmp;`. -/
def nulls (g : HEGraph) (fuel : Nat) (self : Nat) : Option (List (Option Nat)) := do
  let rs ← g.mNode[self]?
  let edge ← rs.edge
  let redge ← g.he edge
  let e ← nullsFirst g edge fuel redge.opp
  if e = none then do
    let tmp := [e]
    let n ← redge.next
    let rn ← g.he n
    let p ← rn.next
    let rp ← g.he p
    let e2 ← nullsSecond g fuel rp.opp
    some (tmp ++ [e2])
  else some []

/-- The dispatch the specification states for `add(v)`: `addNode(v)` while fewer than
two nodes exist, `addNode(v)` followed by `seedNodes()` on the third node, and
`addAt(v, lastEdge())` from then on. -/
def addSpec (v : Nat) (g : HEGraph) : Option HEGraph :=
  if g.mNode.length < 2 then some (g.addNode v)
  else if g.mNode.length = 2 then (g.addNode v).seedNodes
  else g.lastEdge.bind (fun e => g.addAt v e)

/-- Every sealed pair joins the same two nodes in opposite directions: `e.isOpp(f)` holds
whenever `e.opp = f`. -/
def OppGeo (g : HEGraph) : Prop := ∀ a b, g.opp a = some b → g.isOpp a b = some true

instance (g : HEGraph) : Decidable (OppGeo g) :=
  decidable_of_iff (∀ a, a < g.mHalfEdge.length → ∀ b ∈ g.opp a, g.isOpp a b = some true) (by
    constructor
    · intro hs a b hab
      have hlt : a < g.mHalfEdge.length := by
        unfold opp he at hab
        obtain ⟨r, hr, _⟩ := Option.bind_eq_some.1 hab
        exact (List.getElem?_eq_some.1 hr).1
      exact hs a hlt b hab
    · intro hs a _ b hb
      exact hs a b hb)

/-- One face of four border half-edges `0 → 1 → 2 → 3 → 0`, the half-edge `i` pointing to
the node `i`. -/
def quad0 : HEGraph :=
  { mHalfEdge := [{ HalfEdge.new with node := some 0, face := some 0, next := some 1 },
                  { HalfEdge.new with node := some 1, face := some 0, next := some 2 },
                  { HalfEdge.new with node := some 2, face := some 0, next := some 3 },
                  { HalfEdge.new with node := some 3, face := some 0, next := some 0 }]
    mFace := [{ edge := some 0 }]
    mNode := [{ ptr := some 10, edge := some 1, bVisited := false },
              { ptr := some 11, edge := some 2, bVisited := false },
              { ptr := some 12, edge := some 3, bVisited := false },
              { ptr := some 13, edge := some 0, bVisited := false }] }

/-- One round of the loops of `Node::valence` that collect half-edges, as a total
function: `e ↦ e -> next -> next -> opp`. -/
def spokeOf (g : HEGraph) (e : Nat) : Nat := ((g.prev e).bind g.opp).getD 0

/-! ## Bookkeeping methods of the graph -/

/-- Source: `HEGraph::removeFacet(int idx)`: the body is empty. -/
def removeFacet (_idx : Int) (g : HEGraph) : HEGraph := g

/-- Source: `HEGraph::removeEdge(int idx)`: the body is empty. -/
def removeEdge (_idx : Int) (g : HEGraph) : HEGraph := g

/-- Source: `HEGraph::reset`:
`for (auto& i : mHalfEdge){ i -> bVisited = false; } for (auto& i : mNode){ i -> visited(false); }`. -/
def reset (g : HEGraph) : HEGraph :=
  { g with mHalfEdge := g.mHalfEdge.map (fun r => { r with bVisited := false })
           mNode := g.mNode.map (fun r => { r with bVisited := false }) }

/-- Source: `HEGraph::clear`: `mHalfEdge.clear(); mFace.clear(); mNode.clear();`. -/
def clear (_g : HEGraph) : HEGraph := { mHalfEdge := [], mFace := [], mNode := [] }

/-- Successive calls `add(v)` for the points `v` of `ps`, in order. -/
def addAll (ps : List Nat) (g : HEGraph) : Option HEGraph := ps.foldlM (fun g v => g.add v) g

/-- The fields of a half-edge other than `opp`: `bVisited`, `node`, `face`, `next`. -/
def heLinks (r : HalfEdge) : Bool × Option Nat × Option Nat × Option Nat :=
  (r.bVisited, r.node, r.face, r.next)

/-- The fields `bVisited` and `opp` of a half-edge. -/
def heSeal (r : HalfEdge) : Bool × Option Nat := (r.bVisited, r.opp)

/-- The fields of a node other than `edge`: the vertex data `ptr` and `bVisited`. -/
def nodeData (r : Node) : Option Nat × Bool := (r.ptr, r.bVisited)

/-- No record of the arena `l` is removed or re-indexed in the arena `l'`: every position
of `l` is a position of `l'`, the record stored there has the same fields `c`, and it is
the same record unless the position is one of the positions `W` written in place. -/
def Keep {α β : Type} (c : α → β) (W : Nat → Prop) (l l' : List α) : Prop :=
  ∀ i r, l[i]? = some r → ∃ r', l'[i]? = some r' ∧ c r' = c r ∧ (¬ W i → r' = r)

/-- The target of an `opp` link is not a border half-edge: `a.opp = b` gives
`b.opp != NULL`. -/
def OppLive (g : HEGraph) : Prop := ∀ a b, g.opp a = some b → g.opp b ≠ none

/-- The graph `close(edge(0))` builds from the seeded triangle `tri0`: two faces glued
along all three edges, no border half-edge. -/
def tri2 : HEGraph :=
  { mHalfEdge :=
      [{ bVisited := false, node := some 1, face := some 0, opp := some 3, next := some 1 },
       { bVisited := false, node := some 2, face := some 0, opp := some 5, next := some 2 },
       { bVisited := false, node := some 0, face := some 0, opp := some 4, next := some 0 },
       { bVisited := false, node := some 0, face := some 1, opp := some 0, next := some 4 },
       { bVisited := false, node := some 2, face := some 1, opp := some 2, next := some 5 },
       { bVisited := false, node := some 1, face := some 1, opp := some 1, next := some 3 }]
    mFace := [{ edge := some 0 }, { edge := some 3 }]
    mNode := tri0.mNode }

/-- The seeded triangle extended by `addAt(v, edge(2))`, with the `opp` of the half-edge 2
cleared: the half-edge 4 still names 2 as its opposite, so `opp` is not symmetric. -/
def oneWay : HEGraph :=
  { mHalfEdge :=
      [{ bVisited := false, node := some 1, face := some 0, opp := none, next := some 1 },
       { bVisited := false, node := some 2, face := some 0, opp := none, next := some 2 },
       { bVisited := false, node := some 0, face := some 0, opp := none, next := some 0 },
       { bVisited := false, node := some 0, face := some 1, opp := none, next := some 4 },
       { bVisited := false, node := some 2, face := some 1, opp := some 2, next := some 5 },
       { bVisited := false, node := some 3, face := some 1, opp := none, next := some 3 }]
    mFace := [{ edge := some 0 }, { edge := some 3 }]
    mNode := [{ ptr := some 10, edge := some 0, bVisited := false },
              { ptr := some 11, edge := some 1, bVisited := false },
              { ptr := some 12, edge := some 2, bVisited := false },
              { ptr := some 13, edge := some 3, bVisited := false }] }

/-- Four border half-edges with `next` links `0 → 1 → 2 → 3 → 1`, the half-edge `i`
pointing to the node `i`: `next` has no period 3 at the half-edge 0. -/
def lasso : HEGraph :=
  { mHalfEdge := [{ HalfEdge.new with node := some 0, face := some 0, next := some 1 },
                  { HalfEdge.new with node := some 1, face := some 0, next := some 2 },
                  { HalfEdge.new with node := some 2, face := some 0, next := some 3 },
                  { HalfEdge.new with node := some 3, face := some 0, next := some 1 }]
    mFace := [{ edge := some 0 }]
    mNode := [{ ptr := some 10, edge := some 1, bVisited := false },
              { ptr := some 11, edge := some 2, bVisited := false },
              { ptr := some 12, edge := some 3, bVisited := false },
              { ptr := some 13, edge := some 0, bVisited := false }] }

/-- The face `f` is a cycle of three half-edges one of which points to the node `v`. -/
def hasVertex (g : HEGraph) (f v : Nat) : Prop :=
  ∃ h a b, g.faceEdge f = some h ∧ g.next h = some a ∧ g.next a = some b ∧
    g.next b = some h ∧ (g.node h = some v ∨ g.node a = some v ∨ g.node b = some v)

/-- The state `add` keeps once three nodes are seeded: `n` nodes, `n - 2` faces,
`3 * (n - 2)` half-edges, `n` border half-edges, every face with the node 2 as a vertex,
and a border last half-edge `l` with `l.next.next.node` the node 2. -/
structure Fan (g : HEGraph) (n : Nat) : Prop where
  three : 3 ≤ n
  nodes : g.mNode.length = n
  faces : g.mFace.length = n - 2
  edges : g.mHalfEdge.length = 3 * (n - 2)
  border : g.nullEdges.length = n
  vertex : ∀ f, f < g.mFace.length → hasVertex g f 2
  last : ∃ l e1 e2, g.lastEdge = some l ∧ g.isBorder l = true ∧ g.next l = some e1 ∧
    g.next e1 = some e2 ∧ g.node e2 = some 2

/-! ## Invariants -/

/-! ## Reading lists and records -/

theorem app3_get {α : Type} (m : List α) (a b c : α) (s i : Nat) (hm : m.length = s) :
    (m ++ [a, b, c])[i]? =
      if i < s then m[i]? else if i = s then some a else if i = s + 1 then some b
      else if i = s + 2 then some c else none := by
  subst hm
  by_cases h : i < m.length
  · simp [h, List.getElem?_append_left]
  · rw [List.getElem?_append_right (by omega)]
    simp only [h, if_false]
    obtain ⟨k, rfl⟩ : ∃ k, i = m.length + k := ⟨i - m.length, by omega⟩
    simp only [Nat.add_sub_cancel_left]
    match k with
    | 0 => simp
    | 1 => simp
    | 2 => simp
    | k + 3 => simp

theorem he_lt {g : HEGraph} {i : Nat} {r : HalfEdge} (h : g.he i = some r) :
    i < g.mHalfEdge.length := by
  unfold he at h
  exact (List.getElem?_eq_some.1 h).1

theorem next_lt {g : HEGraph} {i a : Nat} (h : g.next i = some a) :
    i < g.mHalfEdge.length := by
  unfold next at h
  obtain ⟨r, hr, _⟩ := Option.bind_eq_some.1 h
  exact he_lt hr

theorem opp_lt {g : HEGraph} {i a : Nat} (h : g.opp i = some a) :
    i < g.mHalfEdge.length := by
  unfold opp at h
  obtain ⟨r, hr, _⟩ := Option.bind_eq_some.1 h
  exact he_lt hr

theorem he_of_lt {g : HEGraph} {i : Nat} (h : i < g.mHalfEdge.length) :
    ∃ r, g.he i = some r := ⟨_, List.getElem?_eq_getElem h⟩

theorem SameLinks.refl (l : List HalfEdge) : SameLinks l l :=
  ⟨rfl, fun _ => rfl, fun _ => rfl, fun _ => rfl⟩

theorem SameLinks.set_opp {l m : List HalfEdge} (h : SameLinks l m) {e : Nat} {r : HalfEdge}
    (he : m[e]? = some r) (x : Option Nat) : SameLinks l (m.set e { r with opp := x }) := by
  have hlt : e < m.length := (List.getElem?_eq_some.1 he).1
  have key : ∀ (p : HalfEdge → Option Nat), (∀ q : HalfEdge, p { q with opp := x } = p q) →
      ∀ i : Nat, ((m.set e { r with opp := x })[i]?).bind p = (m[i]?).bind p := by
    intro p hp i
    rw [List.getElem?_set]
    by_cases hi : e = i
    · subst hi
      simp [hlt, he, hp]
    · simp [hi]
  refine ⟨by simp [h.len], fun i => ?_, fun i => ?_, fun i => ?_⟩
  · rw [key (fun r => r.next) (fun _ => rfl), h.hnext]
  · rw [key (fun r => r.face) (fun _ => rfl), h.hface]
  · rw [key (fun r => r.node) (fun _ => rfl), h.hnode]

theorem TriExt.of_sameLinks (g : HEGraph) (m : List HalfEdge) (ea eb ec : HalfEdge)
    (ns : List Node) (hm : SameLinks g.mHalfEdge m)
    (na : ea.next = some (g.mHalfEdge.length + 1)) (nb : eb.next = some (g.mHalfEdge.length + 2))
    (nc : ec.next = some g.mHalfEdge.length) (fa0 : ea.face = some g.mFace.length)
    (fb0 : eb.face = some g.mFace.length) (fc0 : ec.face = some g.mFace.length) :
    TriExt g { mHalfEdge := m ++ [ea, eb, ec],
               mFace := g.mFace ++ [{ edge := some g.mHalfEdge.length }], mNode := ns } := by
  constructor
  · simp [hm.len]
  · rfl
  · intro i hi
    simp only [next, he]
    rw [app3_get m _ _ _ _ i hm.len, if_pos hi]
    exact hm.hnext i
  · intro i hi
    simp only [face, he]
    rw [app3_get m _ _ _ _ i hm.len, if_pos hi]
    exact hm.hface i
  · intro i hi
    simp only [node, he]
    rw [app3_get m _ _ _ _ i hm.len, if_pos hi]
    exact hm.hnode i
  all_goals simp only [next, face, he]
  all_goals rw [app3_get m _ _ _ _ _ hm.len]
  all_goals simp [na, nb, nc, fa0, fb0, fc0]

theorem TriExt.flen {g g' : HEGraph} (x : TriExt g g') :
    g'.mFace.length = g.mFace.length + 1 := by
  rw [x.faces]; simp

theorem TriExt.nextCycle {g g' : HEGraph} (x : TriExt g g') (hc : NextCycle g) :
    NextCycle g' := by
  intro h hh
  rw [x.len] at hh
  by_cases hlt : h < g.mHalfEdge.length
  · obtain ⟨a, b, f, h1, h2, h3, h4, h5, h6, h7⟩ := hc h hlt
    have ha := next_lt h2
    have hb := next_lt h3
    refine ⟨a, b, f, ?_, ?_, ?_, ?_, ?_, ?_, ?_⟩
    · rw [x.next_old h hlt, h1]
    · rw [x.next_old a ha, h2]
    · rw [x.next_old b hb, h3]
    · rw [x.face_old h hlt, h4]
    · rw [x.face_old a ha, h5]
    · rw [x.face_old b hb, h6]
    · rw [x.flen]; omega
  · have hf : g.mFace.length < g'.mFace.length := by rw [x.flen]; omega
    have hcases : h = g.mHalfEdge.length ∨ h = g.mHalfEdge.length + 1 ∨
        h = g.mHalfEdge.length + 2 := by omega
    rcases hcases with rfl | rfl | rfl
    · exact ⟨_, _, _, x.next0, x.next1, x.next2, x.face0, x.face1, x.face2, hf⟩
    · exact ⟨_, _, _, x.next1, x.next2, x.next0, x.face1, x.face2, x.face0, hf⟩
    · exact ⟨_, _, _, x.next2, x.next0, x.next1, x.face2, x.face0, x.face1, hf⟩

theorem TriExt.tri {g g' : HEGraph} (x : TriExt g g') (hc : Tri g) : Tri g' := by
  refine ⟨x.nextCycle hc.1, ?_⟩
  intro h hlt hh
  rw [x.len] at hlt
  by_cases hl : h < g.mHalfEdge.length
  · rw [x.next_old h hl] at hh
    exact hc.2 h hl hh
  · have hcases : h = g.mHalfEdge.length ∨ h = g.mHalfEdge.length + 1 ∨
        h = g.mHalfEdge.length + 2 := by omega
    rcases hcases with rfl | rfl | rfl
    · rw [x.next0] at hh; simp at hh
    · rw [x.next1] at hh; simp at hh
    · rw [x.next2] at hh; simp at hh

theorem addAt_some {g g' : HEGraph} {v e : Nat} (h : g.addAt v e = some g') :
    ∃ re e1 r1 e2 r2, g.he e = some re ∧ re.next = some e1 ∧ g.he e1 = some r1 ∧
      r1.next = some e2 ∧ g.he e2 = some r2 ∧ g' =
      { mHalfEdge := g.mHalfEdge.set e { re with opp := some (g.mHalfEdge.length + 1) } ++
          [{ HalfEdge.new with next := some (g.mHalfEdge.length + 1),
                               face := some g.mFace.length, node := re.node },
           { HalfEdge.new with next := some (g.mHalfEdge.length + 2),
                               face := some g.mFace.length, opp := some e, node := r2.node },
           { HalfEdge.new with next := some g.mHalfEdge.length,
                               face := some g.mFace.length, node := some g.mNode.length }]
        mFace := g.mFace ++ [{ edge := some g.mHalfEdge.length }]
        mNode := g.mNode ++ [{ Node.new with ptr := some v, edge := some g.mHalfEdge.length }] } := by
  simp only [addAt, Option.bind_eq_bind, Option.bind_eq_some] at h
  obtain ⟨re, h0, e1, h1, r1, h2, e2, h3, r2, h4, h5⟩ := h
  exact ⟨re, e1, r1, e2, r2, h0, h1, h2, h3, h4, (Option.some.inj h5).symm⟩

theorem addAt_triExt {g g' : HEGraph} {v e : Nat} (h : g.addAt v e = some g') : TriExt g g' := by
  obtain ⟨re, e1, r1, e2, r2, h0, h1, h2, h3, h4, rfl⟩ := addAt_some h
  exact TriExt.of_sameLinks g _ _ _ _ _ ((SameLinks.refl _).set_opp h0 _) rfl rfl rfl rfl rfl rfl

theorem seedNodes_some {g g' : HEGraph} (h : g.seedNodes = some g') :
    ∃ na nb nc, g.mNode[0]? = some na ∧ g.mNode[1]? = some nb ∧ g.mNode[2]? = some nc ∧ g' =
      { mHalfEdge := g.mHalfEdge ++
          [{ HalfEdge.new with node := some 1, next := some (g.mHalfEdge.length + 1),
                               face := some g.mFace.length },
           { HalfEdge.new with node := some 2, next := some (g.mHalfEdge.length + 2),
                               face := some g.mFace.length },
           { HalfEdge.new with node := some 0, next := some g.mHalfEdge.length,
                               face := some g.mFace.length }]
        mFace := g.mFace ++ [{ edge := some g.mHalfEdge.length }]
        mNode := ((g.mNode.set 0 { na with edge := some g.mHalfEdge.length }).set 1
                    { nb with edge := some (g.mHalfEdge.length + 1) }).set 2
                    { nc with edge := some (g.mHalfEdge.length + 2) } } := by
  simp only [seedNodes, Option.bind_eq_bind, Option.bind_eq_some] at h
  obtain ⟨na, h0, nb, h1, nc, h2, h3⟩ := h
  exact ⟨na, nb, nc, h0, h1, h2, (Option.some.inj h3).symm⟩

theorem seedNodes_triExt {g g' : HEGraph} (h : g.seedNodes = some g') : TriExt g g' := by
  obtain ⟨na, nb, nc, -, -, -, rfl⟩ := seedNodes_some h
  exact TriExt.of_sameLinks g _ _ _ _ _ (SameLinks.refl _) rfl rfl rfl rfl rfl rfl

theorem prev_some {g : HEGraph} {e p : Nat} (h : g.prev e = some p) :
    ∃ a, g.next e = some a ∧ g.next a = some p := by
  unfold prev at h
  exact Option.bind_eq_some.1 h

theorem close2_some {g g' : HEGraph} {ha hb : Nat} (h : g.close2 ha hb = some g') :
    ∃ ra rb pb rpb pa rpa rb1, g.he ha = some ra ∧ g.he hb = some rb ∧ g.prev hb = some pb ∧
      g.he pb = some rpb ∧ g.prev ha = some pa ∧ g.he pa = some rpa ∧
      (g.mHalfEdge.set ha { ra with opp := some (g.mHalfEdge.length + 1) })[hb]? = some rb1 ∧
      g' =
      { mHalfEdge := (g.mHalfEdge.set ha { ra with opp := some (g.mHalfEdge.length + 1) }).set hb
            { rb1 with opp := some g.mHalfEdge.length } ++
          [{ HalfEdge.new with next := some (g.mHalfEdge.length + 1),
                               face := some g.mFace.length, node := rpb.node, opp := some hb },
           { HalfEdge.new with next := some (g.mHalfEdge.length + 2),
                               face := some g.mFace.length, node := rpa.node, opp := some ha },
           { HalfEdge.new with next := some g.mHalfEdge.length,
                               face := some g.mFace.length, node := rb.node }]
        mFace := g.mFace ++ [{ edge := some g.mHalfEdge.length }]
        mNode := g.mNode } := by
  simp only [close2, Option.bind_eq_bind, Option.bind_eq_some] at h
  obtain ⟨ra, h0, rb, h1, pb, h2, rpb, h3, pa, h4, rpa, h5, rb1, h6, h7⟩ := h
  exact ⟨ra, rb, pb, rpb, pa, rpa, rb1, h0, h1, h2, h3, h4, h5, h6, (Option.some.inj h7).symm⟩

theorem close2_triExt {g g' : HEGraph} {ha hb : Nat} (h : g.close2 ha hb = some g') :
    TriExt g g' := by
  obtain ⟨ra, rb, pb, rpb, pa, rpa, rb1, h0, -, -, -, -, -, h6, rfl⟩ := close2_some h
  exact TriExt.of_sameLinks g _ _ _ _ _ (((SameLinks.refl _).set_opp h0 _).set_opp h6 _)
    rfl rfl rfl rfl rfl rfl

theorem closeN_some {g g' : HEGraph} {e n : Nat} (h : g.closeN e n = some g') :
    ∃ re p rp rn, g.he e = some re ∧ g.prev e = some p ∧ g.he p = some rp ∧
      g.mNode[n]? = some rn ∧ g' =
      { mHalfEdge := g.mHalfEdge.set e { re with opp := some (g.mHalfEdge.length + 1) } ++
          [{ HalfEdge.new with next := some (g.mHalfEdge.length + 1),
                               face := some g.mFace.length, node := re.node },
           { HalfEdge.new with next := some (g.mHalfEdge.length + 2),
                               face := some g.mFace.length, node := rp.node, opp := some e },
           { HalfEdge.new with next := some g.mHalfEdge.length,
                               face := some g.mFace.length, node := some n }]
        mFace := g.mFace ++ [{ edge := some g.mHalfEdge.length }]
        mNode := g.mNode } := by
  simp only [closeN, Option.bind_eq_bind, Option.bind_eq_some] at h
  obtain ⟨re, h0, p, h1, rp, h2, rn, h3, h4⟩ := h
  exact ⟨re, p, rp, rn, h0, h1, h2, h3, (Option.some.inj h4).symm⟩

theorem closeN_triExt {g g' : HEGraph} {e n : Nat} (h : g.closeN e n = some g') :
    TriExt g g' := by
  obtain ⟨re, p, rp, rn, h0, -, -, -, rfl⟩ := closeN_some h
  exact TriExt.of_sameLinks g _ _ _ _ _ ((SameLinks.refl _).set_opp h0 _) rfl rfl rfl rfl rfl rfl

theorem close_some {g g' : HEGraph} {fuel e : Nat} (h : g.close fuel e = some g') :
    ∃ tb tc re rtb rtc rtb1 rtc1, g.nextNull fuel false e = some tb ∧
      g.nextNull fuel true e = some tc ∧ g.he e = some re ∧ g.he tb = some rtb ∧
      g.he tc = some rtc ∧
      (g.mHalfEdge.set e { re with opp := some g.mHalfEdge.length })[tb]? = some rtb1 ∧
      ((g.mHalfEdge.set e { re with opp := some g.mHalfEdge.length }).set tb
          { rtb1 with opp := some (g.mHalfEdge.length + 1) })[tc]? = some rtc1 ∧
      g' =
      { mHalfEdge := ((g.mHalfEdge.set e { re with opp := some g.mHalfEdge.length }).set tb
            { rtb1 with opp := some (g.mHalfEdge.length + 1) }).set tc
            { rtc1 with opp := some (g.mHalfEdge.length + 2) } ++
          [{ HalfEdge.new with next := some (g.mHalfEdge.length + 1),
                               face := some g.mFace.length, node := rtb.node, opp := some e },
           { HalfEdge.new with next := some (g.mHalfEdge.length + 2),
                               face := some g.mFace.length, node := rtc.node, opp := some tb },
           { HalfEdge.new with next := some g.mHalfEdge.length,
                               face := some g.mFace.length, node := re.node, opp := some tc }]
        mFace := g.mFace ++ [{ edge := some g.mHalfEdge.length }]
        mNode := g.mNode } := by
  simp only [close, Option.bind_eq_bind, Option.bind_eq_some] at h
  obtain ⟨tb, h0, tc, h1, re, h2, rtb, h3, rtc, h4, rtb1, h5, rtc1, h6, h7⟩ := h
  exact ⟨tb, tc, re, rtb, rtc, rtb1, rtc1, h0, h1, h2, h3, h4, h5, h6,
    (Option.some.inj h7).symm⟩

theorem close_triExt {g g' : HEGraph} {fuel e : Nat} (h : g.close fuel e = some g') :
    TriExt g g' := by
  obtain ⟨tb, tc, re, rtb, rtc, rtb1, rtc1, -, -, h2, -, -, h5, h6, rfl⟩ := close_some h
  exact TriExt.of_sameLinks g _ _ _ _ _
    ((((SameLinks.refl _).set_opp h2 _).set_opp h5 _).set_opp h6 _) rfl rfl rfl rfl rfl rfl

theorem next_eq_some {g : HEGraph} {i a : Nat} :
    g.next i = some a ↔ ∃ r, g.he i = some r ∧ r.next = some a := by
  unfold next; exact Option.bind_eq_some

theorem face_eq_some {g : HEGraph} {i a : Nat} :
    g.face i = some a ↔ ∃ r, g.he i = some r ∧ r.face = some a := by
  unfold face; exact Option.bind_eq_some

theorem opp_eq_some {g : HEGraph} {i a : Nat} :
    g.opp i = some a ↔ ∃ r, g.he i = some r ∧ r.opp = some a := by
  unfold opp; exact Option.bind_eq_some

theorem node_eq_some {g : HEGraph} {i a : Nat} :
    g.node i = some a ↔ ∃ r, g.he i = some r ∧ r.node = some a := by
  unfold node; exact Option.bind_eq_some

theorem he_setHE (g : HEGraph) (x i : Nat) (r : HalfEdge) :
    (g.setHE x r).he i =
      if x = i then (if x < g.mHalfEdge.length then some r else none) else g.he i := by
  simp [setHE, he, List.getElem?_set]

theorem he_insertFresh_old {g : HEGraph} (pa : Nat) (re r1 : HalfEdge) {i : Nat}
    (hi : i < g.mHalfEdge.length) : (g.insertFresh pa re r1).he i = g.he i := by
  simp only [insertFresh, he]
  rw [app3_get _ _ _ _ _ i rfl, if_pos hi]

theorem insert_eq {g : HEGraph} {pa e e1 F : Nat} {re r1 : HalfEdge} {rF : Face}
    (h0 : g.he e = some re) (h1 : re.next = some e1) (h2 : g.he e1 = some r1) (hne : e1 ≠ e)
    (hF : re.face = some F) (hrF : g.mFace[F]? = some rF) :
    g.insert pa e = some
      { mHalfEdge :=
          (((g.insertFresh pa re r1).mHalfEdge.set e1 { r1 with face := some g.mFace.length }).set
            e1 { r1 with face := some g.mFace.length, next := some (g.mHalfEdge.length + 1) }).set
            e { re with node := some g.mNode.length, next := some g.mHalfEdge.length }
        mFace := (g.insertFresh pa re r1).mFace.set F { rF with edge := some e }
        mNode := (g.insertFresh pa re r1).mNode } := by
  have le := he_lt h0
  have le1 := he_lt h2
  have lF : F < g.mFace.length := (List.getElem?_eq_some.1 hrF).1
  have len0 : (g.insertFresh pa re r1).mHalfEdge.length = g.mHalfEdge.length + 3 := by
    simp [insertFresh]
  have a0 : (g.insertFresh pa re r1).he e = some re := by rw [he_insertFresh_old _ _ _ le, h0]
  have a1 : (g.insertFresh pa re r1).he e1 = some r1 := by rw [he_insertFresh_old _ _ _ le1, h2]
  have s1 : (g.insertFresh pa re r1).setNextFace e g.mFace.length =
      some ((g.insertFresh pa re r1).setHE e1 { r1 with face := some g.mFace.length }) := by
    simp [setNextFace, next, a0, a1, h1]
  have b0 : ((g.insertFresh pa re r1).setHE e1 { r1 with face := some g.mFace.length }).he e =
      some re := by
    rw [he_setHE, if_neg hne, a0]
  have b1 : ((g.insertFresh pa re r1).setHE e1 { r1 with face := some g.mFace.length }).he e1 =
      some { r1 with face := some g.mFace.length } := by
    rw [he_setHE, if_pos rfl, if_pos (by omega)]
  have s2 : ((g.insertFresh pa re r1).setHE e1 { r1 with face := some g.mFace.length }).setNextNext
      e (g.mHalfEdge.length + 1) =
      some (((g.insertFresh pa re r1).setHE e1 { r1 with face := some g.mFace.length }).setHE e1
        { r1 with face := some g.mFace.length, next := some (g.mHalfEdge.length + 1) }) := by
    simp [setNextNext, next, b0, b1, h1]
  have c0 : (((g.insertFresh pa re r1).setHE e1 { r1 with face := some g.mFace.length }).setHE e1
        { r1 with face := some g.mFace.length, next := some (g.mHalfEdge.length + 1) }).he e =
      some re := by
    rw [he_setHE, if_neg hne, b0]
  simp only [insert, h0, h1, h2, Option.bind_eq_bind, Option.some_bind, s1, s2]
  have d0 : ((((g.insertFresh pa re r1).setHE e1 { r1 with face := some g.mFace.length }).setHE e1
        { r1 with face := some g.mFace.length, next := some (g.mHalfEdge.length + 1) }).setHE e
        { re with node := some g.mNode.length, next := some g.mHalfEdge.length }).he e =
      some { re with node := some g.mNode.length, next := some g.mHalfEdge.length } := by
    rw [he_setHE, if_pos rfl, if_pos (by simp [setHE, len0]; omega)]
  have d1 : (g.insertFresh pa re r1).mFace[F]? = some rF := by
    simp only [insertFresh]
    rw [List.getElem?_append_left lF, hrF]
  simp only [setNodeNext, c0, Option.bind_eq_bind, Option.some_bind, Option.pure_def, setFaceEdge,
    face, d0]
  simp only [hF, setHE, d1, Option.some_bind]

theorem insert_he {g g' : HEGraph} {pa e e1 F : Nat} {re r1 : HalfEdge} {rF : Face}
    (h0 : g.he e = some re) (h1 : re.next = some e1) (h2 : g.he e1 = some r1) (hne : e1 ≠ e)
    (hF : re.face = some F) (hrF : g.mFace[F]? = some rF) (h : g.insert pa e = some g') :
    (∀ i, g'.he i = insertHE g e e1 re r1 i) ∧
      g'.mHalfEdge.length = g.mHalfEdge.length + 3 ∧
      g'.mFace = (g.mFace ++ [({ edge := some (g.mHalfEdge.length + 2) } : Face)]).set F
        { rF with edge := some e } ∧
      g'.mNode = g.mNode ++
        [{ Node.new with ptr := some pa, edge := some (g.mHalfEdge.length + 2) }] := by
  rw [insert_eq h0 h1 h2 hne hF hrF] at h
  cases h
  have le := he_lt h0
  have le1 := he_lt h2
  refine ⟨fun i => ?_, by simp [insertFresh], rfl, rfl⟩
  simp only [he, insertFresh, insertHE, List.getElem?_set, List.length_set, List.length_append,
    List.length_cons, List.length_nil]
  rw [app3_get _ _ _ _ _ i rfl]
  by_cases hie : i = e
  · subst hie
    simp; omega
  · by_cases hi1 : i = e1
    · subst hi1
      simp [hie, Ne.symm hie]; omega
    · simp [hie, hi1, Ne.symm hie, Ne.symm hi1]

/-- The records around a half-edge `e` of a graph with the next-3-cycle condition. -/
theorem NextCycle.at {g : HEGraph} (hg : NextCycle g) {e : Nat} (he : e < g.mHalfEdge.length) :
    ∃ re r1 r2 e1 e2 F rF, g.he e = some re ∧ re.next = some e1 ∧ g.he e1 = some r1 ∧
      r1.next = some e2 ∧ g.he e2 = some r2 ∧ r2.next = some e ∧ re.face = some F ∧
      r1.face = some F ∧ r2.face = some F ∧ g.mFace[F]? = some rF := by
  obtain ⟨a, b, f, h1, h2, h3, h4, h5, h6, h7⟩ := hg e he
  obtain ⟨re, hre, hre1⟩ := next_eq_some.1 h1
  obtain ⟨r1, hr1, hr11⟩ := next_eq_some.1 h2
  obtain ⟨r2, hr2, hr21⟩ := next_eq_some.1 h3
  obtain ⟨re', hre', hf0⟩ := face_eq_some.1 h4
  obtain ⟨r1', hr1', hf1⟩ := face_eq_some.1 h5
  obtain ⟨r2', hr2', hf2⟩ := face_eq_some.1 h6
  rw [hre] at hre'; cases hre'
  rw [hr1] at hr1'; cases hr1'
  rw [hr2] at hr2'; cases hr2'
  exact ⟨re, r1, r2, a, b, f, _, hre, hre1, hr1, hr11, hr2, hr21, hf0, hf1, hf2,
    List.getElem?_eq_getElem h7⟩

theorem insert_lt {g g' : HEGraph} {pa e : Nat} (h : g.insert pa e = some g') :
    e < g.mHalfEdge.length := by
  simp only [insert, Option.bind_eq_bind, Option.bind_eq_some] at h
  obtain ⟨re, h0, -⟩ := h
  exact he_lt h0

/-- The links of the graph `insert` returns, for a half-edge `e` whose face cycle is
`e`, `e1`, `e2` with `e1` other than `e`. -/
theorem insert_tables {g g' : HEGraph} {pa e e1 F : Nat} {re r1 : HalfEdge} {rF : Face}
    (h0 : g.he e = some re) (h1 : re.next = some e1) (h2 : g.he e1 = some r1) (hne : e1 ≠ e)
    (f0 : re.face = some F) (hrF : g.mFace[F]? = some rF) (h : g.insert pa e = some g') :
    (∀ i, g'.next i =
      if i = e then some g.mHalfEdge.length
      else if i = e1 then some (g.mHalfEdge.length + 1)
      else if i < g.mHalfEdge.length then g.next i
      else if i = g.mHalfEdge.length then r1.next
      else if i = g.mHalfEdge.length + 1 then some (g.mHalfEdge.length + 2)
      else if i = g.mHalfEdge.length + 2 then some e1 else none) ∧
    (∀ i, g'.face i =
      if i = e then some F
      else if i = e1 then some g.mFace.length
      else if i < g.mHalfEdge.length then g.face i
      else if i = g.mHalfEdge.length then some F
      else if i = g.mHalfEdge.length + 1 then some g.mFace.length
      else if i = g.mHalfEdge.length + 2 then some g.mFace.length else none) ∧
    (∀ i, g'.node i =
      if i = e then some g.mNode.length
      else if i < g.mHalfEdge.length then g.node i
      else if i = g.mHalfEdge.length then r1.node
      else if i = g.mHalfEdge.length + 1 then some g.mNode.length
      else if i = g.mHalfEdge.length + 2 then re.node else none) ∧
    (∀ i, g'.opp i =
      if i < g.mHalfEdge.length then g.opp i
      else if i = g.mHalfEdge.length then some (g.mHalfEdge.length + 1)
      else if i = g.mHalfEdge.length + 1 then some g.mHalfEdge.length
      else if i = g.mHalfEdge.length + 2 then re.opp else none) := by
  have hlt := he_lt h0
  have l1 := he_lt h2
  obtain ⟨hhe, -, -, -⟩ := insert_he h0 h1 h2 hne f0 hrF h
  refine ⟨?_, ?_, ?_, ?_⟩
  · intro i
    simp only [next, hhe, insertHE]
    split_ifs <;> simp [HalfEdge.new, h1]
  · intro i
    simp only [face, hhe, insertHE]
    split_ifs <;> simp [HalfEdge.new, f0]
  · intro i
    simp only [node, hhe, insertHE]
    by_cases c0 : i = e
    · simp [c0]
    · by_cases c1 : i = e1
      · have : g.mHalfEdge[e1]? = some r1 := h2
        simp [c1, hne, l1, he, this]
      · simp only [c0, c1, if_false]
        split_ifs <;> simp [HalfEdge.new]
  · intro i
    simp only [opp, hhe, insertHE]
    by_cases c0 : i = e
    · have : g.mHalfEdge[e]? = some re := h0
      simp [c0, hlt, he, this]
    · by_cases c1 : i = e1
      · have : g.mHalfEdge[e1]? = some r1 := h2
        simp [c1, hne, l1, he, this]
      · simp only [c0, c1, if_false]
        split_ifs <;> simp [HalfEdge.new]

theorem insert_view {g g' : HEGraph} {pa e : Nat} (hg : Tri g)
    (h : g.insert pa e = some g') : InsertView g g' pa e := by
  have hlt := insert_lt h
  obtain ⟨re, r1, r2, e1, e2, F, rF, h0, h1, h2, h3, h4, h5, f0, f1, f2, hrF⟩ := hg.1.at hlt
  have n0 : g.next e = some e1 := next_eq_some.2 ⟨_, h0, h1⟩
  have n1 : g.next e1 = some e2 := next_eq_some.2 ⟨_, h2, h3⟩
  have n2 : g.next e2 = some e := next_eq_some.2 ⟨_, h4, h5⟩
  have l1 := he_lt h2
  have hne : e1 ≠ e := fun hh => hg.2 e hlt (hh ▸ n0)
  have hne2 : e2 ≠ e1 := fun hh => hg.2 e1 l1 (hh ▸ n1)
  have hne3 : e2 ≠ e := fun hh => hg.2 e2 (he_lt h4) (by rw [n2, hh])
  obtain ⟨hhe, hlen, hfc, hnd⟩ := insert_he h0 h1 h2 hne f0 hrF h
  obtain ⟨t1, t2, t3, t4⟩ := insert_tables h0 h1 h2 hne f0 hrF h
  rw [h3] at t1
  exact ⟨re, r1, r2, e1, e2, F, rF, h0, h1, h2, h3, h4, h5, f0, f1, f2, hrF, hne, hne2, hne3,
    hhe, hlen, hfc, hnd, t1, t2, t3, t4⟩

theorem insert_nextCycle {g g' : HEGraph} {pa e : Nat} (hg : Tri g)
    (h : g.insert pa e = some g') : NextCycle g' := by
  obtain ⟨re, r1, r2, e1, e2, F, rF, h0, h1, h2, h3, h4, h5, f0, f1, f2, hrF, hne, hne2, hne3,
    hhe, hlen, hfc, -, hnext, hface, -, -⟩ := (insert_view hg h).ex
  have hlt := insert_lt h
  have n0 : g.next e = some e1 := next_eq_some.2 ⟨_, h0, h1⟩
  have n1 : g.next e1 = some e2 := next_eq_some.2 ⟨_, h2, h3⟩
  have n2 : g.next e2 = some e := next_eq_some.2 ⟨_, h4, h5⟩
  have l1 := he_lt h2
  have l2 := he_lt h4
  have lF : F < g.mFace.length := (List.getElem?_eq_some.1 hrF).1
  have hflen : g'.mFace.length = g.mFace.length + 1 := by rw [hfc]; simp
  have fe2 : g.face e2 = some F := face_eq_some.2 ⟨_, h4, f2⟩
  have q0 : g.mHalfEdge.length ≠ e := by omega
  have q1 : g.mHalfEdge.length ≠ e1 := by omega
  have q2 : g.mHalfEdge.length + 1 ≠ e := by omega
  have q3 : g.mHalfEdge.length + 1 ≠ e1 := by omega
  have q4 : g.mHalfEdge.length + 2 ≠ e := by omega
  have q5 : g.mHalfEdge.length + 2 ≠ e1 := by omega
  have q6 : ¬ g.mHalfEdge.length + 1 < g.mHalfEdge.length := by omega
  have q7 : ¬ g.mHalfEdge.length + 2 < g.mHalfEdge.length := by omega
  intro x hx
  rw [hlen] at hx
  by_cases c0 : x = e
  · rw [c0]
    refine ⟨g.mHalfEdge.length, e2, F, ?_, ?_, ?_, ?_, ?_, ?_, by omega⟩ <;>
      simp [hnext, hface, hne3, hne2, l2, n2, fe2, q0, q1, q2, q3, q4, q5, q6, q7]
  by_cases c1 : x = e1
  · rw [c1]
    refine ⟨g.mHalfEdge.length + 1, g.mHalfEdge.length + 2, g.mFace.length,
      ?_, ?_, ?_, ?_, ?_, ?_, by omega⟩ <;>
      simp [hnext, hface, hne, q0, q1, q2, q3, q4, q5, q6, q7]
  by_cases c2 : x = e2
  · rw [c2]
    refine ⟨e, g.mHalfEdge.length, F, ?_, ?_, ?_, ?_, ?_, ?_, by omega⟩ <;>
      simp [hnext, hface, hne3, hne2, l2, n2, fe2, q0, q1, q2, q3, q4, q5, q6, q7]
  by_cases c3 : x < g.mHalfEdge.length
  · obtain ⟨a, b, f, k1, k2, k3, k4, k5, k6, k7⟩ := hg.1 x c3
    have la := next_lt k2
    have lb := next_lt k3
    have a0 : a ≠ e := by
      rintro rfl
      rw [n0] at k2; cases k2
      rw [n1] at k3; cases k3
      exact c2 rfl
    have a1 : a ≠ e1 := by
      rintro rfl
      rw [n1] at k2; cases k2
      rw [n2] at k3; cases k3
      exact c0 rfl
    have a2 : a ≠ e2 := by
      rintro rfl
      rw [n2] at k2; cases k2
      rw [n0] at k3; cases k3
      exact c1 rfl
    have b0 : b ≠ e := by
      rintro rfl
      rw [n0] at k3; cases k3
      exact c1 rfl
    have b1 : b ≠ e1 := by
      rintro rfl
      rw [n1] at k3; cases k3
      exact c2 rfl
    refine ⟨a, b, f, ?_, ?_, ?_, ?_, ?_, ?_, by omega⟩ <;>
      simp [hnext, hface, c0, c1, c3, a0, a1, b0, b1, la, lb, k1, k2, k3, k4, k5, k6]
  have hcases : x = g.mHalfEdge.length ∨ x = g.mHalfEdge.length + 1 ∨
      x = g.mHalfEdge.length + 2 := by omega
  rcases hcases with rfl | rfl | rfl
  · refine ⟨e2, e, F, ?_, ?_, ?_, ?_, ?_, ?_, by omega⟩ <;>
      simp [hnext, hface, hne3, hne2, l2, n2, fe2, q0, q1, q2, q3, q4, q5, q6, q7]
  · refine ⟨g.mHalfEdge.length + 2, e1, g.mFace.length, ?_, ?_, ?_, ?_, ?_, ?_, by omega⟩ <;>
      simp [hnext, hface, hne, q0, q1, q2, q3, q4, q5, q6, q7]
  · refine ⟨e1, g.mHalfEdge.length + 1, g.mFace.length, ?_, ?_, ?_, ?_, ?_, ?_, by omega⟩ <;>
      simp [hnext, hface, hne, q0, q1, q2, q3, q4, q5, q6, q7]

theorem insert_tri {g g' : HEGraph} {pa e : Nat} (hg : Tri g)
    (h : g.insert pa e = some g') : Tri g' := by
  refine ⟨insert_nextCycle hg h, ?_⟩
  obtain ⟨re, r1, r2, e1, e2, F, rF, h0, h1, h2, h3, h4, h5, f0, f1, f2, hrF, hne, hne2, hne3,
    hhe, hlen, hfc, -, hnext, -, -, -⟩ := (insert_view hg h).ex
  have hlt := insert_lt h
  have l1 := he_lt h2
  have l2 := he_lt h4
  intro x _ hx
  rw [hnext] at hx
  split_ifs at hx with c0 c1 c2
  all_goals try exact hg.2 x c2 hx
  all_goals have hh := Option.some.inj hx
  all_goals omega

/-! ## Operations return on graphs whose references resolve -/

theorem seedNodes_total {g : HEGraph} (h : 3 ≤ g.mNode.length) : ∃ g', g.seedNodes = some g' := by
  have h0 : g.mNode[0]? = some g.mNode[0] := List.getElem?_eq_getElem (by omega)
  have h1 : g.mNode[1]? = some g.mNode[1] := List.getElem?_eq_getElem (by omega)
  have h2 : g.mNode[2]? = some g.mNode[2] := List.getElem?_eq_getElem (by omega)
  simp [seedNodes, h0, h1, h2]

theorem addAt_total {g : HEGraph} (hg : NextCycle g) (v : Nat) {e : Nat}
    (he : e < g.mHalfEdge.length) : ∃ g', g.addAt v e = some g' := by
  obtain ⟨re, r1, r2, e1, e2, F, rF, h0, h1, h2, h3, h4, -⟩ := hg.at he
  simp [addAt, h0, h1, h2, h3, h4]

theorem prev_of_cycle {g : HEGraph} (hg : NextCycle g) {e : Nat} (he : e < g.mHalfEdge.length) :
    ∃ p rp, g.prev e = some p ∧ g.he p = some rp := by
  obtain ⟨re, r1, r2, e1, e2, F, rF, h0, h1, h2, h3, h4, -⟩ := hg.at he
  refine ⟨e2, r2, ?_, h4⟩
  simp [prev, next, h0, h1, h2, h3]

theorem close2_total {g : HEGraph} (hg : NextCycle g) {ha hb : Nat}
    (h1 : ha < g.mHalfEdge.length) (h2 : hb < g.mHalfEdge.length) :
    ∃ g', g.close2 ha hb = some g' := by
  obtain ⟨ra, hra⟩ := he_of_lt h1
  obtain ⟨rb, hrb⟩ := he_of_lt h2
  obtain ⟨pa, rpa, hpa, hrpa⟩ := prev_of_cycle hg h1
  obtain ⟨pb, rpb, hpb, hrpb⟩ := prev_of_cycle hg h2
  have hlt : hb < (g.mHalfEdge.set ha { ra with opp := some (g.mHalfEdge.length + 1) }).length := by
    simpa using h2
  have h6 := List.getElem?_eq_getElem hlt
  simp only [close2, hra, hrb, hpa, hpb, hrpa, hrpb, Option.bind_eq_bind, Option.some_bind, h6]
  exact ⟨_, rfl⟩

theorem closeN_total {g : HEGraph} (hg : NextCycle g) {e n : Nat}
    (h1 : e < g.mHalfEdge.length) (h2 : n < g.mNode.length) :
    ∃ g', g.closeN e n = some g' := by
  obtain ⟨re, hre⟩ := he_of_lt h1
  obtain ⟨p, rp, hp, hrp⟩ := prev_of_cycle hg h1
  have h3 := List.getElem?_eq_getElem h2
  simp only [closeN, hre, hp, hrp, h3, Option.bind_eq_bind, Option.some_bind]
  exact ⟨_, rfl⟩

theorem insert_total {g : HEGraph} (hg : Tri g) (pa : Nat) {e : Nat}
    (he : e < g.mHalfEdge.length) : ∃ g', g.insert pa e = some g' := by
  obtain ⟨re, r1, r2, e1, e2, F, rF, h0, h1, h2, h3, h4, h5, f0, f1, f2, hrF⟩ := hg.1.at he
  have n0 : g.next e = some e1 := next_eq_some.2 ⟨_, h0, h1⟩
  have hne : e1 ≠ e := fun hh => hg.2 e he (hh ▸ n0)
  exact ⟨_, insert_eq h0 h1 h2 hne f0 hrF⟩

/-! ## Faces -/

theorem faceCycle_of {g : HEGraph} (hg : NextCycle g)
    (h : ∀ f, f < g.mFace.length → ∃ x, g.faceEdge f = some x ∧ x < g.mHalfEdge.length) :
    FaceCycle g := by
  intro f hf
  obtain ⟨x, hx, hlt⟩ := h f hf
  obtain ⟨a, b, _, h1, h2, h3, -⟩ := hg x hlt
  exact ⟨x, a, b, hx, h1, h2, h3⟩

theorem TriExt.faceCycle {g g' : HEGraph} (x : TriExt g g') (hg : NextCycle g')
    (hf : FaceCycle g) : FaceCycle g' := by
  apply faceCycle_of hg
  intro f hlt
  rw [x.flen] at hlt
  by_cases c : f < g.mFace.length
  · obtain ⟨h, a, b, h0, h1, -⟩ := hf f c
    refine ⟨h, ?_, ?_⟩
    · simp only [faceEdge, x.faces] at h0 ⊢
      rw [List.getElem?_append_left c]
      exact h0
    · have := next_lt h1
      rw [x.len]; omega
  · have : f = g.mFace.length := by omega
    subst this
    refine ⟨g.mHalfEdge.length, ?_, by rw [x.len]; omega⟩
    simp [faceEdge, x.faces]

theorem insert_faceCycle {g g' : HEGraph} {pa e : Nat} (hg : Tri g)
    (h : g.insert pa e = some g') (hf : FaceCycle g) : FaceCycle g' := by
  obtain ⟨re, r1, r2, e1, e2, F, rF, h0, h1, h2, h3, h4, h5, f0, f1, f2, hrF, hne, hne2, hne3,
    hhe, hlen, hfc, -, -, -, -, -⟩ := (insert_view hg h).ex
  have hlt := insert_lt h
  have lF : F < g.mFace.length := (List.getElem?_eq_some.1 hrF).1
  apply faceCycle_of (insert_nextCycle hg h)
  intro f hflt
  have hflen : g'.mFace.length = g.mFace.length + 1 := by rw [hfc]; simp
  rw [hflen] at hflt
  simp only [faceEdge, hfc, List.getElem?_set, List.length_append, List.length_cons,
    List.length_nil]
  by_cases c0 : F = f
  · subst c0
    exact ⟨e, by simp [show F < g.mFace.length + 1 by omega], by rw [hlen]; omega⟩
  · by_cases c : f < g.mFace.length
    · obtain ⟨x, a, b, k0, k1, -⟩ := hf f c
      refine ⟨x, ?_, by have := next_lt k1; rw [hlen]; omega⟩
      simp only [faceEdge] at k0
      simp [c0, List.getElem?_append_left c, k0]
    · have : f = g.mFace.length := by omega
      subst this
      exact ⟨g.mHalfEdge.length + 2, by simp [c0], by rw [hlen]; omega⟩

/-! ## The triangulation invariant -/

/-- Remark: `insert` uses that a half-edge is not its own `next`.  The graph `selfLoop`
satisfies the next-3-cycle condition with its only half-edge being its own `next`;
`insert` on that half-edge returns a graph in which following `next` three times from
the half-edge 0 does not come back. -/
theorem nextCycle_insert_selfLoop :
    NextCycle selfLoop ∧ ∃ g', selfLoop.insert 1 0 = some g' ∧ ¬ NextCycle g' :=
  ⟨by decide, _, rfl, by decide⟩

theorem seeded_eq : seeded = some tri0 := rfl

/-! ## C2: symmetry of `opp` under fan extension and closing -/

theorem oppSym_symF (g : HEGraph) : OppSym g ↔ SymF g.opp := Iff.rfl

/-- Sealing two handles that had no partner keeps a partner function symmetric. -/
theorem SymF.seal {o o' : Nat → Option Nat} {x y : Nat} (hs : SymF o) (hx : o x = none)
    (hy : o y = none) (hxy : x ≠ y)
    (ho : ∀ i, o' i = if i = x then some y else if i = y then some x else o i) : SymF o' := by
  intro a b hab
  rw [ho] at hab
  by_cases c0 : a = x
  · rw [if_pos c0] at hab
    cases hab
    rw [ho, if_neg (Ne.symm hxy), if_pos rfl, c0]
    exact ⟨rfl, hxy⟩
  · rw [if_neg c0] at hab
    by_cases c1 : a = y
    · rw [if_pos c1] at hab
      cases hab
      rw [ho, if_pos rfl, c1]
      exact ⟨rfl, Ne.symm hxy⟩
    · rw [if_neg c1] at hab
      obtain ⟨hba, hne⟩ := hs a b hab
      have b0 : b ≠ x := by rintro rfl; rw [hx] at hba; cases hba
      have b1 : b ≠ y := by rintro rfl; rw [hy] at hba; cases hba
      rw [ho, if_neg b0, if_neg b1]
      exact ⟨hba, hne⟩

theorem opp_set {l : List HalfEdge} {x : Nat} {r : HalfEdge} (hx : l[x]? = some r)
    (o : Option Nat) (i : Nat) :
    ((l.set x { r with opp := o })[i]?).bind (fun q : HalfEdge => q.opp) =
      if i = x then o else (l[i]?).bind (fun q : HalfEdge => q.opp) := by
  have hlt : x < l.length := (List.getElem?_eq_some.1 hx).1
  rw [List.getElem?_set]
  by_cases c : x = i
  · subst c; simp [hlt]
  · simp [c, Ne.symm c]

theorem opp_app3 (m : List HalfEdge) (a b c : HalfEdge) (s i : Nat) (hm : m.length = s) :
    ((m ++ [a, b, c])[i]?).bind (fun q : HalfEdge => q.opp) =
      if i < s then (m[i]?).bind (fun q : HalfEdge => q.opp) else if i = s then a.opp
      else if i = s + 1 then b.opp else if i = s + 2 then c.opp else none := by
  rw [app3_get m a b c s i hm]
  split_ifs <;> rfl

theorem opp_none_of_le {g : HEGraph} {i : Nat} (h : g.mHalfEdge.length ≤ i) : g.opp i = none := by
  simp [opp, he, List.getElem?_eq_none h]

theorem isBorder_iff {g : HEGraph} {i : Nat} :
    g.isBorder i = true ↔ i < g.mHalfEdge.length ∧ g.opp i = none := by
  unfold isBorder opp
  cases h : g.he i with
  | none =>
    simp only [Bool.false_eq_true, false_iff, not_and]
    intro hlt
    obtain ⟨r, hr⟩ := he_of_lt hlt
    rw [h] at hr; cases hr
  | some r =>
    have := he_lt h
    cases ho : r.opp <;> simp [this, ho]

theorem addAt_opp {g g' : HEGraph} {v e : Nat} (h : g.addAt v e = some g') (i : Nat) :
    g'.opp i = if i = e then some (g.mHalfEdge.length + 1)
      else if i = g.mHalfEdge.length + 1 then some e else g.opp i := by
  obtain ⟨re, e1, r1, e2, r2, h0, -, -, -, -, rfl⟩ := addAt_some h
  have hlt := he_lt h0
  simp only [opp, he]
  rw [opp_app3 _ _ _ _ _ i (List.length_set _ _ _), opp_set h0]
  by_cases c0 : i = e
  · simp [c0, hlt]
  · by_cases c1 : i < g.mHalfEdge.length
    · simp [c0, c1, Nat.ne_of_lt (Nat.lt_succ_of_lt c1)]
    · have c2 : g.mHalfEdge[i]? = none := List.getElem?_eq_none (by omega)
      simp only [c0, c1, if_false, c2, HalfEdge.new]
      split_ifs <;> simp_all

theorem closeN_opp {g g' : HEGraph} {e n : Nat} (h : g.closeN e n = some g') (i : Nat) :
    g'.opp i = if i = e then some (g.mHalfEdge.length + 1)
      else if i = g.mHalfEdge.length + 1 then some e else g.opp i := by
  obtain ⟨re, p, rp, rn, h0, -, -, -, rfl⟩ := closeN_some h
  have hlt := he_lt h0
  simp only [opp, he]
  rw [opp_app3 _ _ _ _ _ i (List.length_set _ _ _), opp_set h0]
  by_cases c0 : i = e
  · simp [c0, hlt]
  · by_cases c1 : i < g.mHalfEdge.length
    · simp [c0, c1, Nat.ne_of_lt (Nat.lt_succ_of_lt c1)]
    · have c2 : g.mHalfEdge[i]? = none := List.getElem?_eq_none (by omega)
      simp only [c0, c1, if_false, c2, HalfEdge.new]
      split_ifs <;> simp_all

theorem close2_opp {g g' : HEGraph} {ha hb : Nat} (h : g.close2 ha hb = some g') (i : Nat) :
    g'.opp i = if i = hb then some g.mHalfEdge.length
      else if i = g.mHalfEdge.length then some hb
      else if i = ha then some (g.mHalfEdge.length + 1)
      else if i = g.mHalfEdge.length + 1 then some ha else g.opp i := by
  obtain ⟨ra, rb, pb, rpb, pa, rpa, rb1, h0, h1, -, -, -, -, h6, rfl⟩ := close2_some h
  have hlta := he_lt h0
  have hltb := he_lt h1
  simp only [opp, he]
  rw [opp_app3 _ _ _ _ g.mHalfEdge.length i (by simp), opp_set h6, opp_set h0]
  by_cases c0 : i = hb
  · simp [c0, hltb]
  · by_cases c1 : i = ha
    · simp [c1, hlta, c0, Nat.ne_of_lt hlta, c1 ▸ c0]
    · by_cases c2 : i < g.mHalfEdge.length
      · simp [c0, c1, c2, Nat.ne_of_lt (Nat.lt_succ_of_lt c2), Nat.ne_of_lt c2]
      · have c3 : g.mHalfEdge[i]? = none := List.getElem?_eq_none (by omega)
        simp only [c0, c1, c2, if_false, c3, HalfEdge.new]
        split_ifs <;> simp_all

theorem close_opp {g g' : HEGraph} {fuel e : Nat} (h : g.close fuel e = some g') :
    ∃ tb tc, g.nextNull fuel false e = some tb ∧ g.nextNull fuel true e = some tc ∧
      ∀ i, g'.opp i = if i = tc then some (g.mHalfEdge.length + 2)
        else if i = g.mHalfEdge.length + 2 then some tc
        else if i = tb then some (g.mHalfEdge.length + 1)
        else if i = g.mHalfEdge.length + 1 then some tb
        else if i = e then some g.mHalfEdge.length
        else if i = g.mHalfEdge.length then some e else g.opp i := by
  obtain ⟨tb, tc, re, rtb, rtc, rtb1, rtc1, n0, n1, h2, h3, h4, h5, h6, rfl⟩ := close_some h
  refine ⟨tb, tc, n0, n1, fun i => ?_⟩
  have hlt := he_lt h2
  have hltb := he_lt h3
  have hltc := he_lt h4
  simp only [opp, he]
  rw [opp_app3 _ _ _ _ g.mHalfEdge.length i (by simp), opp_set h6, opp_set h5, opp_set h2]
  by_cases c0 : i = tc
  · simp [c0, hltc]
  · by_cases c1 : i = tb
    · have d2 : tb ≠ g.mHalfEdge.length + 2 := by omega
      simp [c1, hltb, c1 ▸ c0, Nat.ne_of_lt hltb, d2]
    · by_cases c2 : i = e
      · have d1 : e ≠ g.mHalfEdge.length + 1 := by omega
        have d2 : e ≠ g.mHalfEdge.length + 2 := by omega
        simp [c2, hlt, c2 ▸ c0, c2 ▸ c1, Nat.ne_of_lt hlt, d1, d2]
      · by_cases c3 : i < g.mHalfEdge.length
        · have d0 : i ≠ g.mHalfEdge.length := by omega
          have d1 : i ≠ g.mHalfEdge.length + 1 := by omega
          have d2 : i ≠ g.mHalfEdge.length + 2 := by omega
          simp [c0, c1, c2, c3, d0, d1, d2]
        · have c4 : g.mHalfEdge[i]? = none := List.getElem?_eq_none (by omega)
          simp only [c0, c1, c2, c3, if_false, c4, HalfEdge.new]
          split_ifs <;> simp_all

theorem close_total {g : HEGraph} {fuel e tb tc : Nat} (hb : g.nextNull fuel false e = some tb)
    (hc : g.nextNull fuel true e = some tc) (he : e < g.mHalfEdge.length)
    (htb : tb < g.mHalfEdge.length) (htc : tc < g.mHalfEdge.length) :
    ∃ g', g.close fuel e = some g' := by
  obtain ⟨re, hre⟩ := he_of_lt he
  obtain ⟨rtb, hrtb⟩ := he_of_lt htb
  obtain ⟨rtc, hrtc⟩ := he_of_lt htc
  have l1 : tb < (g.mHalfEdge.set e { re with opp := some g.mHalfEdge.length }).length := by
    simpa using htb
  have h5 := List.getElem?_eq_getElem l1
  have l2 : tc < ((g.mHalfEdge.set e { re with opp := some g.mHalfEdge.length }).set tb
      { (g.mHalfEdge.set e { re with opp := some g.mHalfEdge.length })[tb] with
        opp := some (g.mHalfEdge.length + 1) }).length := by
    simpa using htc
  have h6 := List.getElem?_eq_getElem l2
  simp only [close, hb, hc, hre, hrtb, hrtc, Option.bind_eq_bind, Option.some_bind, h5, h6]
  exact ⟨_, rfl⟩

/-- C2: in a graph with symmetric, fixed-point-free `opp`, every graph returned by
`addAt(v,e)` for a border edge `e`, by `close(ha,hb)` for two distinct border edges, by
`close(e,n)` for a border edge `e`, and by `close(e)` for a border edge `e` whose walks
`e.nextNull(false)`, `e.nextNull(true)` end on border edges `tb`, `tc` with `e`, `tb`,
`tc` distinct, has symmetric, fixed-point-free `opp` again; `close(e)` returns under
these conditions, and so do the other three when the next-3-cycle condition holds. -/
theorem oppSym_preserved (g : HEGraph) (hs : OppSym g) :
    (∀ v e g', g.isBorder e = true → g.addAt v e = some g' → OppSym g') ∧
    (∀ ha hb g', ha ≠ hb → g.isBorder ha = true → g.isBorder hb = true →
      g.close2 ha hb = some g' → OppSym g') ∧
    (∀ e n g', g.isBorder e = true → g.closeN e n = some g' → OppSym g') ∧
    (∀ fuel e tb tc, g.isBorder e = true → g.nextNull fuel false e = some tb →
      g.nextNull fuel true e = some tc → g.isBorder tb = true → g.isBorder tc = true →
      e ≠ tb → e ≠ tc → tb ≠ tc → ∃ g', g.close fuel e = some g' ∧ OppSym g') ∧
    (NextCycle g →
      (∀ v e, g.isBorder e = true → (g.addAt v e).isSome = true) ∧
      (∀ ha hb, g.isBorder ha = true → g.isBorder hb = true →
        (g.close2 ha hb).isSome = true) ∧
      (∀ e n, g.isBorder e = true → n < g.mNode.length → (g.closeN e n).isSome = true)) := by
  have hnew : ∀ k, g.opp (g.mHalfEdge.length + k) = none := fun k =>
    opp_none_of_le (Nat.le_add_right _ _)
  refine ⟨fun v e g' hb h => ?_, fun ha hb g' hne h1 h2 h => ?_, fun e n g' hb h => ?_,
    fun fuel e tb tc hb n0 n1 h1 h2 d0 d1 d2 => ?_, fun hc => ⟨fun v e hb => ?_,
      fun ha hb h1 h2 => ?_, fun e n hb hn => ?_⟩⟩
  · obtain ⟨hlt, ho⟩ := isBorder_iff.1 hb
    exact SymF.seal hs ho (hnew 1) (by omega) (addAt_opp h)
  · obtain ⟨hlta, hoa⟩ := isBorder_iff.1 h1
    obtain ⟨hltb, hob⟩ := isBorder_iff.1 h2
    have s1 : SymF (fun i => if i = ha then some (g.mHalfEdge.length + 1)
        else if i = g.mHalfEdge.length + 1 then some ha else g.opp i) :=
      SymF.seal hs hoa (hnew 1) (by omega) (fun _ => rfl)
    refine SymF.seal s1 ?_ ?_ (by omega) (close2_opp h)
    · simp only [if_neg (Ne.symm hne), hob]
      rw [if_neg (by omega)]
    · have := hnew 0
      simp only [Nat.add_zero] at this
      rw [if_neg (by omega), if_neg (by omega), this]
  · obtain ⟨hlt, ho⟩ := isBorder_iff.1 hb
    exact SymF.seal hs ho (hnew 1) (by omega) (closeN_opp h)
  · obtain ⟨hlt, ho⟩ := isBorder_iff.1 hb
    obtain ⟨hltb, hob⟩ := isBorder_iff.1 h1
    obtain ⟨hltc, hoc⟩ := isBorder_iff.1 h2
    obtain ⟨g', h⟩ := close_total n0 n1 hlt hltb hltc
    refine ⟨g', h, ?_⟩
    obtain ⟨tb', tc', n0', n1', hopp⟩ := close_opp h
    rw [n0] at n0'; cases n0'
    rw [n1] at n1'; cases n1'
    have h0 := hnew 0
    simp only [Nat.add_zero] at h0
    have s1 : SymF (fun i => if i = e then some g.mHalfEdge.length
        else if i = g.mHalfEdge.length then some e else g.opp i) :=
      SymF.seal hs ho h0 (by omega) (fun _ => rfl)
    have s2 : SymF (fun i => if i = tb then some (g.mHalfEdge.length + 1)
        else if i = g.mHalfEdge.length + 1 then some tb
        else if i = e then some g.mHalfEdge.length
        else if i = g.mHalfEdge.length then some e else g.opp i) := by
      refine SymF.seal s1 ?_ ?_ (by omega) (fun _ => rfl)
      · simp only [if_neg (Ne.symm d0), hob]
        rw [if_neg (by omega)]
      · rw [if_neg (by omega), if_neg (by omega), hnew 1]
    refine SymF.seal s2 ?_ ?_ (by omega) hopp
    · simp only [if_neg (Ne.symm d2), if_neg (Ne.symm d1), hoc]
      rw [if_neg (by omega), if_neg (by omega)]
    · rw [if_neg (by omega), if_neg (by omega), if_neg (by omega), if_neg (by omega), hnew 2]
  · obtain ⟨g', h⟩ := addAt_total hc v (isBorder_iff.1 hb).1
    rw [h]; rfl
  · obtain ⟨g', h⟩ := close2_total hc (isBorder_iff.1 h1).1 (isBorder_iff.1 h2).1
    rw [h]; rfl
  · obtain ⟨g', h⟩ := closeN_total hc (isBorder_iff.1 hb).1 hn
    rw [h]; rfl

/-- Instance of `oppSym_preserved` at the seeded triangle, for `close(e)` on half-edge 0. -/
theorem oppSym_preserved_witness :
    OppSym tri0 ∧ ∃ g', tri0.close 3 0 = some g' ∧ OppSym g' :=
  ⟨by decide, (oppSym_preserved tri0 (by decide)).2.2.2.1 3 0 2 1 (by decide) (by decide)
    (by decide) (by decide) (by decide) (by decide) (by decide) (by decide)⟩

/-! ## C3: `insert` on a half-edge that has an opposite -/

/-- C3 (the code at the failing input): from the seeded triangle, `addAt(v, edge(2))`
gives a triangulated graph with symmetric `opp` in which half-edge 2 has the opposite 4;
`insert(v', edge(2))` returns a graph whose new half-edge 8 copies `opp = 4` while
half-edge 4 still has `opp = 2`, so `opp` is no longer symmetric. -/
theorem insert_interior_not_oppSym :
    ∃ g g', tri0.addAt 13 2 = some g ∧ Tri g ∧ OppSym g ∧ g.opp 2 = some 4 ∧
      g.insert 14 2 = some g' ∧ g'.opp 8 = some 4 ∧ g'.opp 4 = some 2 ∧ ¬ OppSym g' :=
  ⟨_, _, rfl, by decide, by decide, by decide, rfl, by decide, by decide, by decide⟩

/-! ## C4: the half-edge stored in a node -/

theorem nodeEdge_lt {g : HEGraph} {n e : Nat} (h : g.nodeEdge n = some e) :
    n < g.mNode.length := by
  unfold nodeEdge at h
  obtain ⟨r, hr, _⟩ := Option.bind_eq_some.1 h
  exact (List.getElem?_eq_some.1 hr).1

theorem node_lt {g : HEGraph} {i a : Nat} (h : g.node i = some a) :
    i < g.mHalfEdge.length := by
  unfold node at h
  obtain ⟨r, hr, _⟩ := Option.bind_eq_some.1 h
  exact he_lt hr

theorem TriExt.nodeEdge {g g' : HEGraph} (x : TriExt g g') (hn : NodeEdge g)
    (hnodes : ∀ n e, g'.nodeEdge n = some e → g.nodeEdge n = some e ∨
      (e = g.mHalfEdge.length ∧ g'.node (g.mHalfEdge.length + 2) = some n) ∨
      (e = g.mHalfEdge.length + 1 ∧ g'.node g.mHalfEdge.length = some n) ∨
      (e = g.mHalfEdge.length + 2 ∧ g'.node (g.mHalfEdge.length + 1) = some n)) :
    NodeEdge g' := by
  intro n e hne
  rcases hnodes n e hne with h | ⟨rfl, h⟩ | ⟨rfl, h⟩ | ⟨rfl, h⟩
  · obtain ⟨a, b, h1, h2, h3⟩ := hn n e h
    refine ⟨a, b, ?_, ?_, ?_⟩
    · rw [x.next_old e (next_lt h1), h1]
    · rw [x.next_old a (next_lt h2), h2]
    · rw [x.node_old b (node_lt h3), h3]
  · exact ⟨_, _, x.next0, x.next1, h⟩
  · exact ⟨_, _, x.next1, x.next2, h⟩
  · exact ⟨_, _, x.next2, x.next0, h⟩

theorem node_app3 (m : List HalfEdge) (a b c : HalfEdge) (s i : Nat) (hm : m.length = s) :
    ((m ++ [a, b, c])[i]?).bind (fun q : HalfEdge => q.node) =
      if i < s then (m[i]?).bind (fun q : HalfEdge => q.node) else if i = s then a.node
      else if i = s + 1 then b.node else if i = s + 2 then c.node else none := by
  rw [app3_get m a b c s i hm]
  split_ifs <;> rfl

theorem seedNodes_nodeEdge {g g' : HEGraph} (hn : NodeEdge g) (h : g.seedNodes = some g') :
    NodeEdge g' := by
  refine (seedNodes_triExt h).nodeEdge hn ?_
  obtain ⟨na, nb, nc, h0, h1, h2, rfl⟩ := seedNodes_some h
  have l0 : 0 < g.mNode.length := (List.getElem?_eq_some.1 h0).1
  have l1 : 1 < g.mNode.length := (List.getElem?_eq_some.1 h1).1
  have l2 : 2 < g.mNode.length := (List.getElem?_eq_some.1 h2).1
  intro n e
  simp only [nodeEdge, node, he, List.getElem?_set, List.length_set]
  rw [node_app3 _ _ _ _ g.mHalfEdge.length _ rfl, node_app3 _ _ _ _ g.mHalfEdge.length _ rfl,
    node_app3 _ _ _ _ g.mHalfEdge.length _ rfl]
  by_cases c2 : 2 = n
  · subst c2; simp [l2]; intro hh; right; omega
  · by_cases c1 : 1 = n
    · subst c1; simp [l1]; intro hh; right; omega
    · by_cases c0 : 0 = n
      · subst c0; simp [l0]; intro hh; right; omega
      · simp only [c0, c1, c2, if_false]
        exact fun hh => Or.inl hh

theorem addAt_nodeEdge {g g' : HEGraph} {v e : Nat} (hn : NodeEdge g)
    (h : g.addAt v e = some g') : NodeEdge g' := by
  refine (addAt_triExt h).nodeEdge hn ?_
  obtain ⟨re, e1, r1, e2, r2, h0, -, -, -, -, rfl⟩ := addAt_some h
  intro n e'
  simp only [nodeEdge, node, he]
  rw [node_app3 _ _ _ _ g.mHalfEdge.length _ (by simp)]
  by_cases c : n < g.mNode.length
  · rw [List.getElem?_append_left c]
    exact fun hh => Or.inl hh
  · rw [List.getElem?_append_right (by omega)]
    obtain ⟨k, rfl⟩ : ∃ k, n = g.mNode.length + k := ⟨n - g.mNode.length, by omega⟩
    match k with
    | 0 => simp [Node.new, HalfEdge.new]; intro hh; exact Or.inl hh.symm
    | k + 1 => simp

theorem TriExt.nodeEdge_same {g g' : HEGraph} (x : TriExt g g') (hn : NodeEdge g)
    (hm : g'.mNode = g.mNode) : NodeEdge g' := by
  refine x.nodeEdge hn (fun n e hh => Or.inl ?_)
  simpa only [HEGraph.nodeEdge, hm] using hh

theorem insert_nodeEdge {g g' : HEGraph} {pa e : Nat} (hg : Tri g) (hn : NodeEdge g)
    (h : g.insert pa e = some g') : NodeEdge g' := by
  obtain ⟨re, r1, r2, e1, e2, F, rF, h0, h1, h2, h3, h4, h5, f0, f1, f2, hrF, hne, hne2, hne3,
    hhe, hlen, hfc, hnd, hnext, -, hnode, -⟩ := (insert_view hg h).ex
  have hlt := insert_lt h
  have l1 := he_lt h2
  have l2 := he_lt h4
  have n0 : g.next e = some e1 := next_eq_some.2 ⟨_, h0, h1⟩
  have n1 : g.next e1 = some e2 := next_eq_some.2 ⟨_, h2, h3⟩
  have n2 : g.next e2 = some e := next_eq_some.2 ⟨_, h4, h5⟩
  have q0 : g.mHalfEdge.length ≠ e := by omega
  have q1 : g.mHalfEdge.length ≠ e1 := by omega
  have q2 : g.mHalfEdge.length + 1 ≠ e := by omega
  have q3 : g.mHalfEdge.length + 1 ≠ e1 := by omega
  have q4 : g.mHalfEdge.length + 2 ≠ e := by omega
  have q5 : g.mHalfEdge.length + 2 ≠ e1 := by omega
  have q6 : ¬ g.mHalfEdge.length + 1 < g.mHalfEdge.length := by omega
  have q7 : ¬ g.mHalfEdge.length + 2 < g.mHalfEdge.length := by omega
  intro n x hx
  simp only [nodeEdge, hnd] at hx
  by_cases c : n < g.mNode.length
  · rw [List.getElem?_append_left c] at hx
    obtain ⟨a, b, k1, k2, k3⟩ := hn n x hx
    have lx := next_lt k1
    obtain ⟨a', b', _, j1, j2, j3, -⟩ := hg.1 x lx
    have ea : a' = a := Option.some.inj (j1.symm.trans k1)
    rw [ea] at j2
    have eb : b' = b := Option.some.inj (j2.symm.trans k2)
    rw [eb] at j3
    by_cases c0 : x = e
    · have ha : a = e1 := Option.some.inj (k1.symm.trans (c0 ▸ n0))
      have hb : b = e2 := Option.some.inj (k2.symm.trans (ha ▸ n1))
      have k3' : g.node e2 = some n := hb ▸ k3
      rw [c0]
      refine ⟨g.mHalfEdge.length, e2, ?_, ?_, ?_⟩ <;>
        simp [hnext, hnode, hne3, l2, k3', q0, q1]
    by_cases c1 : x = e1
    · have ha : a = e2 := Option.some.inj (k1.symm.trans (c1 ▸ n1))
      have hb : b = e := Option.some.inj (k2.symm.trans (ha ▸ n2))
      have k3' : g.node e = some n := hb ▸ k3
      have : re.node = some n := by
        obtain ⟨r, hr, hrn⟩ := node_eq_some.1 k3'
        rw [h0] at hr; cases hr; exact hrn
      rw [c1]
      refine ⟨g.mHalfEdge.length + 1, g.mHalfEdge.length + 2, ?_, ?_, ?_⟩ <;>
        simp [hnext, hnode, hne, this, q2, q3, q4, q5, q6, q7]
    by_cases c2 : x = e2
    · have ha : a = e := Option.some.inj (k1.symm.trans (c2 ▸ n2))
      have hb : b = e1 := Option.some.inj (k2.symm.trans (ha ▸ n0))
      have k3' : g.node e1 = some n := hb ▸ k3
      have : r1.node = some n := by
        obtain ⟨r, hr, hrn⟩ := node_eq_some.1 k3'
        rw [h2] at hr; cases hr; exact hrn
      rw [c2]
      refine ⟨e, g.mHalfEdge.length, ?_, ?_, ?_⟩ <;>
        simp [hnext, hnode, hne3, hne2, l2, n2, this, q0, q1]
    have la := next_lt k2
    have lb := next_lt j3
    have a0 : a ≠ e := by
      intro hh
      have hb : b = e1 := Option.some.inj (k2.symm.trans (hh ▸ n0))
      exact c2 (Option.some.inj (j3.symm.trans (hb ▸ n1)))
    have a1 : a ≠ e1 := by
      intro hh
      have hb : b = e2 := Option.some.inj (k2.symm.trans (hh ▸ n1))
      exact c0 (Option.some.inj (j3.symm.trans (hb ▸ n2)))
    have b0 : b ≠ e := by
      intro hh
      exact c1 (Option.some.inj (j3.symm.trans (hh ▸ n0)))
    refine ⟨a, b, ?_, ?_, ?_⟩ <;>
      simp [hnext, hnode, c0, c1, a0, a1, b0, lx, la, lb, k1, k2, k3]
  · rw [List.getElem?_append_right (by omega)] at hx
    obtain ⟨k, rfl⟩ : ∃ k, n = g.mNode.length + k := ⟨n - g.mNode.length, by omega⟩
    match k, hx with
    | 0, hx =>
      simp [Node.new] at hx
      subst hx
      refine ⟨e1, g.mHalfEdge.length + 1, ?_, ?_, ?_⟩ <;>
        simp [hnext, hnode, hne, q2, q3, q4, q5, q6, q7]
    | k + 1, hx => simp at hx

theorem addNode_tri {g : HEGraph} (v : Nat) (hg : Tri g) : Tri (g.addNode v) := hg

theorem addNode_nodeEdge {g : HEGraph} (v : Nat) (hn : NodeEdge g) :
    NodeEdge (g.addNode v) := by
  intro n e hx
  simp only [nodeEdge, addNode] at hx
  by_cases c : n < g.mNode.length
  · rw [List.getElem?_append_left c] at hx
    exact hn n e hx
  · rw [List.getElem?_append_right (by omega)] at hx
    obtain ⟨k, rfl⟩ : ∃ k, n = g.mNode.length + k := ⟨n - g.mNode.length, by omega⟩
    match k, hx with
    | 0, hx => simp [Node.new] at hx
    | k + 1, hx => simp at hx

theorem close2_nodes {g g' : HEGraph} {ha hb : Nat} (h : g.close2 ha hb = some g') :
    g'.mNode = g.mNode := by
  obtain ⟨ra, rb, pb, rpb, pa, rpa, rb1, -, -, -, -, -, -, -, rfl⟩ := close2_some h
  rfl

theorem closeN_nodes {g g' : HEGraph} {e n : Nat} (h : g.closeN e n = some g') :
    g'.mNode = g.mNode := by
  obtain ⟨re, p, rp, rn, -, -, -, -, rfl⟩ := closeN_some h
  rfl

theorem close_nodes {g g' : HEGraph} {fuel e : Nat} (h : g.close fuel e = some g') :
    g'.mNode = g.mNode := by
  obtain ⟨tb, tc, re, rtb, rtc, rtb1, rtc1, -, -, -, -, -, -, -, rfl⟩ := close_some h
  rfl

theorem add_cases {g g' : HEGraph} {v : Nat} (h : g.add v = some g') :
    (g.mNode.length < 2 ∧ g' = g.addNode v) ∨
    (g.mNode.length = 2 ∧ (g.addNode v).seedNodes = some g') ∨
    (3 ≤ g.mNode.length ∧ ∃ e, g.lastEdge = some e ∧ g.addAt v e = some g') := by
  by_cases c0 : g.mNode.length < 2
  · left
    have t1 : g.mNode.length < 3 := by omega
    have t2 : ¬ g.mNode.length = 2 := by omega
    have t3 : ¬ g.mNode.length ≥ 3 := by omega
    simp only [add, if_pos t1, if_neg t2, if_neg t3, Option.bind_eq_bind, Option.some_bind] at h
    exact ⟨c0, (Option.some.inj h).symm⟩
  · by_cases c1 : g.mNode.length = 2
    · right; left
      have t1 : g.mNode.length < 3 := by omega
      have t3 : ¬ g.mNode.length ≥ 3 := by omega
      simp only [add, if_pos t1, if_pos c1, if_neg t3, Option.bind_eq_bind,
        Option.bind_eq_some] at h
      obtain ⟨g2, h2, h3⟩ := h
      rw [← Option.some.inj h3]
      exact ⟨c1, h2⟩
    · right; right
      have t1 : ¬ g.mNode.length < 3 := by omega
      have t3 : g.mNode.length ≥ 3 := by omega
      simp only [add, if_neg t1, if_neg c1, if_pos t3, Option.bind_eq_bind, Option.some_bind,
        Option.bind_eq_some] at h
      obtain ⟨e, he, h'⟩ := h
      exact ⟨by omega, e, he, h'⟩

theorem built_inv {g : HEGraph} (hb : Built g) : Tri g ∧ NodeEdge g := by
  induction hb with
  | empty => exact ⟨by decide, fun n e h => by simp [nodeEdge, HEGraph.empty] at h⟩
  | addNode v _ ih => exact ⟨addNode_tri v ih.1, addNode_nodeEdge v ih.2⟩
  | add v _ h ih =>
    rcases add_cases h with ⟨-, h'⟩ | ⟨-, h'⟩ | ⟨-, e, -, h'⟩
    · rw [h']
      exact ⟨addNode_tri v ih.1, addNode_nodeEdge v ih.2⟩
    · exact ⟨(seedNodes_triExt h').tri (addNode_tri v ih.1),
        seedNodes_nodeEdge (addNode_nodeEdge v ih.2) h'⟩
    · exact ⟨(addAt_triExt h').tri ih.1, addAt_nodeEdge ih.2 h'⟩
  | seedNodes _ h ih => exact ⟨(seedNodes_triExt h).tri ih.1, seedNodes_nodeEdge ih.2 h⟩
  | addAt v e _ h ih => exact ⟨(addAt_triExt h).tri ih.1, addAt_nodeEdge ih.2 h⟩
  | insert v e _ h ih => exact ⟨insert_tri ih.1 h, insert_nodeEdge ih.1 ih.2 h⟩
  | close2 ha hb _ h ih =>
    exact ⟨(close2_triExt h).tri ih.1, (close2_triExt h).nodeEdge_same ih.2 (close2_nodes h)⟩
  | closeN e n _ h ih =>
    exact ⟨(closeN_triExt h).tri ih.1, (closeN_triExt h).nodeEdge_same ih.2 (closeN_nodes h)⟩
  | close fuel e _ h ih =>
    exact ⟨(close_triExt h).tri ih.1, (close_triExt h).nodeEdge_same ih.2 (close_nodes h)⟩

/-- C4: in every graph built from the empty graph by `addNode`, `add`, `seedNodes`,
`addAt`, `insert` and the three `close` overloads, a node whose `edge` is present has
`edge.next.next.node` equal to itself. -/
theorem nodeEdge_built (g : HEGraph) (hb : Built g) : NodeEdge g := (built_inv hb).2

/-- Instance of `nodeEdge_built`: the seeded triangle is built by three calls of `add`,
and `insert` on its half-edge 0 gives a built graph again. -/
theorem nodeEdge_built_witness :
    Built tri0 ∧ NodeEdge tri0 ∧ ∃ g', tri0.insert 13 0 = some g' ∧ NodeEdge g' :=
  have hb : Built tri0 :=
    Built.add 12 (Built.add 11 (Built.add 10 Built.empty rfl) rfl) rfl
  ⟨hb, nodeEdge_built tri0 hb, _, rfl, nodeEdge_built _ (Built.insert 13 0 hb rfl)⟩

/-! ## The triangulation invariant on built graphs -/

theorem addNode_faceCycle {g : HEGraph} (v : Nat) (hf : FaceCycle g) :
    FaceCycle (g.addNode v) := hf

theorem built_faceCycle {g : HEGraph} (hb : Built g) : FaceCycle g := by
  induction hb with
  | empty => intro f hf; simp [HEGraph.empty] at hf
  | addNode v _ ih => exact addNode_faceCycle v ih
  | @add g g' v hb h ih =>
    have hg := (built_inv hb).1
    rcases add_cases h with ⟨-, h'⟩ | ⟨-, h'⟩ | ⟨-, e, -, h'⟩
    · rw [h']
      exact addNode_faceCycle v ih
    · have x := seedNodes_triExt h'
      exact x.faceCycle (x.tri (addNode_tri v hg)).1 (addNode_faceCycle v ih)
    · have x := addAt_triExt h'
      exact x.faceCycle (x.tri hg).1 ih
  | @seedNodes g g' hb h ih =>
    have x := seedNodes_triExt h
    exact x.faceCycle (x.tri (built_inv hb).1).1 ih
  | @addAt g g' v e hb h ih =>
    have x := addAt_triExt h
    exact x.faceCycle (x.tri (built_inv hb).1).1 ih
  | @insert g g' v e hb h ih => exact insert_faceCycle (built_inv hb).1 h ih
  | @close2 g g' ha hb' hb h ih =>
    have x := close2_triExt h
    exact x.faceCycle (x.tri (built_inv hb).1).1 ih
  | @closeN g g' e n hb h ih =>
    have x := closeN_triExt h
    exact x.faceCycle (x.tri (built_inv hb).1).1 ih
  | @close g g' fuel e hb h ih =>
    have x := close_triExt h
    exact x.faceCycle (x.tri (built_inv hb).1).1 ih

/-- C1. In a graph whose faces are next-cycles of three distinct half-edges carrying one
face (`h.next.next.next = h`, `h.next ≠ h`), each of `seedNodes`, `addAt`, `insert`,
`close(ha,hb)` and `close(e,n)` called with handles of existing records returns, and the
returned graph has the same property for all its half-edges, old and new; so does every
graph that `close(e)` returns; and if every face of the graph stored a half-edge from
which three `next` steps return to it, every face of the returned graph does.  Every
graph built from the empty graph by the construction calls has both properties: the
next-cycles of three distinct half-edges, and for every face `f` three `next` steps from
`f.edge` return to `f.edge`. -/
theorem tri_preserved :
    (∀ g : HEGraph, Tri g →
      (3 ≤ g.mNode.length →
        ∃ g', g.seedNodes = some g' ∧ Tri g' ∧ (FaceCycle g → FaceCycle g')) ∧
      (∀ v e, e < g.mHalfEdge.length →
        ∃ g', g.addAt v e = some g' ∧ Tri g' ∧ (FaceCycle g → FaceCycle g')) ∧
      (∀ v e, e < g.mHalfEdge.length →
        ∃ g', g.insert v e = some g' ∧ Tri g' ∧ (FaceCycle g → FaceCycle g')) ∧
      (∀ ha hb, ha < g.mHalfEdge.length → hb < g.mHalfEdge.length →
        ∃ g', g.close2 ha hb = some g' ∧ Tri g' ∧ (FaceCycle g → FaceCycle g')) ∧
      (∀ e n, e < g.mHalfEdge.length → n < g.mNode.length →
        ∃ g', g.closeN e n = some g' ∧ Tri g' ∧ (FaceCycle g → FaceCycle g')) ∧
      (∀ fuel e g', g.close fuel e = some g' → Tri g' ∧ (FaceCycle g → FaceCycle g'))) ∧
    (∀ g : HEGraph, Built g → NextCycle g ∧ Tri g ∧ FaceCycle g) := by
  refine ⟨fun g hg => ?_, fun g hb => ⟨(built_inv hb).1.1, (built_inv hb).1, built_faceCycle hb⟩⟩

  refine ⟨fun h => ?_, fun v e he => ?_, fun v e he => ?_, fun ha hb h1 h2 => ?_,
    fun e n h1 h2 => ?_, fun fuel e g' h => ?_⟩
  · obtain ⟨g', h'⟩ := seedNodes_total h
    have x := seedNodes_triExt h'
    exact ⟨g', h', x.tri hg, x.faceCycle (x.tri hg).1⟩
  · obtain ⟨g', h'⟩ := addAt_total hg.1 v he
    have x := addAt_triExt h'
    exact ⟨g', h', x.tri hg, x.faceCycle (x.tri hg).1⟩
  · obtain ⟨g', h'⟩ := insert_total hg v he
    exact ⟨g', h', insert_tri hg h', insert_faceCycle hg h'⟩
  · obtain ⟨g', h'⟩ := close2_total hg.1 h1 h2
    have x := close2_triExt h'
    exact ⟨g', h', x.tri hg, x.faceCycle (x.tri hg).1⟩
  · obtain ⟨g', h'⟩ := closeN_total hg.1 h1 h2
    have x := closeN_triExt h'
    exact ⟨g', h', x.tri hg, x.faceCycle (x.tri hg).1⟩
  · have x := close_triExt h
    exact ⟨x.tri hg, x.faceCycle (x.tri hg).1⟩

/-- Instance of `tri_preserved` at the seeded triangle, for `insert`. -/
theorem tri_preserved_witness :
    Tri tri0 ∧ Built tri0 ∧ FaceCycle tri0 ∧ ∀ v e, e < tri0.mHalfEdge.length →
      ∃ g', tri0.insert v e = some g' ∧ Tri g' ∧ (FaceCycle tri0 → FaceCycle g') :=
  have hb : Built tri0 :=
    Built.add 12 (Built.add 11 (Built.add 10 Built.empty rfl) rfl) rfl
  ⟨by decide, hb, (tri_preserved.2 tri0 hb).2.2, (tri_preserved.1 tri0 (by decide)).2.2.1⟩

/-! ## C5: the seeded triangle -/

/-- C5: on a graph with exactly the three nodes `n0`, `n1`, `n2` and no half-edge or
face, `seedNodes` returns a graph with 1 face, 3 half-edges and 3 nodes; the half-edges
0, 1, 2 are border, linked 0 → 1 → 2 → 0 by `next`, all of face 0 whose stored edge is
half-edge 0; they point to the nodes 1, 2, 0; and the nodes 0, 1, 2 store the half-edges
0, 1, 2 and keep their data pointers. -/
theorem seedNodes_three (n0 n1 n2 : Node) :
    ∃ g', seedNodes { mHalfEdge := [], mFace := [], mNode := [n0, n1, n2] } = some g' ∧
      g'.mFace.length = 1 ∧ g'.mHalfEdge.length = 3 ∧ g'.mNode.length = 3 ∧
      g'.nullEdges = [0, 1, 2] ∧
      g'.isBorder 0 = true ∧ g'.isBorder 1 = true ∧ g'.isBorder 2 = true ∧
      g'.next 0 = some 1 ∧ g'.next 1 = some 2 ∧ g'.next 2 = some 0 ∧
      g'.face 0 = some 0 ∧ g'.face 1 = some 0 ∧ g'.face 2 = some 0 ∧
      g'.faceEdge 0 = some 0 ∧
      g'.node 0 = some 1 ∧ g'.node 1 = some 2 ∧ g'.node 2 = some 0 ∧
      g'.nodeEdge 0 = some 0 ∧ g'.nodeEdge 1 = some 1 ∧ g'.nodeEdge 2 = some 2 ∧
      g'.mNode.map (fun n => n.ptr) = [n0.ptr, n1.ptr, n2.ptr] :=
  ⟨_, rfl, rfl, rfl, rfl, rfl, rfl, rfl, rfl, rfl, rfl, rfl, rfl, rfl, rfl, rfl, rfl, rfl, rfl,
    rfl, rfl, rfl, rfl⟩

/-! ## Counting border half-edges -/

theorem nullEdgesFrom_length (i : Nat) (l : List HalfEdge) :
    (nullEdgesFrom i l).length = l.countP (fun r => r.opp.isNone) := by
  induction l generalizing i with
  | nil => rfl
  | cons r t ih =>
    simp only [nullEdgesFrom, List.countP_cons]
    split <;> simp_all

theorem nullEdges_length (g : HEGraph) :
    g.nullEdges.length = g.mHalfEdge.countP (fun r => r.opp.isNone) :=
  nullEdgesFrom_length 0 _

theorem mem_nullEdgesFrom (i x : Nat) (l : List HalfEdge) :
    x ∈ nullEdgesFrom i l ↔ ∃ k r, x = i + k ∧ l[k]? = some r ∧ r.opp = none := by
  induction l generalizing i with
  | nil => simp [nullEdgesFrom]
  | cons r t ih =>
    have step : x ∈ nullEdgesFrom i (r :: t) ↔
        (x = i ∧ r.opp = none) ∨ x ∈ nullEdgesFrom (i + 1) t := by
      simp only [nullEdgesFrom]
      cases h : r.opp <;> simp
    rw [step, ih]
    constructor
    · rintro (⟨rfl, hr⟩ | ⟨k, q, rfl, hq, ho⟩)
      · exact ⟨0, r, rfl, by simp, hr⟩
      · exact ⟨k + 1, q, by omega, by simpa using hq, ho⟩
    · rintro ⟨k, q, rfl, hq, ho⟩
      cases k with
      | zero =>
        left
        simp only [List.getElem?_cons_zero, Option.some.injEq] at hq
        subst hq
        exact ⟨rfl, ho⟩
      | succ k =>
        right
        exact ⟨k, q, by omega, by simpa using hq, ho⟩

theorem mem_nullEdges {g : HEGraph} {x : Nat} : x ∈ g.nullEdges ↔ g.isBorder x = true := by
  unfold nullEdges isBorder he
  rw [mem_nullEdgesFrom]
  constructor
  · rintro ⟨k, r, rfl, hr, ho⟩
    simp only [Nat.zero_add, hr, ho]
    rfl
  · intro h
    cases hx : g.mHalfEdge[x]? with
    | none => rw [hx] at h; cases h
    | some r =>
      rw [hx] at h
      refine ⟨x, r, by omega, hx, ?_⟩
      cases ho : r.opp with
      | none => rfl
      | some y => simp [ho] at h

theorem countP_set_border {l : List HalfEdge} {x : Nat} {r : HalfEdge} (hx : l[x]? = some r)
    (hr : r.opp = none) (y : Nat) :
    (l.set x { r with opp := some y }).countP (fun q => q.opp.isNone) + 1 =
      l.countP (fun q => q.opp.isNone) := by
  induction l generalizing x with
  | nil => simp at hx
  | cons a t ih =>
    cases x with
    | zero =>
      simp only [List.getElem?_cons_zero, Option.some.injEq] at hx
      subst hx
      simp [List.countP_cons, hr]
    | succ k =>
      simp only [List.getElem?_cons_succ] at hx
      simp only [List.set_cons_succ, List.countP_cons]
      have := ih hx
      omega

theorem isBorder_false_of_opp {g : HEGraph} {i y : Nat} (h : g.opp i = some y) :
    g.isBorder i = false := by
  cases hb : g.isBorder i with
  | false => rfl
  | true =>
    rw [(isBorder_iff.1 hb).2] at h
    cases h

/-! ## C6: fan extension at a border half-edge -/

/-- C6: for a border half-edge `e` whose face is a triangle `e`, `e1`, `e2`, `addAt(v,e)`
returns a graph with one more node, three more half-edges and one more face; `e` is no
longer border, its `opp` is the second new half-edge, whose `opp` is `e`; the first and
third new half-edges are border and the number of border half-edges has grown by 1; the
new face stores the first new half-edge, its half-edges point to `e.node`,
`e.prev().node` and the new node, and `lastEdge()` is the third new half-edge, border,
pointing to the new node. -/
theorem addAt_border (g : HEGraph) (v e e1 e2 : Nat) (hb : g.isBorder e = true)
    (h1 : g.next e = some e1) (h2 : g.next e1 = some e2) (h3 : g.next e2 = some e) :
    ∃ g', g.addAt v e = some g' ∧
      g'.mNode.length = g.mNode.length + 1 ∧
      g'.mHalfEdge.length = g.mHalfEdge.length + 3 ∧
      g'.mFace.length = g.mFace.length + 1 ∧
      g'.isBorder e = false ∧
      g'.opp e = some (g.mHalfEdge.length + 1) ∧
      g'.opp (g.mHalfEdge.length + 1) = some e ∧
      g'.isBorder g.mHalfEdge.length = true ∧
      g'.isBorder (g.mHalfEdge.length + 2) = true ∧
      g'.nullEdges.length = g.nullEdges.length + 1 ∧
      g'.lastFace = some g.mFace.length ∧
      g'.faceEdge g.mFace.length = some g.mHalfEdge.length ∧
      g'.next g.mHalfEdge.length = some (g.mHalfEdge.length + 1) ∧
      g'.next (g.mHalfEdge.length + 1) = some (g.mHalfEdge.length + 2) ∧
      g'.next (g.mHalfEdge.length + 2) = some g.mHalfEdge.length ∧
      g'.node g.mHalfEdge.length = g.node e ∧
      g'.node (g.mHalfEdge.length + 1) = g.node e2 ∧
      g'.node (g.mHalfEdge.length + 2) = some g.mNode.length ∧
      g'.lastEdge = some (g.mHalfEdge.length + 2) ∧
      g'.lastNode = some g.mNode.length := by
  obtain ⟨re, hre, hre1⟩ := next_eq_some.1 h1
  obtain ⟨r1, hr1, hr11⟩ := next_eq_some.1 h2
  obtain ⟨r2, hr2, -⟩ := next_eq_some.1 h3
  obtain ⟨hlt, ho⟩ := isBorder_iff.1 hb
  have hro : re.opp = none := by
    simpa [opp, hre] using ho
  have hex : ∃ g', g.addAt v e = some g' := by simp [addAt, hre, hre1, hr1, hr11, hr2]
  obtain ⟨g', h⟩ := hex
  have x := addAt_triExt h
  have hopp := addAt_opp h
  have hne : e ≠ g.mHalfEdge.length + 1 := by omega
  have o1 : g'.opp e = some (g.mHalfEdge.length + 1) := by rw [hopp, if_pos rfl]
  have o2 : g'.opp (g.mHalfEdge.length + 1) = some e := by
    rw [hopp, if_neg (Ne.symm hne), if_pos rfl]
  have o0 : g'.opp g.mHalfEdge.length = none := by
    rw [hopp, if_neg (by omega), if_neg (by omega)]
    exact opp_none_of_le (Nat.le_refl _)
  have o3 : g'.opp (g.mHalfEdge.length + 2) = none := by
    rw [hopp, if_neg (by omega), if_neg (by omega)]
    exact opp_none_of_le (by omega)
  obtain ⟨re', e1', r1', e2', r2', k0, k1, k2, k3, k4, hg'⟩ := addAt_some h
  rw [hre] at k0; cases k0
  rw [hre1] at k1; cases k1
  rw [hr1] at k2; cases k2
  rw [hr11] at k3; cases k3
  rw [hr2] at k4; cases k4
  have hnode : ∀ i, g'.node i = if i < g.mHalfEdge.length then
      ((g.mHalfEdge.set e { re with opp := some (g.mHalfEdge.length + 1) })[i]?).bind
        (fun q : HalfEdge => q.node)
      else if i = g.mHalfEdge.length then re.node
      else if i = g.mHalfEdge.length + 1 then r2.node
      else if i = g.mHalfEdge.length + 2 then some g.mNode.length else none := by
    intro i
    rw [hg']
    simp only [node, he]
    rw [node_app3 _ _ _ _ g.mHalfEdge.length i (by simp)]
  have n0 : g'.node g.mHalfEdge.length = g.node e := by
    rw [hnode, if_neg (by omega), if_pos rfl]
    simp [node, hre]
  have n1 : g'.node (g.mHalfEdge.length + 1) = g.node e2 := by
    rw [hnode, if_neg (by omega), if_neg (by omega), if_pos rfl]
    simp [node, hr2]
  have n2 : g'.node (g.mHalfEdge.length + 2) = some g.mNode.length := by
    rw [hnode, if_neg (by omega), if_neg (by omega), if_neg (by omega), if_pos rfl]
  have hnl : g'.mNode.length = g.mNode.length + 1 := by rw [hg']; simp
  have hcount : g'.nullEdges.length = g.nullEdges.length + 1 := by
    rw [nullEdges_length, nullEdges_length, hg']
    have := @countP_set_border g.mHalfEdge e re hre hro (g.mHalfEdge.length + 1)
    simp only [List.countP_append]
    simp only [List.countP_cons, List.countP_nil, HalfEdge.new, Option.isNone_none,
      Option.isNone_some, if_true, Bool.false_eq_true, if_false]
    omega
  refine ⟨g', h, hnl, x.len, x.flen, isBorder_false_of_opp o1, o1, o2,
    isBorder_iff.2 ⟨by rw [x.len]; omega, o0⟩, isBorder_iff.2 ⟨by rw [x.len]; omega, o3⟩,
    hcount, ?_, ?_, x.next0, x.next1, x.next2, n0, n1, n2, ?_, ?_⟩
  · simp [lastFace, x.flen]
  · simp [faceEdge, x.faces]
  · simp [lastEdge, x.len]
  · have hl : g'.lastEdge = some (g.mHalfEdge.length + 2) := by simp [lastEdge, x.len]
    obtain ⟨r, hr, hrn⟩ := node_eq_some.1 n2
    simp [lastNode, hl, hr, hrn, hnl]

/-- Instance of `addAt_border`: `addAt(v, lastEdge())` on the seeded triangle. -/
theorem addAt_border_witness :
    tri0.lastEdge = some 2 ∧ tri0.isBorder 2 = true ∧
      ∃ g', tri0.addAt 13 2 = some g' ∧ g'.mNode.length = 4 ∧ g'.mHalfEdge.length = 6 ∧
        g'.mFace.length = 2 ∧ g'.isBorder 2 = false ∧ g'.nullEdges.length = 4 := by
  obtain ⟨g', h, a1, a2, a3, a4, -, -, -, -, a5, -⟩ :=
    addAt_border tri0 13 2 0 1 (by decide) (by decide) (by decide) (by decide)
  exact ⟨by decide, by decide, g', h, a1, a2, a3, a4, a5⟩

/-! ## C7: closing a three-edge hole -/

theorem nextNullCW_border {g : HEGraph} (fuel : Nat) :
    ∀ (o : Option Nat) (t r : Nat), g.nextNullCW fuel o t = some r →
      t < g.mHalfEdge.length → g.opp t = o → g.isBorder r = true := by
  induction fuel with
  | zero =>
    intro o t r h hlt ho
    cases o with
    | none =>
      simp only [nextNullCW, Option.some.injEq] at h
      subst h
      exact isBorder_iff.2 ⟨hlt, ho⟩
    | some e => simp [nextNullCW] at h
  | succ n ih =>
    intro o t r h hlt ho
    cases o with
    | none =>
      simp only [nextNullCW, Option.some.injEq] at h
      subst h
      exact isBorder_iff.2 ⟨hlt, ho⟩
    | some e =>
      simp only [nextNullCW, Option.bind_eq_bind, Option.bind_eq_some] at h
      obtain ⟨re, -, t', -, rt, hrt, hrec⟩ := h
      exact ih rt.opp t' r hrec (he_lt hrt) (by simp [opp, hrt])

theorem nextNullCCW_border {g : HEGraph} (fuel : Nat) :
    ∀ (o : Option Nat) (t r : Nat), g.nextNullCCW fuel o t = some r →
      t < g.mHalfEdge.length → g.opp t = o → g.isBorder r = true := by
  induction fuel with
  | zero =>
    intro o t r h hlt ho
    cases o with
    | none =>
      simp only [nextNullCCW, Option.some.injEq] at h
      subst h
      exact isBorder_iff.2 ⟨hlt, ho⟩
    | some e => simp [nextNullCCW] at h
  | succ n ih =>
    intro o t r h hlt ho
    cases o with
    | none =>
      simp only [nextNullCCW, Option.some.injEq] at h
      subst h
      exact isBorder_iff.2 ⟨hlt, ho⟩
    | some e =>
      simp only [nextNullCCW, Option.bind_eq_bind, Option.bind_eq_some] at h
      obtain ⟨re, -, n', -, rn, -, t', -, rt, hrt, hrec⟩ := h
      exact ih rt.opp t' r hrec (he_lt hrt) (by simp [opp, hrt])

/-- Whatever `nextNull` returns is a border half-edge. -/
theorem nextNull_border {g : HEGraph} {fuel : Nat} {c : Bool} {e r : Nat}
    (h : g.nextNull fuel c e = some r) : g.isBorder r = true := by
  unfold nextNull at h
  cases c with
  | true =>
    simp only [if_true, Option.bind_eq_bind, Option.bind_eq_some] at h
    obtain ⟨re, -, n, -, rn, hrn, hrec⟩ := h
    exact nextNullCW_border fuel _ _ _ hrec (he_lt hrn) (by simp [opp, hrn])
  | false =>
    simp only [Bool.false_eq_true, if_false, Option.bind_eq_bind, Option.bind_eq_some] at h
    obtain ⟨re, -, n, -, rn, -, nn, -, rnn, hrnn, hrec⟩ := h
    exact nextNullCCW_border fuel _ _ _ hrec (he_lt hrnn) (by simp [opp, hrnn])

theorem hasBorder_false_iff {g : HEGraph} : g.hasBorder = false ↔ g.nullEdges = [] := by
  rw [← List.length_eq_zero, nullEdges_length]
  unfold hasBorder
  rw [List.countP_eq_zero, Bool.eq_false_iff, Ne, List.any_eq_true]
  simp

/-- C7: in a graph with the next-3-cycle condition and symmetric `opp`, for a border
half-edge `e` with `e.triangle()` true whose walks give `tb = e.nextNull(false)` and
`tc = e.nextNull(true)` with `e`, `tb`, `tc` distinct, `close(e)` returns a graph with the
same nodes, three more half-edges and one more face, in which `e`, `tb`, `tc` are not in
`nullEdges()`, none of the three new half-edges is border, and `nullEdges()` has three
entries fewer.  On the triangle seeded from any three nodes, `close(edge(0))` gives a
graph with `hasBorder()` false, 2 faces and 6 half-edges. -/
theorem close_hole :
    (∀ (g : HEGraph) (fuel e tb tc : Nat), NextCycle g → OppSym g → g.isBorder e = true →
      g.triangle fuel e = some true → g.nextNull fuel false e = some tb →
      g.nextNull fuel true e = some tc → e ≠ tb → e ≠ tc → tb ≠ tc →
      ∃ g', g.close fuel e = some g' ∧
        g'.mNode = g.mNode ∧
        g'.mHalfEdge.length = g.mHalfEdge.length + 3 ∧
        g'.mFace.length = g.mFace.length + 1 ∧
        e ∉ g'.nullEdges ∧ tb ∉ g'.nullEdges ∧ tc ∉ g'.nullEdges ∧
        tb ∈ g.nullEdges ∧ tc ∈ g.nullEdges ∧
        g'.isBorder g.mHalfEdge.length = false ∧
        g'.isBorder (g.mHalfEdge.length + 1) = false ∧
        g'.isBorder (g.mHalfEdge.length + 2) = false ∧
        g'.nullEdges.length + 3 = g.nullEdges.length) ∧
    (∀ n0 n1 n2 : Node, ∃ g1 e g2,
      seedNodes { mHalfEdge := [], mFace := [], mNode := [n0, n1, n2] } = some g1 ∧
      g1.edge 0 = some e ∧ g1.close 1 e = some g2 ∧ g2.hasBorder = false ∧
      g2.mFace.length = 2 ∧ g2.mHalfEdge.length = 6) := by
  refine ⟨?_, fun n0 n1 n2 => ⟨_, _, _, rfl, rfl, rfl, rfl, rfl, rfl⟩⟩
  intro g fuel e tb tc _ _ hb _ n0 n1 d0 d1 d2
  have btb := nextNull_border n0
  have btc := nextNull_border n1
  obtain ⟨hlt, ho⟩ := isBorder_iff.1 hb
  obtain ⟨hltb, hob⟩ := isBorder_iff.1 btb
  obtain ⟨hltc, hoc⟩ := isBorder_iff.1 btc
  obtain ⟨g', h⟩ := close_total n0 n1 hlt hltb hltc
  have x := close_triExt h
  obtain ⟨tb', tc', n0', n1', hopp⟩ := close_opp h
  rw [n0] at n0'; cases n0'
  rw [n1] at n1'; cases n1'
  have oe : g'.opp e = some g.mHalfEdge.length := by
    rw [hopp, if_neg d1, if_neg (by omega), if_neg d0, if_neg (by omega), if_pos rfl]
  have otb : g'.opp tb = some (g.mHalfEdge.length + 1) := by
    rw [hopp, if_neg d2, if_neg (by omega), if_pos rfl]
  have otc : g'.opp tc = some (g.mHalfEdge.length + 2) := by
    rw [hopp, if_pos rfl]
  have o0 : g'.opp g.mHalfEdge.length = some e := by
    rw [hopp, if_neg (by omega), if_neg (by omega), if_neg (by omega), if_neg (by omega),
      if_neg (by omega), if_pos rfl]
  have o1 : g'.opp (g.mHalfEdge.length + 1) = some tb := by
    rw [hopp, if_neg (by omega), if_neg (by omega), if_neg (by omega), if_pos rfl]
  have o2 : g'.opp (g.mHalfEdge.length + 2) = some tc := by
    rw [hopp, if_neg (by omega), if_pos rfl]
  have nb : ∀ {i y : Nat}, g'.opp i = some y → i ∉ g'.nullEdges := by
    intro i y hy hmem
    rw [mem_nullEdges, isBorder_false_of_opp hy] at hmem
    cases hmem
  obtain ⟨tb', tc', re, rtb, rtc, rtb1, rtc1, m0, m1, h2, h3, h4, h5, h6, hg'⟩ := close_some h
  rw [n0] at m0; cases m0
  rw [n1] at m1; cases m1
  have hro : re.opp = none := by simpa [opp, h2] using ho
  have hrtb : rtb.opp = none := by simpa [opp, h3] using hob
  have hrtc : rtc.opp = none := by simpa [opp, h4] using hoc
  have e5 : rtb1 = rtb := by
    rw [List.getElem?_set, if_neg d0] at h5
    exact Option.some.inj (h5.symm.trans h3)
  have e6 : rtc1 = rtc := by
    rw [List.getElem?_set, if_neg d2, List.getElem?_set, if_neg d1] at h6
    exact Option.some.inj (h6.symm.trans h4)
  have c1 := @countP_set_border g.mHalfEdge e re h2 hro g.mHalfEdge.length
  have c2 := countP_set_border h5 (e5 ▸ hrtb) (g.mHalfEdge.length + 1)
  have c3 := countP_set_border h6 (e6 ▸ hrtc) (g.mHalfEdge.length + 2)
  have hcount : g'.nullEdges.length + 3 = g.nullEdges.length := by
    rw [nullEdges_length, nullEdges_length, hg']
    simp only [List.countP_append, List.countP_cons, List.countP_nil, HalfEdge.new,
      Option.isNone_some, Bool.false_eq_true, if_false]
    omega
  exact ⟨g', h, close_nodes h, x.len, x.flen, nb oe, nb otb, nb otc, mem_nullEdges.2 btb,
    mem_nullEdges.2 btc, isBorder_false_of_opp o0, isBorder_false_of_opp o1,
    isBorder_false_of_opp o2, hcount⟩

/-- Instance of `close_hole` at the seeded triangle and its half-edge 0. -/
theorem close_hole_witness :
    NextCycle tri0 ∧ OppSym tri0 ∧ tri0.isBorder 0 = true ∧ tri0.triangle 1 0 = some true ∧
      ∃ g', tri0.close 1 0 = some g' ∧ g'.nullEdges.length + 3 = tri0.nullEdges.length ∧
        g'.hasBorder = false := by
  obtain ⟨g', h, -, -, -, -, -, -, -, -, -, -, -, hc⟩ :=
    close_hole.1 tri0 1 0 2 1 (by decide) (by decide) (by decide) (by decide) (by decide)
      (by decide) (by decide) (by decide) (by decide)
  refine ⟨by decide, by decide, by decide, by decide, g', h, hc, ?_⟩
  rw [hasBorder_false_iff, ← List.length_eq_zero]
  have : tri0.nullEdges.length = 3 := by decide
  omega

/-! ## Vertex data is never inspected -/

theorem relabel_addNode (φ : Nat → Nat) (v : Nat) (g : HEGraph) :
    (g.relabel φ).addNode (φ v) = (g.addNode v).relabel φ := by
  simp [addNode, relabel, Node.new]

theorem relabel_seedNodes (φ : Nat → Nat) (g : HEGraph) :
    (g.relabel φ).seedNodes = (g.seedNodes).map (relabel φ) := by
  simp only [seedNodes, relabel, List.getElem?_map]
  cases h0 : g.mNode[0]? <;> cases h1 : g.mNode[1]? <;> cases h2 : g.mNode[2]? <;>
    simp [List.map_set, relabel]

theorem relabel_addAt (φ : Nat → Nat) (v e : Nat) (g : HEGraph) :
    (g.relabel φ).addAt (φ v) e = (g.addAt v e).map (relabel φ) := by
  simp only [addAt, relabel, he]
  cases h0 : g.mHalfEdge[e]? with
  | none => rfl
  | some re =>
    cases h1 : re.next with
    | none => simp [h1]
    | some e1 =>
      cases h2 : g.mHalfEdge[e1]? with
      | none => simp [h1, h2]
      | some r1 =>
        cases h3 : r1.next with
        | none => simp [h1, h2, h3]
        | some e2 =>
          cases h4 : g.mHalfEdge[e2]? with
          | none => simp [h1, h2, h3, h4]
          | some r2 => simp [h1, h2, h3, h4, Node.new, relabel]

theorem relabel_edge (φ : Nat → Nat) (g : HEGraph) (i : Int) : (g.relabel φ).edge i = g.edge i :=
  rfl

theorem relabel_lastEdge (φ : Nat → Nat) (g : HEGraph) : (g.relabel φ).lastEdge = g.lastEdge :=
  rfl

theorem relabel_add (φ : Nat → Nat) (v : Nat) (g : HEGraph) :
    (g.relabel φ).add (φ v) = (g.add v).map (relabel φ) := by
  have hl : (g.relabel φ).mNode.length = g.mNode.length := by simp [relabel]
  simp only [add, hl]
  by_cases c0 : g.mNode.length < 3
  · by_cases c1 : g.mNode.length = 2
    · have c2 : ¬ g.mNode.length ≥ 3 := by omega
      simp only [if_pos c0, if_pos c1, if_neg c2, relabel_addNode, relabel_seedNodes]
      cases (g.addNode v).seedNodes <;> rfl
    · have c2 : ¬ g.mNode.length ≥ 3 := by omega
      simp only [if_pos c0, if_neg c1, if_neg c2, relabel_addNode]
      rfl
  · have c1 : ¬ g.mNode.length = 2 := by omega
    have c2 : g.mNode.length ≥ 3 := by omega
    simp only [if_neg c0, if_neg c1, if_pos c2, relabel_lastEdge, Option.bind_eq_bind,
      Option.some_bind]
    cases g.lastEdge with
    | none => rfl
    | some e => simp only [Option.some_bind, relabel_addAt]

theorem map_bind_opt {α β γ : Type} (k : β → γ) (x : Option α) (f : α → Option β) :
    (x.bind f).map k = x.bind (fun a => (f a).map k) := by
  cases x <;> rfl

theorem relabel_close2 (φ : Nat → Nat) (ha hb : Nat) (g : HEGraph) :
    (g.relabel φ).close2 ha hb = (g.close2 ha hb).map (relabel φ) := by
  simp only [close2, Option.bind_eq_bind, map_bind_opt, Option.pure_def, Option.map_some']
  rfl

theorem foldlM_relabel {α : Type} (φ : Nat → Nat) (f f' : HEGraph → α → Option HEGraph)
    (hf : ∀ g x, f' (g.relabel φ) x = (f g x).map (relabel φ)) (l : List α) (g : HEGraph) :
    l.foldlM f' (g.relabel φ) = (l.foldlM f g).map (relabel φ) := by
  induction l generalizing g with
  | nil => rfl
  | cons x t ih =>
    simp only [List.foldlM_cons, hf, Option.bind_eq_bind]
    cases f g x with
    | none => rfl
    | some g1 => exact ih g1

theorem relabel_uvFirst (φ : Nat → Nat) (h : Nat) (p : List Nat) (g : HEGraph) (j : Nat) :
    uvFirst h (p.map φ) (g.relabel φ) j = (uvFirst h p g j).map (relabel φ) := by
  simp only [uvFirst, List.getElem?_map, relabel_edge]
  cases p[j]? with
  | none => rfl
  | some pi =>
    cases p[j + h]? with
    | none => rfl
    | some pb =>
      simp only [Option.map_some', Option.bind_eq_bind, Option.some_bind]
      by_cases c0 : j < 2
      · simp only [if_pos c0, relabel_add]
        cases g.add pi with
        | none => rfl
        | some g1 =>
          simp only [Option.map_some', Option.some_bind, relabel_edge]
          by_cases c1 : j = 0
          · simp only [if_pos c1, relabel_add]
          · simp only [if_neg c1]
            cases g1.edge (-2) with
            | none => rfl
            | some e => simp only [Option.some_bind, relabel_addAt]
      · have c1 : ¬ j = 0 := by omega
        simp only [if_neg c0, if_neg c1]
        cases g.edge (-3) with
        | none => rfl
        | some e =>
          simp only [Option.some_bind, relabel_addAt]
          cases g.addAt pi e with
          | none => rfl
          | some g1 =>
            simp only [Option.map_some', Option.some_bind, relabel_edge]
            cases g1.edge (-1) with
            | none => rfl
            | some e' => simp only [Option.some_bind, relabel_addAt]

theorem relabel_uvInner (φ : Nat → Nat) (h : Nat) (p : List Nat) (i : Nat) (idx : Int)
    (g : HEGraph) (j : Nat) :
    uvInner h (p.map φ) i idx (g.relabel φ) j = (uvInner h p i idx g j).map (relabel φ) := by
  simp only [uvInner, List.getElem?_map, relabel_edge]
  cases g.edge (-3) with
  | none => rfl
  | some a =>
    cases g.edge (idx + ((j : Int) - 1) * 6) with
    | none => rfl
    | some b =>
      simp only [Option.bind_eq_bind, Option.some_bind, relabel_close2]
      cases g.close2 a b with
      | none => rfl
      | some g1 =>
        simp only [Option.map_some', Option.some_bind]
        cases p[i * h + j]? with
        | none => rfl
        | some pc => simp only [Option.map_some', Option.some_bind, relabel_add]

theorem relabel_uvSecond (φ : Nat → Nat) (w h : Nat) (p : List Nat) (g : HEGraph) (i : Nat) :
    uvSecond w h (p.map φ) (g.relabel φ) i = (uvSecond w h p g i).map (relabel φ) := by
  simp only [uvSecond, List.getElem?_map, relabel_edge]
  cases g.edge ((((i : Int) - 2) * ((w : Int) - 1) + 1) * 6 - 1) with
  | none => rfl
  | some e =>
    cases p[i * h]? with
    | none => rfl
    | some pa =>
      simp only [Option.map_some', Option.bind_eq_bind, Option.some_bind, relabel_addAt]
      cases g.addAt pa e with
      | none => rfl
      | some g1 =>
        simp only [Option.map_some', Option.some_bind, relabel_edge]
        cases g1.edge (-3) with
        | none => rfl
        | some e1 =>
          cases p[i * h + 1]? with
          | none => rfl
          | some pb =>
            simp only [Option.map_some', Option.some_bind, relabel_addAt]
            cases g1.addAt pb e1 with
            | none => rfl
            | some g2 =>
              simp only [Option.map_some', Option.some_bind]
              exact foldlM_relabel φ _ _ (relabel_uvInner φ h p i _) _ g2

/-- Relabelling: `UV` on relabelled points builds the relabelled graph: the construction never
inspects the vertex data. -/
theorem relabel_UV (φ : Nat → Nat) (w h : Nat) (p : List Nat) (g : HEGraph) :
    UV w h (p.map φ) (g.relabel φ) = (UV w h p g).map (relabel φ) := by
  simp only [UV, Option.bind_eq_bind]
  rw [foldlM_relabel φ _ _ (relabel_uvFirst φ h p) _ g]
  cases (List.range h).foldlM (uvFirst h p) g with
  | none => rfl
  | some g1 =>
    simp only [Option.map_some', Option.some_bind]
    exact foldlM_relabel φ _ _ (relabel_uvSecond φ w h p) _ g1

/-! ## C8: the 3 × 3 grid -/

theorem nextCycle_congr {g g' : HEGraph} (h1 : g'.mHalfEdge = g.mHalfEdge)
    (h2 : g'.mFace.length = g.mFace.length) (hg : NextCycle g) : NextCycle g' := by
  intro h hh
  rw [h1] at hh
  obtain ⟨a, b, f, k1, k2, k3, k4, k5, k6, k7⟩ := hg h hh
  refine ⟨a, b, f, ?_, ?_, ?_, ?_, ?_, ?_, by omega⟩ <;>
    simp only [next, face, he, h1] <;> assumption

theorem oppSym_congr {g g' : HEGraph} (h1 : g'.mHalfEdge = g.mHalfEdge) (hg : OppSym g) :
    OppSym g' := by
  intro a b hab
  simp only [opp, he, h1] at hab ⊢
  exact hg a b hab


theorem grid33_built : UV 3 3 [0, 1, 2, 3, 4, 5, 6, 7, 8] HEGraph.empty = some grid33 := by
  decide!

theorem grid33_border :
    grid33.nullEdges = [0, 2, 6, 9, 14, 17, 21, 23] ∧ grid33.firstNull = some 0 := by
  decide!

theorem grid33_loop :
    grid33.boundaryLoop 24 true = some [0, 14, 17, 23, 21, 9, 6, 2] ∧
      grid33.nextNull 24 true 2 = some 0 ∧
      grid33.boundaryLoop 24 false = some [0, 2, 6, 9, 21, 23, 17, 14] ∧
      grid33.nextNull 24 false 14 = some 0 := by
  decide!

theorem grid33_inv : Tri grid33 ∧ OppSym grid33 := by
  decide!

theorem nextNullCW_congr {g g' : HEGraph} (h : g'.mHalfEdge = g.mHalfEdge) (fuel : Nat) :
    ∀ o t, g'.nextNullCW fuel o t = g.nextNullCW fuel o t := by
  induction fuel with
  | zero => intro o t; cases o <;> rfl
  | succ n ih =>
    intro o t
    cases o with
    | none => rfl
    | some e => simp only [nextNullCW, he, h, ih]

theorem nextNullCCW_congr {g g' : HEGraph} (h : g'.mHalfEdge = g.mHalfEdge) (fuel : Nat) :
    ∀ o t, g'.nextNullCCW fuel o t = g.nextNullCCW fuel o t := by
  induction fuel with
  | zero => intro o t; cases o <;> rfl
  | succ n ih =>
    intro o t
    cases o with
    | none => rfl
    | some e => simp only [nextNullCCW, he, h, ih]

theorem nextNull_congr {g g' : HEGraph} (h : g'.mHalfEdge = g.mHalfEdge) (fuel : Nat)
    (c : Bool) (e : Nat) : g'.nextNull fuel c e = g.nextNull fuel c e := by
  simp only [nextNull, he, h, nextNullCW_congr h, nextNullCCW_congr h]

theorem boundaryWalk_congr {g g' : HEGraph} (h : g'.mHalfEdge = g.mHalfEdge) (fuel : Nat)
    (s : Bool) (start : Nat) :
    ∀ k cur acc, g'.boundaryWalk fuel s start k cur acc = g.boundaryWalk fuel s start k cur acc := by
  intro k
  induction k with
  | zero => intro cur acc; rfl
  | succ n ih => intro cur acc; simp only [boundaryWalk, nextNull_congr h, ih]

theorem boundaryLoop_congr {g g' : HEGraph} (h : g'.mHalfEdge = g.mHalfEdge) (fuel : Nat)
    (s : Bool) : g'.boundaryLoop fuel s = g.boundaryLoop fuel s := by
  simp only [boundaryLoop, h, boundaryWalk_congr h]

/-- C8: `UV(3, 3, p)` on the empty graph, for a sequence `p` of 9 points, returns a graph
with 9 nodes, 8 faces and 24 half-edges, of which exactly the 8 half-edges
0, 2, 6, 9, 14, 17, 21, 23 are border; `firstNull()` is half-edge 0; the boundary walk
from it visits all 8 border half-edges once, in either sense, and `nextNull` of the last
one is half-edge 0 again; the graph satisfies the next-3-cycle condition (with
`h.next ≠ h`) and has symmetric `opp`. -/
theorem UV_3_3 (a b c d e f x y z : Nat) :
    ∃ g, UV 3 3 [a, b, c, d, e, f, x, y, z] HEGraph.empty = some g ∧
      g.mNode.length = 9 ∧ g.mFace.length = 8 ∧ g.mHalfEdge.length = 24 ∧
      g.nullEdges = [0, 2, 6, 9, 14, 17, 21, 23] ∧
      g.firstNull = some 0 ∧
      g.boundaryLoop 24 true = some [0, 14, 17, 23, 21, 9, 6, 2] ∧
      g.nextNull 24 true 2 = some 0 ∧
      g.boundaryLoop 24 false = some [0, 2, 6, 9, 21, 23, 17, 14] ∧
      g.nextNull 24 false 14 = some 0 ∧
      Tri g ∧ OppSym g := by
  have h := relabel_UV (fun i => [a, b, c, d, e, f, x, y, z].getD i 0) 3 3
    [0, 1, 2, 3, 4, 5, 6, 7, 8] HEGraph.empty
  have hp : List.map (fun i => [a, b, c, d, e, f, x, y, z].getD i 0)
      [0, 1, 2, 3, 4, 5, 6, 7, 8] = [a, b, c, d, e, f, x, y, z] := rfl
  have he : HEGraph.empty.relabel (fun i => [a, b, c, d, e, f, x, y, z].getD i 0) =
      HEGraph.empty := rfl
  rw [hp, he, grid33_built, Option.map_some'] at h
  have hm : (grid33.relabel (fun i => [a, b, c, d, e, f, x, y, z].getD i 0)).mHalfEdge =
      grid33.mHalfEdge := rfl
  refine ⟨_, h, ?_, ?_, ?_, ?_, ?_, ?_, ?_, ?_, ?_, ?_, ?_⟩
  · simp only [relabel, List.length_map]; rfl
  · simp only [relabel]; rfl
  · rw [hm]; rfl
  · simp only [nullEdges, hm]; exact grid33_border.1
  · simp only [firstNull, hm]; exact grid33_border.2
  · rw [boundaryLoop_congr hm]; exact grid33_loop.1
  · rw [nextNull_congr hm]; exact grid33_loop.2.1
  · rw [boundaryLoop_congr hm]; exact grid33_loop.2.2.1
  · rw [nextNull_congr hm]; exact grid33_loop.2.2.2
  · exact ⟨nextCycle_congr hm rfl grid33_inv.1.1, fun i hi => by
      simp only [next, he, hm]; exact grid33_inv.1.2 i hi⟩
  · exact oppSym_congr hm grid33_inv.2

/-! ## C9: `UV` on a grid that is not square -/

/-- C9 (the code at failing inputs): for `UV(4, 2, p)` with 8 points, after the column
`i = 2` the graph has 12 half-edges, and the index `((3-2)*(4-1)+1)*6-1 = 23` computed
for the column `i = 3` resolves to no half-edge, so `UV` does not return a graph; for
`UV(4, 5, p)` with 20 points the returned graph has 15 border half-edges instead of
`2*(4+5)-4 = 14`, and `opp` is not symmetric in it. -/
theorem UV_not_square :
    (((List.range 2).foldlM (uvFirst 2 (List.range 8)) HEGraph.empty).bind
        (fun g1 => uvSecond 4 2 (List.range 8) g1 2)).map
      (fun g2 => (g2.mHalfEdge.length, g2.edge ((((3 : Int) - 2) * ((4 : Int) - 1) + 1) * 6 - 1)))
      = some (12, none) ∧
    UV 4 2 (List.range 8) HEGraph.empty = none ∧
    (UV 4 5 (List.range 20) HEGraph.empty).map
      (fun g => (g.mNode.length, g.mFace.length, g.nullEdges.length, decide (OppSym g)))
      = some (20, 24, 15, false) := by
  decide!

/-! ## Moves inside a face -/

theorem NextCycle.next_valid {g : HEGraph} (hg : NextCycle g) {x y : Nat}
    (h : g.next x = some y) : y < g.mHalfEdge.length := by
  obtain ⟨a, b, f, h1, h2, -⟩ := hg x (next_lt h)
  rw [h] at h1; cases h1
  exact next_lt h2

theorem NextCycle.prev_next {g : HEGraph} (hg : NextCycle g) {x y : Nat}
    (h : g.next x = some y) : g.prev y = some x := by
  obtain ⟨a, b, f, h1, h2, h3, -⟩ := hg x (next_lt h)
  rw [h] at h1; cases h1
  simp [prev, h2, h3]

theorem NextCycle.prev_total {g : HEGraph} (hg : NextCycle g) {x : Nat}
    (h : x < g.mHalfEdge.length) :
    ∃ y, y < g.mHalfEdge.length ∧ g.prev x = some y ∧ g.next y = some x := by
  obtain ⟨a, b, f, h1, h2, h3, -⟩ := hg x h
  exact ⟨b, next_lt h3, by simp [prev, h1, h2], h3⟩

theorem NextCycle.next_prev {g : HEGraph} (hg : NextCycle g) {x y : Nat}
    (h : g.prev x = some y) : g.next y = some x := by
  obtain ⟨a, ha, hay⟩ := prev_some h
  obtain ⟨y', -, h1, h2⟩ := hg.prev_total (next_lt ha)
  rw [h] at h1; cases h1
  exact h2

theorem NextCycle.move_next {g : HEGraph} (hg : NextCycle g) : Move g g.next g.prev :=
  ⟨fun x hx => by
      obtain ⟨a, b, f, h1, h2, -⟩ := hg x hx
      exact ⟨a, next_lt h2, h1⟩,
    fun _ _ h => hg.prev_next h⟩

theorem NextCycle.move_prev {g : HEGraph} (hg : NextCycle g) : Move g g.prev g.next :=
  ⟨fun x hx => by
      obtain ⟨y, hy, h1, -⟩ := hg.prev_total hx
      exact ⟨y, hy, h1⟩,
    fun _ _ h => hg.next_prev h⟩

theorem NextCycle.move {g : HEGraph} (hg : NextCycle g) (c : Bool) :
    Move g (g.mv c) (g.mv (!c)) := by
  cases c
  · exact hg.move_prev
  · exact hg.move_next

theorem Move.move_inj {g : HEGraph} {m m' : Nat → Option Nat} (hm : Move g m m') {x y z : Nat}
    (hx : m x = some z) (hy : m y = some z) : x = y :=
  Option.some.inj ((hm.inv x z hx).symm.trans (hm.inv y z hy))

theorem OppSym.valid {g : HEGraph} (hs : OppSym g) {a b : Nat} (h : g.opp a = some b) :
    b < g.mHalfEdge.length := opp_lt (hs a b h).1

theorem OppSym.opp_inj {g : HEGraph} (hs : OppSym g) {a b c : Nat} (ha : g.opp a = some c)
    (hb : g.opp b = some c) : a = b :=
  Option.some.inj ((hs a c ha).1.symm.trans (hs b c hb).1)

/-! ## The loop of `nextNull` -/

theorem nextNullCW_eq_walk (g : HEGraph) (fuel : Nat) :
    ∀ o t, g.nextNullCW fuel o t = g.walk g.next fuel o t := by
  induction fuel with
  | zero => intro o t; cases o <;> rfl
  | succ n ih =>
    intro o t
    cases o with
    | none => rfl
    | some e =>
      simp only [nextNullCW, walk, next, ih, Option.bind_eq_bind, Option.bind_assoc]

theorem nextNullCCW_eq_walk (g : HEGraph) (fuel : Nat) :
    ∀ o t, g.nextNullCCW fuel o t = g.walk g.prev fuel o t := by
  induction fuel with
  | zero => intro o t; cases o <;> rfl
  | succ n ih =>
    intro o t
    cases o with
    | none => rfl
    | some e =>
      simp only [nextNullCCW, walk, prev, next, ih, Option.bind_eq_bind, Option.bind_assoc]

theorem nextNull_eq_walk (g : HEGraph) (fuel : Nat) (c : Bool) (e : Nat) :
    g.nextNull fuel c e =
      (g.mv c e).bind (fun n => (g.he n).bind (fun rn => g.walk (g.mv c) fuel rn.opp n)) := by
  cases c
  · simp only [nextNull, mv, Bool.false_eq_true, if_false, prev, next, nextNullCCW_eq_walk,
      Option.bind_eq_bind, Option.bind_assoc]
  · simp only [nextNull, mv, if_true, next, nextNullCW_eq_walk, Option.bind_eq_bind,
      Option.bind_assoc]

theorem walk_none (g : HEGraph) (m : Nat → Option Nat) (fuel t : Nat) :
    g.walk m fuel none t = some t := by
  cases fuel <;> rfl

theorem walk_succ (g : HEGraph) (m : Nat → Option Nat) (fuel e t : Nat) :
    g.walk m (fuel + 1) (some e) t =
      (m e).bind (fun t' => (g.he t').bind (fun rt => g.walk m fuel rt.opp t')) := rfl

theorem opp_of_he {g : HEGraph} {t : Nat} {r : HalfEdge} (h : g.he t = some r) :
    g.opp t = r.opp := by
  simp [opp, h]

/-- More fuel does not change a result of the loop. -/
theorem walk_mono {g : HEGraph} {m : Nat → Option Nat} (k : Nat) :
    ∀ (fuel : Nat) (o : Option Nat) (t r : Nat), g.walk m fuel o t = some r →
      g.walk m (fuel + k) o t = some r := by
  intro fuel
  induction fuel with
  | zero =>
    intro o t r h
    cases o with
    | none => rw [walk_none] at h ⊢; exact h
    | some e => cases h
  | succ n ih =>
    intro o t r h
    cases o with
    | none => rw [walk_none] at h ⊢; exact h
    | some e =>
      rw [walk_succ] at h
      obtain ⟨t', ht', h⟩ := Option.bind_eq_some.1 h
      obtain ⟨rt, hrt, h⟩ := Option.bind_eq_some.1 h
      have : n + 1 + k = (n + k) + 1 := by omega
      rw [this, walk_succ, ht', Option.some_bind, hrt, Option.some_bind]
      exact ih _ _ _ h

/-- Walking back: if the loop for the move `m` started at `t` ends at `r`, then the
loop for the inverse move `m'` started at `m' r` passes through `m' t`. -/
theorem walk_back {g : HEGraph} {m m' : Nat → Option Nat} (hm : Move g m m')
    (hm' : Move g m' m) (hs : OppSym g) :
    ∀ (fuel t r : Nat), t < g.mHalfEdge.length → g.walk m fuel (g.opp t) t = some r →
      ∀ (f2 u y : Nat), m' t = some u → g.walk m' f2 (g.opp u) u = some y →
        ∃ v, m' r = some v ∧ g.walk m' (f2 + fuel) (g.opp v) v = some y := by
  intro fuel
  induction fuel with
  | zero =>
    intro t r ht h f2 u y hu hy
    cases ho : g.opp t with
    | none =>
      rw [ho, walk_none] at h
      cases h
      exact ⟨u, hu, hy⟩
    | some o => rw [ho] at h; cases h
  | succ n ih =>
    intro t r ht h f2 u y hu hy
    cases ho : g.opp t with
    | none =>
      rw [ho, walk_none] at h
      cases h
      exact ⟨u, hu, walk_mono _ _ _ _ _ hy⟩
    | some o =>
      rw [ho, walk_succ] at h
      obtain ⟨t', ht', h⟩ := Option.bind_eq_some.1 h
      obtain ⟨rt, hrt, h⟩ := Option.bind_eq_some.1 h
      rw [← opp_of_he hrt] at h
      have hoo : g.opp o = some t := (hs t o ho).1
      have hback : m' t' = some o := hm.inv o t' ht'
      have hstep : g.walk m' (f2 + 1) (g.opp o) o = some y := by
        obtain ⟨ru, hru⟩ := he_of_lt (by
          obtain ⟨u', hu', hmu⟩ := hm'.total t ht
          rw [hu] at hmu; cases hmu; exact hu')
        rw [hoo, walk_succ, hu, Option.some_bind, hru, Option.some_bind, ← opp_of_he hru]
        exact hy
      obtain ⟨v, hv, hw⟩ := ih t' r (he_lt hrt) h (f2 + 1) o y hback hstep
      exact ⟨v, hv, by rw [show f2 + (n + 1) = f2 + 1 + n by omega]; exact hw⟩

/-- The two senses of `nextNull` undo each other on border half-edges. -/
theorem nextNull_back {g : HEGraph} (hg : NextCycle g) (hs : OppSym g) {fuel : Nat}
    {c : Bool} {e r : Nat} (hb : g.isBorder e = true) (h : g.nextNull fuel c e = some r) :
    g.nextNull fuel (!c) r = some e := by
  obtain ⟨hlt, ho⟩ := isBorder_iff.1 hb
  rw [nextNull_eq_walk] at h ⊢
  obtain ⟨n, hn, h⟩ := Option.bind_eq_some.1 h
  obtain ⟨rn, hrn, h⟩ := Option.bind_eq_some.1 h
  rw [← opp_of_he hrn] at h
  have hback : g.mv (!c) n = some e := (hg.move c).inv e n hn
  have hm' : Move g (g.mv (!c)) (g.mv c) := by
    have := hg.move (!c)
    simpa using this
  obtain ⟨v, hv, hw⟩ := walk_back (hg.move c) hm' hs fuel n r (he_lt hrn) h 0 e e hback
    (by rw [ho, walk_none])
  have hvlt : v < g.mHalfEdge.length := by
    obtain ⟨v', hv', hmv⟩ := hm'.total r (by
      have := @nextNull_border g fuel c e r
        (by rw [nextNull_eq_walk, hn, Option.some_bind, hrn, Option.some_bind,
          ← opp_of_he hrn]; exact h)
      exact (isBorder_iff.1 this).1)
    rw [hv] at hmv; cases hmv; exact hv'
  obtain ⟨rv, hrv⟩ := he_of_lt hvlt
  rw [hv, Option.some_bind, hrv, Option.some_bind, ← opp_of_he hrv]
  simpa using hw

/-! ## Iterating an injective function on a finite range -/

theorem iterate_peel (F : Nat → Nat) (D : Nat → Prop)
    (hinj : ∀ a b, D a → D b → F a = F b → a = b) (x0 m : Nat)
    (hD : ∀ i, i < m → D (F^[i] x0)) :
    ∀ i j, i ≤ j → j ≤ m → F^[i] x0 = F^[j] x0 → x0 = F^[j - i] x0 := by
  intro i
  induction i with
  | zero => intro j _ _ h; simpa using h
  | succ n ih =>
    intro j hij hjm h
    obtain ⟨j', rfl⟩ : ∃ j', j = j' + 1 := ⟨j - 1, by omega⟩
    rw [Function.iterate_succ_apply', Function.iterate_succ_apply'] at h
    have := hinj _ _ (hD n (by omega)) (hD j' (by omega)) h
    have := ih j' (by omega) (by omega) this
    rwa [show j' + 1 - (n + 1) = j' - n by omega]

theorem iterate_bound (F : Nat → Nat) (x0 m n : Nat) (hlt : ∀ i, i ≤ m → F^[i] x0 < n)
    (hinj : ∀ i j, i ≤ m → j ≤ m → F^[i] x0 = F^[j] x0 → i = j) : m < n := by
  have h := Finset.card_le_card_of_injOn (fun i => F^[i] x0)
    (s := Finset.range (m + 1)) (t := Finset.range n)
    (fun i hi => Finset.mem_range.2 (hlt i (by
      have := Finset.mem_range.1 hi
      omega)))
    (fun i hi j hj hij => hinj i j
      (by have := Finset.mem_range.1 (Finset.mem_coe.1 hi); omega)
      (by have := Finset.mem_range.1 (Finset.mem_coe.1 hj); omega) hij)
  simp only [Finset.card_range] at h
  omega

/-! ## `nextNull` stops on border half-edges -/

theorem round_spec {g : HEGraph} {m m' : Nat → Option Nat} (hm : Move g m m') (hs : OppSym g)
    {t o : Nat} (ho : g.opp t = some o) :
    g.roundOf m t < g.mHalfEdge.length ∧ m o = some (g.roundOf m t) := by
  obtain ⟨y, hy, hmy⟩ := hm.total o (hs.valid ho)
  have : g.roundOf m t = y := by simp [roundOf, ho, hmy]
  rw [this]
  exact ⟨hy, hmy⟩

theorem round_inj {g : HEGraph} {m m' : Nat → Option Nat} (hm : Move g m m') (hs : OppSym g)
    {a b : Nat} (ha : ∃ o, g.opp a = some o) (hb : ∃ o, g.opp b = some o)
    (h : g.roundOf m a = g.roundOf m b) : a = b := by
  obtain ⟨oa, hoa⟩ := ha
  obtain ⟨ob, hob⟩ := hb
  have h1 := (round_spec hm hs hoa).2
  have h2 := (round_spec hm hs hob).2
  rw [h] at h1
  have := hm.move_inj h1 h2
  subst this
  exact hs.opp_inj hoa hob

theorem iter_valid {g : HEGraph} {m m' : Nat → Option Nat} (hm : Move g m m') (hs : OppSym g)
    {t : Nat} (ht : t < g.mHalfEdge.length) :
    ∀ i, (∀ j, j < i → g.opp ((g.roundOf m)^[j] t) ≠ none) →
      (g.roundOf m)^[i] t < g.mHalfEdge.length := by
  intro i
  induction i with
  | zero => intro _; exact ht
  | succ n ih =>
    intro h
    rw [Function.iterate_succ_apply']
    have hn := h n (Nat.lt_succ_self n)
    obtain ⟨o, ho⟩ := Option.ne_none_iff_exists'.1 hn
    exact (round_spec hm hs ho).1

/-- The loop run for `k` rounds that meet an opposite, then a border half-edge. -/
theorem walk_iter {g : HEGraph} {m m' : Nat → Option Nat} (hm : Move g m m') (hs : OppSym g) :
    ∀ (k fuel t : Nat), t < g.mHalfEdge.length →
      (∀ i, i < k → g.opp ((g.roundOf m)^[i] t) ≠ none) →
      g.opp ((g.roundOf m)^[k] t) = none → k ≤ fuel →
      g.walk m fuel (g.opp t) t = some ((g.roundOf m)^[k] t) := by
  intro k
  induction k with
  | zero =>
    intro fuel t _ _ h0 _
    simp only [Function.iterate_zero, id_eq] at h0 ⊢
    rw [h0, walk_none]
  | succ n ih =>
    intro fuel t ht hne h0 hk
    obtain ⟨f, rfl⟩ : ∃ f, fuel = f + 1 := ⟨fuel - 1, by omega⟩
    have h00 := hne 0 (Nat.succ_pos n)
    simp only [Function.iterate_zero, id_eq] at h00
    obtain ⟨o, ho⟩ := Option.ne_none_iff_exists'.1 h00
    obtain ⟨hv, hmo⟩ := round_spec hm hs ho
    obtain ⟨rt, hrt⟩ := he_of_lt hv
    rw [ho, walk_succ, hmo, Option.some_bind, hrt, Option.some_bind, ← opp_of_he hrt,
      Function.iterate_succ_apply]
    refine ih f _ hv (fun i hi => ?_) ?_ (by omega)
    · rw [← Function.iterate_succ_apply]
      exact hne (i + 1) (by omega)
    · rw [← Function.iterate_succ_apply]
      exact h0

/-- From a border half-edge `e`, the loop of `nextNull` meets a border half-edge after
at most as many rounds as the graph has half-edges. -/
theorem exists_stop {g : HEGraph} {m m' : Nat → Option Nat} (hm : Move g m m') (hs : OppSym g)
    {e t0 : Nat} (ho : g.opp e = none) (h0 : m e = some t0)
    (ht0 : t0 < g.mHalfEdge.length) :
    ∃ k, k ≤ g.mHalfEdge.length ∧ g.opp ((g.roundOf m)^[k] t0) = none ∧
      ∀ i, i < k → g.opp ((g.roundOf m)^[i] t0) ≠ none := by
  by_cases hex : ∃ k, k ≤ g.mHalfEdge.length ∧ g.opp ((g.roundOf m)^[k] t0) = none
  · classical
    obtain ⟨h1, h2⟩ := Nat.find_spec hex
    refine ⟨Nat.find hex, h1, h2, fun i hi hnone => ?_⟩
    exact Nat.find_min hex hi ⟨by omega, hnone⟩
  · exfalso
    have hne : ∀ i, i ≤ g.mHalfEdge.length → g.opp ((g.roundOf m)^[i] t0) ≠ none :=
      fun i hi hn => hex ⟨i, hi, hn⟩
    have hval : ∀ i, i ≤ g.mHalfEdge.length → (g.roundOf m)^[i] t0 < g.mHalfEdge.length :=
      fun i hi => iter_valid hm hs ht0 i (fun j hj => hne j (by omega))
    have hinj : ∀ i j, i ≤ g.mHalfEdge.length → j ≤ g.mHalfEdge.length →
        (g.roundOf m)^[i] t0 = (g.roundOf m)^[j] t0 → i = j := by
      have key : ∀ i j, i < j → j ≤ g.mHalfEdge.length →
          (g.roundOf m)^[i] t0 ≠ (g.roundOf m)^[j] t0 := by
        intro i j hij hj heq
        have hp := iterate_peel (g.roundOf m) (fun x => ∃ o, g.opp x = some o)
          (fun a b ha hb h => round_inj hm hs ha hb h) t0 g.mHalfEdge.length
          (fun i hi => Option.ne_none_iff_exists'.1 (hne i (by omega))) i j (by omega) hj heq
        obtain ⟨d, hd⟩ : ∃ d, j - i = d + 1 := ⟨j - i - 1, by omega⟩
        rw [hd, Function.iterate_succ_apply'] at hp
        obtain ⟨o, hoo⟩ := Option.ne_none_iff_exists'.1 (hne d (by omega))
        have h1 := (round_spec hm hs hoo).2
        rw [← hp] at h1
        have := hm.move_inj h1 h0
        subst this
        have := (hs _ _ hoo).1
        rw [ho] at this
        cases this
      intro i j hi hj heq
      rcases Nat.lt_trichotomy i j with h | h | h
      · exact absurd heq (key i j h hj)
      · exact h
      · exact absurd heq.symm (key j i h hi)
    have := iterate_bound (g.roundOf m) t0 g.mHalfEdge.length g.mHalfEdge.length hval hinj
    omega

/-- Termination: `nextNull` returns on every border half-edge once the fuel is the number of
half-edges. -/
theorem nextNull_total {g : HEGraph} (hg : NextCycle g) (hs : OppSym g) {fuel : Nat}
    (hf : g.mHalfEdge.length ≤ fuel) (c : Bool) {e : Nat} (hb : g.isBorder e = true) :
    ∃ r, g.nextNull fuel c e = some r := by
  obtain ⟨hlt, ho⟩ := isBorder_iff.1 hb
  obtain ⟨t0, ht0, h0⟩ := (hg.move c).total e hlt
  obtain ⟨k, hk, hstop, hne⟩ := exists_stop (hg.move c) hs ho h0 ht0
  obtain ⟨rt, hrt⟩ := he_of_lt ht0
  refine ⟨(g.roundOf (g.mv c))^[k] t0, ?_⟩
  rw [nextNull_eq_walk, h0, Option.some_bind, hrt, Option.some_bind, ← opp_of_he hrt]
  exact walk_iter (hg.move c) hs k fuel t0 ht0 hne hstop (by omega)

/-! ## The boundary walk -/

theorem firstNullFrom_spec (i : Nat) (l : List HalfEdge)
    (h : l.any (fun r => r.opp.isNone) = true) :
    ∃ k r, firstNullFrom i l = some (i + k) ∧ l[k]? = some r ∧ r.opp = none := by
  induction l generalizing i with
  | nil => simp at h
  | cons a t ih =>
    cases ha : a.opp with
    | none => exact ⟨0, a, by simp [firstNullFrom, ha], by simp, ha⟩
    | some o =>
      have ht : t.any (fun r => r.opp.isNone) = true := by
        simpa [List.any_cons, ha] using h
      obtain ⟨k, r, h1, h2, h3⟩ := ih (i + 1) ht
      refine ⟨k + 1, r, ?_, by simpa using h2, h3⟩
      simp only [firstNullFrom, ha, Option.isNone_some, Bool.false_eq_true, if_false, h1]
      congr 1
      omega

theorem firstNull_spec {g : HEGraph} (h : g.hasBorder = true) :
    ∃ it, g.firstNull = some it ∧ g.isBorder it = true := by
  obtain ⟨k, r, h1, h2, h3⟩ := firstNullFrom_spec 0 g.mHalfEdge h
  refine ⟨k, by simpa [firstNull] using h1, ?_⟩
  simp [isBorder, he, h2, h3]

theorem nextNullD_spec {g : HEGraph} (hg : NextCycle g) (hs : OppSym g) {fuel : Nat}
    (hf : g.mHalfEdge.length ≤ fuel) (s : Bool) {e : Nat} (hb : g.isBorder e = true) :
    g.nextNull fuel s e = some (g.nextNullD fuel s e) ∧
      g.isBorder (g.nextNullD fuel s e) = true := by
  obtain ⟨r, hr⟩ := nextNull_total hg hs hf s hb
  have : g.nextNullD fuel s e = r := by simp [nextNullD, hr]
  rw [this]
  exact ⟨hr, nextNull_border hr⟩

theorem nextNullD_inj {g : HEGraph} (hg : NextCycle g) (hs : OppSym g) {fuel : Nat}
    (hf : g.mHalfEdge.length ≤ fuel) (s : Bool) {a b : Nat} (ha : g.isBorder a = true)
    (hb : g.isBorder b = true) (h : g.nextNullD fuel s a = g.nextNullD fuel s b) : a = b := by
  have h1 := nextNull_back hg hs ha (nextNullD_spec hg hs hf s ha).1
  have h2 := nextNull_back hg hs hb (nextNullD_spec hg hs hf s hb).1
  rw [h] at h1
  exact Option.some.inj (h1.symm.trans h2)

theorem iterD_border {g : HEGraph} (hg : NextCycle g) (hs : OppSym g) {fuel : Nat}
    (hf : g.mHalfEdge.length ≤ fuel) (s : Bool) {e : Nat} (hb : g.isBorder e = true) :
    ∀ i, g.isBorder ((g.nextNullD fuel s)^[i] e) = true := by
  intro i
  induction i with
  | zero => exact hb
  | succ n ih =>
    rw [Function.iterate_succ_apply']
    exact (nextNullD_spec hg hs hf s ih).2

/-- As long as the walk has not come back to its start, it has not met any half-edge
twice. -/
theorem iterD_inj {g : HEGraph} (hg : NextCycle g) (hs : OppSym g) {fuel : Nat}
    (hf : g.mHalfEdge.length ≤ fuel) (s : Bool) {e : Nat} (hb : g.isBorder e = true) (n : Nat)
    (hnr : ∀ i, 1 ≤ i → i ≤ n → (g.nextNullD fuel s)^[i] e ≠ e) :
    ∀ i j, i ≤ n → j ≤ n → (g.nextNullD fuel s)^[i] e = (g.nextNullD fuel s)^[j] e → i = j := by
  have key : ∀ i j, i < j → j ≤ n →
      (g.nextNullD fuel s)^[i] e ≠ (g.nextNullD fuel s)^[j] e := by
    intro i j hij hj heq
    have hp := iterate_peel (g.nextNullD fuel s) (fun x => g.isBorder x = true)
      (fun a b ha hb' h => nextNullD_inj hg hs hf s ha hb' h) e n
      (fun i _ => iterD_border hg hs hf s hb i) i j (by omega) hj heq
    exact hnr (j - i) (by omega) (by omega) hp.symm
  intro i j hi hj heq
  rcases Nat.lt_trichotomy i j with h | h | h
  · exact absurd heq (key i j h hj)
  · exact h
  · exact absurd heq.symm (key j i h hi)

theorem getElem?_map_range {α : Type} (f : Nat → α) {i n : Nat} (h : i < n) :
    ((List.range n).map f)[i]? = some (f i) := by
  rw [List.getElem?_map, List.getElem?_range h]
  rfl

/-- The `do ... while` loop of `boundaryLoop` ends: it returns the iterates of `nextNull`
from the start up to the first one whose `nextNull` is the start. -/
theorem boundaryWalk_spec {g : HEGraph} (hg : NextCycle g) (hs : OppSym g) {fuel : Nat}
    (hf : g.mHalfEdge.length ≤ fuel) (s : Bool) {e : Nat} (hb : g.isBorder e = true) :
    ∀ (k m : Nat), g.mHalfEdge.length ≤ m + k →
      (∀ i, 1 ≤ i → i ≤ m → (g.nextNullD fuel s)^[i] e ≠ e) →
      ∃ n, (∀ i, 1 ≤ i → i ≤ n → (g.nextNullD fuel s)^[i] e ≠ e) ∧
        (g.nextNullD fuel s)^[n + 1] e = e ∧
        g.boundaryWalk fuel s e k ((g.nextNullD fuel s)^[m] e)
            ((List.range m).map (fun i => (g.nextNullD fuel s)^[i] e)) =
          some ((List.range (n + 1)).map (fun i => (g.nextNullD fuel s)^[i] e)) := by
  intro k
  induction k with
  | zero =>
    intro m hm hnr
    exfalso
    have := iterate_bound (g.nextNullD fuel s) e m g.mHalfEdge.length
      (fun i _ => (isBorder_iff.1 (iterD_border hg hs hf s hb i)).1)
      (iterD_inj hg hs hf s hb m hnr)
    omega
  | succ k ih =>
    intro m hm hnr
    have hstep := (nextNullD_spec hg hs hf s (iterD_border hg hs hf s hb m)).1
    rw [← Function.iterate_succ_apply' (g.nextNullD fuel s) m e] at hstep
    have hacc : (List.range m).map (fun i => (g.nextNullD fuel s)^[i] e) ++
        [(g.nextNullD fuel s)^[m] e] =
        (List.range (m + 1)).map (fun i => (g.nextNullD fuel s)^[i] e) := by
      rw [List.range_succ, List.map_append]
      rfl
    simp only [boundaryWalk, hstep, Option.bind_eq_bind, Option.some_bind, hacc]
    by_cases c : (g.nextNullD fuel s)^[m + 1] e = e
    · rw [if_pos c]
      exact ⟨m, hnr, c, rfl⟩
    · rw [if_neg c]
      refine ih (m + 1) (by omega) (fun i h1 h2 => ?_)
      by_cases hi : i = m + 1
      · rw [hi]; exact c
      · exact hnr i h1 (by omega)

/-- The boundary walk in a fixed sense: in a graph with the next-3-cycle condition and
symmetric `opp` that has a border half-edge, `boundaryLoop` with either sense `s` returns a
non-empty sequence that
starts with `firstNull()`, in which each entry but the last is followed by its
`nextNull(s)`, the `nextNull(s)` of the last entry is the first entry, every entry is a
border half-edge and no half-edge occurs twice. -/
theorem boundaryLoop_cycle (g : HEGraph) (fuel : Nat) (s : Bool) (hg : NextCycle g)
    (hs : OppSym g) (hb : g.hasBorder = true) (hf : g.mHalfEdge.length ≤ fuel) :
    ∃ l e0, g.boundaryLoop fuel s = some l ∧ g.firstNull = some e0 ∧ l[0]? = some e0 ∧
      (∀ i, i + 1 < l.length →
        ∃ a b, l[i]? = some a ∧ l[i + 1]? = some b ∧ g.nextNull fuel s a = some b) ∧
      (∃ a, l[l.length - 1]? = some a ∧ g.nextNull fuel s a = some e0) ∧
      (∀ x, x ∈ l → g.isBorder x = true) ∧ l.Nodup := by
  obtain ⟨e0, h0, hb0⟩ := firstNull_spec hb
  obtain ⟨n, hnr, hret, hw⟩ := boundaryWalk_spec hg hs hf s hb0 fuel 0 (by omega)
    (fun i h1 h2 => by omega)
  have hinj := iterD_inj hg hs hf s hb0 n hnr
  refine ⟨(List.range (n + 1)).map (fun i => (g.nextNullD fuel s)^[i] e0), e0, ?_, h0, ?_, ?_,
    ?_, ?_, ?_⟩
  · have h0' : firstNullFrom 0 g.mHalfEdge = some e0 := h0
    simp only [boundaryLoop, h0', Option.bind_eq_bind, Option.some_bind]
    simpa using hw
  · exact getElem?_map_range _ (Nat.succ_pos n)
  · intro i hi
    simp only [List.length_map, List.length_range] at hi
    refine ⟨(g.nextNullD fuel s)^[i] e0, (g.nextNullD fuel s)^[i + 1] e0, ?_, ?_, ?_⟩
    · exact getElem?_map_range _ (by omega)
    · exact getElem?_map_range _ hi
    · rw [Function.iterate_succ_apply']
      exact (nextNullD_spec hg hs hf s (iterD_border hg hs hf s hb0 i)).1
  · refine ⟨(g.nextNullD fuel s)^[n] e0, ?_, ?_⟩
    · rw [List.length_map, List.length_range, Nat.add_sub_cancel]
      exact getElem?_map_range _ (Nat.lt_succ_self n)
    · have := (nextNullD_spec hg hs hf s (iterD_border hg hs hf s hb0 n)).1
      rw [← Function.iterate_succ_apply' (g.nextNullD fuel s) n e0, hret] at this
      exact this
  · intro x hx
    obtain ⟨i, -, rfl⟩ := List.mem_map.1 hx
    exact iterD_border hg hs hf s hb0 i
  · refine (List.nodup_range (n + 1)).map_on ?_
    intro i hi j hj hij
    exact hinj i j (by have := List.mem_range.1 hi; omega)
      (by have := List.mem_range.1 hj; omega) hij

/-- Instance of `boundaryLoop_cycle` at the graph of the 3 × 3 grid. -/
theorem boundaryLoop_cycle_witness :
    NextCycle grid33 ∧ OppSym grid33 ∧ grid33.hasBorder = true ∧
      grid33.mHalfEdge.length ≤ 24 ∧
      ∃ l e0, grid33.boundaryLoop 24 true = some l ∧ grid33.firstNull = some e0 ∧
        l[0]? = some e0 ∧
        (∀ i, i + 1 < l.length →
          ∃ a b, l[i]? = some a ∧ l[i + 1]? = some b ∧ grid33.nextNull 24 true a = some b) ∧
        (∃ a, l[l.length - 1]? = some a ∧ grid33.nextNull 24 true a = some e0) ∧
        (∀ x, x ∈ l → grid33.isBorder x = true) ∧ l.Nodup :=
  ⟨grid33_inv.1.1, grid33_inv.2, by decide!, by decide!,
    boundaryLoop_cycle grid33 24 true grid33_inv.1.1 grid33_inv.2 (by decide!) (by decide!)⟩

/-- C10. The method `nullEdgeLoop()` returns no sequence: each round of its loop calls
`he -> nextNull()` without the argument `nextNull(bool clockwise)` requires, so the first
round already has no result, on every graph and with every bound on the rounds.  On the
seeded triangle, which has the border half-edges 0, 1, 2 and the next-3-cycle and
opp-symmetry invariants, the walk from `firstNull()` by `nextNull(true)` is `0, 1, 2`, and
`nullEdgeLoop()` has no result. -/
theorem nullEdgeLoop_no_result :
    (∀ (g : HEGraph) (fuel : Nat), g.nullEdgeLoop fuel = none) ∧
    (seeded = some tri0 ∧ NextCycle tri0 ∧ OppSym tri0 ∧ tri0.hasBorder = true ∧
      tri0.firstNull = some 0 ∧ tri0.boundaryLoop 3 true = some [0, 1, 2] ∧
      tri0.nullEdgeLoop 3 = none) := by
  refine ⟨fun g fuel => ?_, rfl, by decide, by decide, by decide, by decide, by decide, rfl⟩
  unfold nullEdgeLoop
  cases firstNullFrom 0 g.mHalfEdge with
  | none => rfl
  | some it => cases fuel <;> rfl

/-! ## The border is a union of closed cycles -/

/-- C11. In a graph with the next-3-cycle and opp-symmetry invariants, whenever `nextNull`
returns on a border half-edge, the walk in the other sense from the result returns the
half-edge itself (both orders); hence, once the fuel covers the half-edges,
`nextNull(true)` is a bijection of the set of border half-edges and every border
half-edge comes back to itself after finitely many steps. -/
theorem border_cycles (g : HEGraph) (hg : NextCycle g) (hs : OppSym g) :
    (∀ fuel e r, g.isBorder e = true → g.nextNull fuel true e = some r →
        g.nextNull fuel false r = some e) ∧
    (∀ fuel e r, g.isBorder e = true → g.nextNull fuel false e = some r →
        g.nextNull fuel true r = some e) ∧
    (∀ fuel, g.mHalfEdge.length ≤ fuel →
        Set.BijOn (g.nextNullD fuel true) {e | g.isBorder e = true}
          {e | g.isBorder e = true}) ∧
    (∀ fuel, g.mHalfEdge.length ≤ fuel → ∀ e, g.isBorder e = true →
        ∃ k, 0 < k ∧ (g.nextNullD fuel true)^[k] e = e) := by
  refine ⟨fun fuel e r hb h => nextNull_back hg hs hb h,
    fun fuel e r hb h => nextNull_back hg hs hb h, fun fuel hf => ⟨?_, ?_, ?_⟩,
    fun fuel hf e hb => ?_⟩
  · intro e hb
    exact (nextNullD_spec hg hs hf true hb).2
  · intro a ha b hb h
    exact nextNullD_inj hg hs hf true ha hb h
  · intro r hr
    obtain ⟨h1, h2⟩ := nextNullD_spec hg hs hf false hr
    refine ⟨g.nextNullD fuel false r, h2, ?_⟩
    have h3 := nextNull_back hg hs hr h1
    simp only [Bool.not_false] at h3
    show g.nextNullD fuel true (g.nextNullD fuel false r) = r
    unfold nextNullD at h3 ⊢
    rw [h3]
    rfl
  · obtain ⟨n, -, hret, -⟩ := boundaryWalk_spec hg hs hf true hb fuel 0 (by omega)
      (fun i h1 h2 => by omega)
    exact ⟨n + 1, by omega, hret⟩

/-- Instance of `border_cycles` at the graph of the 3 × 3 grid. -/
theorem border_cycles_witness :
    NextCycle grid33 ∧ OppSym grid33 ∧
    (∀ fuel e r, grid33.isBorder e = true → grid33.nextNull fuel true e = some r →
        grid33.nextNull fuel false r = some e) ∧
    (∀ fuel e r, grid33.isBorder e = true → grid33.nextNull fuel false e = some r →
        grid33.nextNull fuel true r = some e) ∧
    (∀ fuel, grid33.mHalfEdge.length ≤ fuel →
        Set.BijOn (grid33.nextNullD fuel true) {e | grid33.isBorder e = true}
          {e | grid33.isBorder e = true}) ∧
    (∀ fuel, grid33.mHalfEdge.length ≤ fuel → ∀ e, grid33.isBorder e = true →
        ∃ k, 0 < k ∧ (grid33.nextNullD fuel true)^[k] e = e) :=
  ⟨grid33_inv.1.1, grid33_inv.2, border_cycles grid33 grid33_inv.1.1 grid33_inv.2⟩

/-! ## The border half-edge `nextNull` returns is adjacent -/

theorem isOpp_true {g : HEGraph} {a b : Nat} (h : g.isOpp a b = some true) :
    ∃ ra rb pb rpb pa rpa, g.he a = some ra ∧ g.he b = some rb ∧ g.prev b = some pb ∧
      g.he pb = some rpb ∧ g.prev a = some pa ∧ g.he pa = some rpa ∧
      ra.node = rpb.node ∧ rpa.node = rb.node := by
  unfold isOpp at h
  simp only [Option.bind_eq_bind, Option.bind_eq_some] at h
  obtain ⟨x, hx, h⟩ := h
  cases x with
  | false => simp at h
  | true =>
    simp only [if_true] at h
    unfold ccwFrom at hx
    unfold cwFrom at h
    simp only [Option.bind_eq_bind, Option.bind_eq_some, Option.pure_def, Option.some.injEq,
      decide_eq_true_eq] at hx h
    obtain ⟨ra, hra, pb, hpb, rpb, hrpb, e1⟩ := hx
    obtain ⟨pa, hpa, rpa, hrpa, rb, hrb, e2⟩ := h
    exact ⟨ra, rb, pb, rpb, pa, rpa, hra, hrb, hpb, hrpb, hpa, hrpa, e1, e2⟩

/-- Along the clockwise loop the node at which `t` starts does not change. -/
theorem walk_next_node {g : HEGraph} (hg : NextCycle g) (ho : OppGeo g) :
    ∀ (fuel t r : Nat), g.walk g.next fuel (g.opp t) t = some r →
      ∀ p rp, g.prev t = some p → g.he p = some rp →
        ∃ q rq, g.prev r = some q ∧ g.he q = some rq ∧ rq.node = rp.node := by
  intro fuel
  induction fuel with
  | zero =>
    intro t r h p rp hp hrp
    cases hot : g.opp t with
    | none =>
      rw [hot, walk_none] at h
      cases h
      exact ⟨p, rp, hp, hrp, rfl⟩
    | some o => rw [hot] at h; cases h
  | succ n ih =>
    intro t r h p rp hp hrp
    cases hot : g.opp t with
    | none =>
      rw [hot, walk_none] at h
      cases h
      exact ⟨p, rp, hp, hrp, rfl⟩
    | some o =>
      rw [hot, walk_succ] at h
      obtain ⟨t', ht', h⟩ := Option.bind_eq_some.1 h
      obtain ⟨rt, hrt, h⟩ := Option.bind_eq_some.1 h
      rw [← opp_of_he hrt] at h
      obtain ⟨ra, rb, pb, rpb, pa, rpa, hra, hrb, hpb, hrpb, hpa, hrpa, e1, e2⟩ :=
        isOpp_true (ho t o hot)
      obtain ⟨q, rq, hq, hrq, e3⟩ := ih t' r h o rb (hg.prev_next ht') hrb
      have e4 : pa = p := Option.some.inj (hpa.symm.trans hp)
      rw [e4] at hrpa
      have e5 : rpa = rp := Option.some.inj (hrpa.symm.trans hrp)
      exact ⟨q, rq, hq, hrq, by rw [e3, ← e2, e5]⟩

/-- Along the counter-clockwise loop the node at which `t` ends does not change. -/
theorem walk_prev_node {g : HEGraph} (ho : OppGeo g) :
    ∀ (fuel t r : Nat), g.walk g.prev fuel (g.opp t) t = some r →
      ∀ rt, g.he t = some rt → ∃ rr, g.he r = some rr ∧ rr.node = rt.node := by
  intro fuel
  induction fuel with
  | zero =>
    intro t r h rt hrt
    cases hot : g.opp t with
    | none =>
      rw [hot, walk_none] at h
      cases h
      exact ⟨rt, hrt, rfl⟩
    | some o => rw [hot] at h; cases h
  | succ n ih =>
    intro t r h rt hrt
    cases hot : g.opp t with
    | none =>
      rw [hot, walk_none] at h
      cases h
      exact ⟨rt, hrt, rfl⟩
    | some o =>
      rw [hot, walk_succ] at h
      obtain ⟨t', ht', h⟩ := Option.bind_eq_some.1 h
      obtain ⟨rt', hrt', h⟩ := Option.bind_eq_some.1 h
      rw [← opp_of_he hrt'] at h
      obtain ⟨ra, rb, pb, rpb, pa, rpa, hra, hrb, hpb, hrpb, hpa, hrpa, e1, e2⟩ :=
        isOpp_true (ho t o hot)
      obtain ⟨rr, hrr, e3⟩ := ih t' r h rt' hrt'
      have e4 : pb = t' := Option.some.inj (hpb.symm.trans ht')
      rw [e4] at hrpb
      have e5 : rpb = rt' := Option.some.inj (hrpb.symm.trans hrt')
      have e6 : ra = rt := Option.some.inj (hra.symm.trans hrt)
      exact ⟨rr, hrr, by rw [e3, ← e5, ← e1, e6]⟩

/-- Remark: the next-3-cycle invariant is used by the clockwise statement below.  On one
face of four border half-edges `nextNull(true)` of the half-edge 0 returns the
half-edge 1, whose `prev()` is the half-edge 3 and points to the node 3, while the
half-edge 0 points to the node 0. -/
theorem quad_nextNull_not_adjacent :
    OppGeo quad0 ∧ quad0.isBorder 0 = true ∧ quad0.nextNull 4 true 0 = some 1 ∧
      quad0.isBorder 1 = true ∧ quad0.prev 1 = some 3 ∧ quad0.node 3 = some 3 ∧
      quad0.node 0 = some 0 ∧ ¬ NextCycle quad0 := by
  decide!

/-- C12. Whatever `nextNull(c)` returns is a border half-edge.  In a graph with the
next-3-cycle invariant where every sealed pair joins the same two nodes in opposite
directions, for a border half-edge `e` the result `r` of `e.nextNull(true)` starts where
`e` ends (`r.prev().node = e.node`) and the result `r` of `e.nextNull(false)` ends where
`e` starts (`r.node = e.prev().node`); the second statement does not use the next-3-cycle
invariant.  Every graph built by the construction calls has the next-3-cycle invariant. -/
theorem nextNull_adjacent (g : HEGraph) :
    (∀ fuel c e r, g.nextNull fuel c e = some r → g.isBorder r = true) ∧
    (NextCycle g → OppGeo g → ∀ fuel e r, g.isBorder e = true →
      g.nextNull fuel true e = some r →
      ∃ p rp re, g.prev r = some p ∧ g.he p = some rp ∧ g.he e = some re ∧
        rp.node = re.node) ∧
    (OppGeo g → ∀ fuel e r, g.isBorder e = true → g.nextNull fuel false e = some r →
      ∃ p rp rr, g.prev e = some p ∧ g.he p = some rp ∧ g.he r = some rr ∧
        rr.node = rp.node) ∧
    (Built g → NextCycle g) := by
  refine ⟨fun fuel c e r h => nextNull_border h, fun hg ho fuel e r _ h => ?_,
    fun ho fuel e r _ h => ?_, fun hb => (built_inv hb).1.1⟩
  · rw [nextNull_eq_walk] at h
    obtain ⟨n, hn, h⟩ := Option.bind_eq_some.1 h
    obtain ⟨rn, hrn, h⟩ := Option.bind_eq_some.1 h
    rw [← opp_of_he hrn] at h
    have hn' : g.next e = some n := hn
    obtain ⟨re, hre⟩ := he_of_lt (next_lt hn')
    obtain ⟨q, rq, hq, hrq, e1⟩ := walk_next_node hg ho fuel n r h e re (hg.prev_next hn') hre
    exact ⟨q, rq, re, hq, hrq, hre, e1⟩
  · rw [nextNull_eq_walk] at h
    obtain ⟨n, hn, h⟩ := Option.bind_eq_some.1 h
    obtain ⟨rn, hrn, h⟩ := Option.bind_eq_some.1 h
    rw [← opp_of_he hrn] at h
    have hn' : g.prev e = some n := hn
    obtain ⟨rr, hrr, e1⟩ := walk_prev_node ho fuel n r h rn hrn
    exact ⟨n, rn, rr, hn', hrn, hrr, e1⟩

/-- Instance of `nextNull_adjacent` at the graph of the 3 × 3 grid. -/
theorem nextNull_adjacent_witness :
    OppGeo grid33 ∧ NextCycle grid33 ∧ grid33.isBorder 0 = true ∧
    grid33.nextNull 24 true 0 = some 14 ∧ grid33.nextNull 24 false 0 = some 2 ∧
    (∃ p rp re, grid33.prev 14 = some p ∧ grid33.he p = some rp ∧ grid33.he 0 = some re ∧
      rp.node = re.node) ∧
    (∃ p rp rr, grid33.prev 0 = some p ∧ grid33.he p = some rp ∧ grid33.he 2 = some rr ∧
      rr.node = rp.node) := by
  have ho : OppGeo grid33 := by decide!
  have hb : grid33.isBorder 0 = true := by decide!
  have h1 : grid33.nextNull 24 true 0 = some 14 := by decide!
  have h2 : grid33.nextNull 24 false 0 = some 2 := by decide!
  obtain ⟨-, a, b, -⟩ := nextNull_adjacent grid33
  exact ⟨ho, grid33_inv.1.1, hb, h1, h2, a grid33_inv.1.1 ho 24 0 14 hb h1,
    b ho 24 0 2 hb h2⟩

/-! ## `triangle` and boundary cycles of three half-edges -/

/-- C13. In a graph with the next-3-cycle and opp-symmetry invariants, `triangle()` returns
on every border half-edge `e` (once the fuel covers the half-edges), and it returns `true`
exactly when three applications of `nextNull(true)` lead from `e` back to `e`.  On the
seeded triangle it is `true` for the three half-edges; after one further
`addAt(v, lastEdge())` it is `false` for every border half-edge. -/
theorem triangle_iff :
    (∀ (g : HEGraph) (fuel e : Nat), NextCycle g → OppSym g → g.mHalfEdge.length ≤ fuel →
      g.isBorder e = true →
      ∃ b, g.triangle fuel e = some b ∧
        (b = true ↔ ((g.nextNull fuel true e).bind (g.nextNull fuel true)).bind
            (g.nextNull fuel true) = some e)) ∧
    (seeded = some tri0 ∧ tri0.triangle 3 0 = some true ∧ tri0.triangle 3 1 = some true ∧
      tri0.triangle 3 2 = some true) ∧
    (tri0.lastEdge = some 2 ∧ ∀ v, ∃ g2, tri0.addAt v 2 = some g2 ∧
      g2.nullEdges = [0, 1, 3, 5] ∧
      ∀ x, g2.isBorder x = true → g2.triangle 6 x = some false) := by
  refine ⟨fun g fuel e hg hs hf hb => ?_, ⟨rfl, by decide, by decide, by decide⟩, rfl,
    fun v => ⟨_, rfl, rfl, fun x hx => ?_⟩⟩
  · obtain ⟨x, hx⟩ := nextNull_total hg hs hf true hb
    obtain ⟨x2, hx2⟩ := nextNull_total hg hs hf true (nextNull_border hx)
    obtain ⟨x3, hx3⟩ := nextNull_total hg hs hf true (nextNull_border hx2)
    obtain ⟨eb, heb⟩ := nextNull_total hg hs hf false hb
    obtain ⟨y, hy⟩ := nextNull_total hg hs hf false (nextNull_border heb)
    have b1 := nextNull_back hg hs (nextNull_border hx) hx2
    have b2 := nextNull_back hg hs (nextNull_border hx2) hx3
    have b3 := nextNull_back hg hs hb heb
    have b4 := nextNull_back hg hs (nextNull_border heb) hy
    simp only [Bool.not_true, Bool.not_false] at b1 b2 b3 b4
    refine ⟨decide (x = y), ?_, ?_⟩
    · simp [triangle, heb, hx, hy]
    · rw [hx, Option.some_bind, hx2, Option.some_bind, hx3, decide_eq_true_eq]
      constructor
      · intro hxy
        rw [hxy, b4] at hx2
        have e1 : eb = x2 := Option.some.inj hx2
        rw [← e1, b3] at hx3
        exact hx3.symm
      · intro h3
        have e1 : x3 = e := Option.some.inj h3
        rw [e1, heb] at b2
        have e2 : eb = x2 := Option.some.inj b2
        rw [← e2, hy] at b1
        exact (Option.some.inj b1).symm
  · have hlt := (isBorder_iff.1 hx).1
    have hlt6 : x < 6 := hlt
    interval_cases x
    · rfl
    · rfl
    · exact absurd hx Bool.false_ne_true
    · rfl
    · exact absurd hx Bool.false_ne_true
    · rfl

/-- Instance of `triangle_iff` at the half-edge 0 of the 3 × 3 grid. -/
theorem triangle_iff_witness :
    NextCycle grid33 ∧ OppSym grid33 ∧ grid33.mHalfEdge.length ≤ 24 ∧
      grid33.isBorder 0 = true ∧
      ∃ b, grid33.triangle 24 0 = some b ∧
        (b = true ↔ ((grid33.nextNull 24 true 0).bind (grid33.nextNull 24 true)).bind
            (grid33.nextNull 24 true) = some 0) :=
  ⟨grid33_inv.1.1, grid33_inv.2, by decide!, by decide!,
    triangle_iff.1 grid33 24 0 grid33_inv.1.1 grid33_inv.2 (by decide!) (by decide!)⟩

/-! ## `valence` and `neighbors` of a boundary node -/

/-- When `closed` runs into a `NULL`, the first loop of the open branch of `valence`
stops with the same fuel. -/
theorem closedLoop_false {g : HEGraph} {edge : Nat} :
    ∀ (fuel e t : Nat), g.closedLoop edge fuel e = some false →
      ∃ r, g.walk g.next fuel (some e) t = some r := by
  intro fuel
  induction fuel with
  | zero => intro e t h; cases h
  | succ n ih =>
    intro e t h
    unfold closedLoop at h
    simp only [Option.bind_eq_bind, Option.bind_eq_some] at h
    obtain ⟨redge, -, a, -, ra, -, h⟩ := h
    split at h
    · cases h
    · simp only [Option.bind_eq_some] at h
      obtain ⟨re, hre, t', ht', rt, hrt, h⟩ := h
      have hn : g.next e = some t' := next_eq_some.2 ⟨re, hre, ht'⟩
      rw [walk_succ, hn, Option.some_bind, hrt, Option.some_bind]
      cases ho : rt.opp with
      | none => exact ⟨t', walk_none g g.next n t'⟩
      | some e1 =>
        rw [ho] at h
        exact ih e1 t' h

theorem valenceOpen_none (g : HEGraph) (fuel : Nat) (tmp : List Nat) :
    g.valenceOpen fuel none tmp = some tmp := by
  cases fuel <;> rfl

theorem valenceOpen_succ {g : HEGraph} {fuel e p : Nat} (tmp : List Nat)
    (hp : g.prev e = some p) (hlt : p < g.mHalfEdge.length) :
    g.valenceOpen (fuel + 1) (some e) tmp = g.valenceOpen fuel (g.opp p) (tmp ++ [e]) := by
  obtain ⟨a, h1, h2⟩ := prev_some hp
  obtain ⟨re, hre, hre'⟩ := next_eq_some.1 h1
  obtain ⟨ra, hra, hra'⟩ := next_eq_some.1 h2
  obtain ⟨rp, hrp⟩ := he_of_lt hlt
  rw [opp_of_he hrp]
  simp [valenceOpen, hre, hre', hra, hra', hrp]

/-- The half-edge `e -> next -> next` follows the loop of `nextNull(false)` while `e`
follows the loop of `valence`. -/
theorem spoke_conj {g : HEGraph} (hg : NextCycle g) (hs : OppSym g) {e u : Nat}
    (he : e < g.mHalfEdge.length) (hu : g.prev e = some u) :
    ∀ i, (∀ j, j < i → g.opp ((g.roundOf g.prev)^[j] u) ≠ none) →
      (g.spokeOf)^[i] e < g.mHalfEdge.length ∧
        g.prev ((g.spokeOf)^[i] e) = some ((g.roundOf g.prev)^[i] u) := by
  intro i
  induction i with
  | zero => intro _; exact ⟨he, hu⟩
  | succ n ih =>
    intro h
    obtain ⟨-, h2⟩ := ih (fun j hj => h j (by omega))
    obtain ⟨o, ho⟩ := Option.ne_none_iff_exists'.1 (h n (by omega))
    have hv : g.spokeOf ((g.spokeOf)^[n] e) = o := by
      show ((g.prev ((g.spokeOf)^[n] e)).bind g.opp).getD 0 = o
      rw [h2, Option.some_bind, ho]
      rfl
    rw [Function.iterate_succ_apply' g.spokeOf n e, hv,
      Function.iterate_succ_apply' (g.roundOf g.prev) n u]
    exact ⟨hs.valid ho, (round_spec hg.move_prev hs ho).2⟩

/-- The rounds of a loop of `nextNull` started next to a border half-edge visit distinct
half-edges, so there are fewer rounds than half-edges. -/
theorem stop_lt {g : HEGraph} {m m' : Nat → Option Nat} (hm : Move g m m') (hs : OppSym g)
    {e t0 : Nat} (ho : g.opp e = none) (h0 : m e = some t0)
    (ht0 : t0 < g.mHalfEdge.length) {k : Nat}
    (hne : ∀ i, i < k → g.opp ((g.roundOf m)^[i] t0) ≠ none) : k < g.mHalfEdge.length := by
  have hval : ∀ i, i ≤ k → (g.roundOf m)^[i] t0 < g.mHalfEdge.length :=
    fun i hi => iter_valid hm hs ht0 i (fun j hj => hne j (by omega))
  have key : ∀ i j, i < j → j ≤ k →
      (g.roundOf m)^[i] t0 ≠ (g.roundOf m)^[j] t0 := by
    intro i j hij hj heq
    have hp := iterate_peel (g.roundOf m) (fun x => ∃ o, g.opp x = some o)
      (fun a b ha hb h => round_inj hm hs ha hb h) t0 k
      (fun i hi => Option.ne_none_iff_exists'.1 (hne i hi)) i j (by omega) hj heq
    obtain ⟨d, hd⟩ : ∃ d, j - i = d + 1 := ⟨j - i - 1, by omega⟩
    rw [hd, Function.iterate_succ_apply'] at hp
    obtain ⟨o, hoo⟩ := Option.ne_none_iff_exists'.1 (hne d (by omega))
    have h1 := (round_spec hm hs hoo).2
    rw [← hp] at h1
    have := hm.move_inj h1 h0
    subst this
    have := (hs _ _ hoo).1
    rw [ho] at this
    cases this
  have hinj : ∀ i j, i ≤ k → j ≤ k →
      (g.roundOf m)^[i] t0 = (g.roundOf m)^[j] t0 → i = j := by
    intro i j hi hj heq
    rcases Nat.lt_trichotomy i j with h | h | h
    · exact absurd heq (key i j h hj)
    · exact h
    · exact absurd heq.symm (key j i h hi)
  exact iterate_bound (g.roundOf m) t0 k g.mHalfEdge.length hval hinj

/-- The second loop of the open branch of `valence` returns the iterates of
`e ↦ e -> next -> next -> opp` up to the first one whose successor is `NULL`. -/
theorem valenceOpen_iter {g : HEGraph} (hg : NextCycle g) (hs : OppSym g) :
    ∀ (k fuel e : Nat) (tmp : List Nat), e < g.mHalfEdge.length →
      (∀ i, i < k → (g.prev ((g.spokeOf)^[i] e)).bind g.opp ≠ none) →
      (g.prev ((g.spokeOf)^[k] e)).bind g.opp = none → k < fuel →
      g.valenceOpen fuel (some e) tmp =
        some (tmp ++ (List.range (k + 1)).map (fun i => (g.spokeOf)^[i] e)) := by
  intro k
  induction k with
  | zero =>
    intro fuel e tmp he _ hstop hk
    obtain ⟨f, rfl⟩ : ∃ f, fuel = f + 1 := ⟨fuel - 1, by omega⟩
    obtain ⟨p, hp, hpe, -⟩ := hg.prev_total he
    rw [valenceOpen_succ tmp hpe hp]
    have : g.opp p = none := by
      have h := hstop
      rw [Function.iterate_zero_apply, hpe, Option.some_bind] at h
      exact h
    rw [this, valenceOpen_none]
    rfl
  | succ n ih =>
    intro fuel e tmp he hne hstop hk
    obtain ⟨f, rfl⟩ : ∃ f, fuel = f + 1 := ⟨fuel - 1, by omega⟩
    obtain ⟨p, hp, hpe, -⟩ := hg.prev_total he
    rw [valenceOpen_succ tmp hpe hp]
    have h0 := hne 0 (by omega)
    rw [Function.iterate_zero_apply, hpe, Option.some_bind] at h0
    obtain ⟨o, ho⟩ := Option.ne_none_iff_exists'.1 h0
    have hv : g.spokeOf e = o := by
      show ((g.prev e).bind g.opp).getD 0 = o
      rw [hpe, Option.some_bind, ho]
      rfl
    have hit : ∀ i, (g.spokeOf)^[i] o = (g.spokeOf)^[i + 1] e := by
      intro i
      rw [Function.iterate_succ_apply, hv]
    rw [ho, ih f o (tmp ++ [e]) (hs.valid ho)
      (fun i hi => by rw [hit]; exact hne (i + 1) (by omega))
      (by rw [hit]; exact hstop) (by omega)]
    congr 1
    rw [List.range_succ_eq_map (n + 1), List.map_cons, List.map_map, List.append_assoc]
    congr 1
    simp only [List.singleton_append, Function.iterate_zero_apply, List.cons.injEq, true_and]
    apply List.map_congr_left
    intro i _
    exact hit i

theorem mapM_node {g : HEGraph} :
    ∀ (l : List Nat), (∀ x, x ∈ l → x < g.mHalfEdge.length) →
      l.mapM (fun i => (g.he i).map (fun r => r.node)) = some (l.map g.node) := by
  intro l
  induction l with
  | nil => intro _; rfl
  | cons a t ih =>
    intro h
    obtain ⟨r, hr⟩ := he_of_lt (h a (List.mem_cons_self a t))
    rw [List.mapM_cons, ih (fun x hx => h x (List.mem_cons_of_mem a hx)), hr]
    simp [node, hr]

/-- C14. In a graph with the next-3-cycle and opp-symmetry invariants, for a node `N`
whose `closed()` is `false` (so it stores an edge), `valence()` returns a non-empty list `v`
whose first entry is a border half-edge, with `v[i+1] = v[i].next.next.opp`, whose last
entry `el` has `el.next.next` border, and `neighbors()` returns the nodes of the entries
of `v` followed by the one extra entry `el.next.node`, so it is one longer than `v`.
Each node of the seeded triangle has a valence of length 1 and 2 neighbors. -/
theorem valence_open :
    (∀ (g : HEGraph) (fuel N : Nat), NextCycle g → OppSym g → g.mHalfEdge.length ≤ fuel →
      g.closed fuel N = some false →
      ∃ v e0 el p n nb, g.nodeEdge N ≠ none ∧ g.valence fuel N = some v ∧
        v[0]? = some e0 ∧ g.isBorder e0 = true ∧
        (∀ i a b, v[i]? = some a → v[i + 1]? = some b → (g.prev a).bind g.opp = some b) ∧
        v.getLast? = some el ∧ g.prev el = some p ∧ g.isBorder p = true ∧
        g.next el = some n ∧ g.neighbors fuel N = some nb ∧
        nb = v.map g.node ++ [g.node n] ∧ nb.length = v.length + 1) ∧
    (seeded = some tri0 ∧ ∀ N, N < 3 → tri0.closed 3 N = some false ∧
      (tri0.valence 3 N).map List.length = some 1 ∧
      (tri0.neighbors 3 N).map List.length = some 2) := by
  refine ⟨fun g fuel N hg hs hf hc => ?_, rfl, by decide!⟩
  have hc0 := hc
  unfold closed at hc
  simp only [Option.bind_eq_bind, Option.bind_eq_some] at hc
  obtain ⟨rs, hrs, edge, hedge, redge, hredge, hc⟩ := hc
  have hel := he_lt hredge
  -- the first loop of the open branch stops at a border half-edge
  obtain ⟨v0, hv0⟩ : ∃ v0, g.nextNullCW fuel redge.opp edge = some v0 := by
    rw [nextNullCW_eq_walk]
    cases ho : redge.opp with
    | none => exact ⟨edge, walk_none g g.next fuel edge⟩
    | some e0 =>
      rw [ho] at hc
      exact closedLoop_false fuel e0 edge hc
  have hb0 := nextNullCW_border fuel redge.opp edge v0 hv0 hel (opp_of_he hredge)
  obtain ⟨hlt0, ho0⟩ := isBorder_iff.1 hb0
  obtain ⟨u0, hu0, hp0, -⟩ := hg.prev_total hlt0
  obtain ⟨k, -, hstop, hne⟩ := exists_stop hg.move_prev hs ho0 hp0 hu0
  have hk := stop_lt hg.move_prev hs ho0 hp0 hu0 hne
  have hconj : ∀ i, i ≤ k → (g.spokeOf)^[i] v0 < g.mHalfEdge.length ∧
      g.prev ((g.spokeOf)^[i] v0) = some ((g.roundOf g.prev)^[i] u0) :=
    fun i hi => spoke_conj hg hs hlt0 hp0 i (fun j hj => hne j (by omega))
  have hval := valenceOpen_iter hg hs k fuel v0 [] hlt0
    (fun i hi => by rw [(hconj i (by omega)).2, Option.some_bind]; exact hne i hi)
    (by rw [(hconj k (le_refl k)).2, Option.some_bind]; exact hstop) (by omega)
  rw [List.nil_append] at hval
  have hv : g.valence fuel N =
      some ((List.range (k + 1)).map (fun i => (g.spokeOf)^[i] v0)) := by
    unfold valence
    simp [hrs, hc0, hedge, hredge, hv0, hval]
  have hlen : ((List.range (k + 1)).map (fun i => (g.spokeOf)^[i] v0)).length = k + 1 := by
    rw [List.length_map, List.length_range]
  have hlast : ((List.range (k + 1)).map (fun i => (g.spokeOf)^[i] v0)).getLast? =
      some ((g.spokeOf)^[k] v0) := by
    rw [List.getLast?_eq_getElem?, hlen]
    exact getElem?_map_range _ (by omega)
  obtain ⟨hlk, hpk⟩ := hconj k (le_refl k)
  obtain ⟨n, b, f, hn, -⟩ := hg _ hlk
  have hnlt := hg.next_valid hn
  obtain ⟨rk, hrk⟩ := he_of_lt hlk
  obtain ⟨rk', hrk', hrkn⟩ := next_eq_some.1 hn
  obtain ⟨rn, hrn⟩ := he_of_lt hnlt
  have hmem : ∀ x, x ∈ (List.range (k + 1)).map (fun i => (g.spokeOf)^[i] v0) →
      x < g.mHalfEdge.length := by
    intro x hx
    obtain ⟨i, hi, rfl⟩ := List.mem_map.1 hx
    exact (hconj i (by have := List.mem_range.1 hi; omega)).1
  have hnb : g.neighbors fuel N =
      some (((List.range (k + 1)).map (fun i => (g.spokeOf)^[i] v0)).map g.node ++
        [g.node n]) := by
    unfold neighbors
    simp only [Option.bind_eq_bind, hv, Option.some_bind, mapM_node _ hmem, hc0, hlast, hrk',
      hrkn, hrn]
    simp [node, hrn]
  refine ⟨_, v0, _, _, n, _, ?_, hv, getElem?_map_range _ (by omega), hb0, ?_, hlast, hpk,
    isBorder_iff.2 ⟨iter_valid hg.move_prev hs hu0 k hne, hstop⟩, hn, hnb, rfl, ?_⟩
  · simp [nodeEdge, hrs, hedge]
  · intro i a b ha hb
    have hi : i + 1 < k + 1 := by
      have := (List.getElem?_eq_some.1 hb).1
      rw [hlen] at this
      exact this
    rw [getElem?_map_range _ (by omega)] at ha
    rw [getElem?_map_range _ hi] at hb
    have ea := Option.some.inj ha
    have eb := Option.some.inj hb
    obtain ⟨o, ho⟩ := Option.ne_none_iff_exists'.1 (hne i (by omega))
    rw [← ea, (hconj i (by omega)).2, Option.some_bind, ho, ← eb,
      Function.iterate_succ_apply' g.spokeOf i v0]
    show some o = some (((g.prev ((g.spokeOf)^[i] v0)).bind g.opp).getD 0)
    rw [(hconj i (by omega)).2, Option.some_bind, ho]
    rfl
  · simp [hlen]

/-- Instance of `valence_open` at the node 4 of the 3 × 3 grid. -/
theorem valence_open_witness :
    NextCycle grid33 ∧ OppSym grid33 ∧ grid33.mHalfEdge.length ≤ 24 ∧
      grid33.closed 24 4 = some false ∧
      ∃ v e0 el p n nb, grid33.nodeEdge 4 ≠ none ∧ grid33.valence 24 4 = some v ∧
        v[0]? = some e0 ∧ grid33.isBorder e0 = true ∧
        (∀ i a b, v[i]? = some a → v[i + 1]? = some b →
          (grid33.prev a).bind grid33.opp = some b) ∧
        v.getLast? = some el ∧ grid33.prev el = some p ∧ grid33.isBorder p = true ∧
        grid33.next el = some n ∧ grid33.neighbors 24 4 = some nb ∧
        nb = v.map grid33.node ++ [grid33.node n] ∧ nb.length = v.length + 1 :=
  ⟨grid33_inv.1.1, grid33_inv.2, by decide!, by decide!,
    valence_open.1 grid33 24 4 grid33_inv.1.1 grid33_inv.2 (by decide!) (by decide!)⟩

/-! ## `add` dispatches on the number of nodes -/

/-- C15. The method `add(v)` has the effect the specification states: it is `addNode(v)`
on a graph with fewer than 2 nodes, `addNode(v)` followed by `seedNodes()` on a graph with
exactly 2 nodes, and `addAt(v, lastEdge())` on a graph with 3 or more nodes and a last
half-edge. -/
theorem add_dispatch (v : Nat) (g : HEGraph) :
    g.add v = addSpec v g ∧
    (g.mNode.length < 2 → g.add v = some (g.addNode v)) ∧
    (g.mNode.length = 2 → g.add v = (g.addNode v).seedNodes) ∧
    (3 ≤ g.mNode.length → ∀ e, g.lastEdge = some e → g.add v = g.addAt v e) := by
  have c0 : g.mNode.length < 2 → g.add v = some (g.addNode v) := by
    intro c0
    have t1 : g.mNode.length < 3 := by omega
    have t2 : ¬ g.mNode.length = 2 := by omega
    have t3 : ¬ g.mNode.length ≥ 3 := by omega
    simp only [add, if_pos t1, if_neg t2, if_neg t3, Option.bind_eq_bind, Option.some_bind]
  have c1 : g.mNode.length = 2 → g.add v = (g.addNode v).seedNodes := by
    intro c1
    have t1 : g.mNode.length < 3 := by omega
    have t3 : ¬ g.mNode.length ≥ 3 := by omega
    simp only [add, if_pos t1, if_pos c1, if_neg t3, Option.bind_eq_bind]
    cases (g.addNode v).seedNodes <;> rfl
  have c2 : 3 ≤ g.mNode.length → g.add v = g.lastEdge.bind (fun e => g.addAt v e) := by
    intro c2
    have t1 : ¬ g.mNode.length < 3 := by omega
    have t2 : ¬ g.mNode.length = 2 := by omega
    have t3 : g.mNode.length ≥ 3 := c2
    simp only [add, if_neg t1, if_neg t2, if_pos t3, Option.bind_eq_bind, Option.some_bind]
  refine ⟨?_, c0, c1, fun h e he => by rw [c2 h, he, Option.some_bind]⟩
  unfold addSpec
  by_cases h0 : g.mNode.length < 2
  · rw [if_pos h0, c0 h0]
  · by_cases h1 : g.mNode.length = 2
    · rw [if_neg h0, if_pos h1, c1 h1]
    · rw [if_neg h0, if_neg h1, c2 (by omega)]

/-- Instance of `add_dispatch` at the seeded triangle, which has 3 nodes and the last
half-edge 2. -/
theorem add_dispatch_witness :
    3 ≤ tri0.mNode.length ∧ tri0.lastEdge = some 2 ∧ tri0.add 13 = tri0.addAt 13 2 :=
  ⟨by decide, rfl, (add_dispatch 13 tri0).2.2.2 (by decide) 2 rfl⟩

/-! ## `insert` splits one face into two -/

/-- C16. For a half-edge `e` of a triangular face `F` with cycle `e`, `e1`, `e2` (vertices
`A = e2.node`, `B = e.node`, `C = e1.node`), `insert(v,e)` returns with one more node,
three more half-edges and one more face; `e` points to the new node `n`; read from `e`
the face `F` is `e → eb → e2` with nodes `(n, C, A)`; the new face is `lastFace()`, its
cycle `ea → e1 → ec` has nodes `(B, C, n)`; `eb` and `ec` are new, sealed to each other and
join `n` and `C`; `e1` and `e2` keep their node and opp links. -/
theorem insert_splits (g : HEGraph) (pa e e1 e2 F : Nat) (h1 : g.next e = some e1)
    (h2 : g.next e1 = some e2) (h3 : g.next e2 = some e) (hne : e1 ≠ e)
    (hF0 : g.face e = some F) (hF2 : g.face e2 = some F)
    (hFlt : F < g.mFace.length) :
    ∃ g', g.insert pa e = some g' ∧
      (g'.mNode.length = g.mNode.length + 1 ∧
        g'.mHalfEdge.length = g.mHalfEdge.length + 3 ∧
        g'.mFace.length = g.mFace.length + 1) ∧
      (g'.node e = some g.mNode.length ∧
        g'.mNode[g.mNode.length]? =
          some { Node.new with ptr := some pa, edge := some (g.mHalfEdge.length + 2) }) ∧
      (g'.faceEdge F = some e ∧ g'.next e = some g.mHalfEdge.length ∧
        g'.next g.mHalfEdge.length = some e2 ∧ g'.next e2 = some e ∧
        g'.face e = some F ∧ g'.face g.mHalfEdge.length = some F ∧ g'.face e2 = some F ∧
        g'.node g.mHalfEdge.length = g.node e1 ∧ g'.node e2 = g.node e2) ∧
      (g'.lastFace = some g.mFace.length ∧
        g'.faceEdge g.mFace.length = some (g.mHalfEdge.length + 2) ∧
        g'.next (g.mHalfEdge.length + 2) = some e1 ∧
        g'.next e1 = some (g.mHalfEdge.length + 1) ∧
        g'.next (g.mHalfEdge.length + 1) = some (g.mHalfEdge.length + 2) ∧
        g'.face (g.mHalfEdge.length + 2) = some g.mFace.length ∧
        g'.face e1 = some g.mFace.length ∧
        g'.face (g.mHalfEdge.length + 1) = some g.mFace.length ∧
        g'.node (g.mHalfEdge.length + 2) = g.node e ∧ g'.node e1 = g.node e1 ∧
        g'.node (g.mHalfEdge.length + 1) = some g.mNode.length) ∧
      (g'.opp g.mHalfEdge.length = some (g.mHalfEdge.length + 1) ∧
        g'.opp (g.mHalfEdge.length + 1) = some g.mHalfEdge.length) ∧
      (g'.node e1 = g.node e1 ∧ g'.opp e1 = g.opp e1 ∧ g'.node e2 = g.node e2 ∧
        g'.opp e2 = g.opp e2) := by
  obtain ⟨re, h0, hre⟩ := next_eq_some.1 h1
  obtain ⟨r1, hr1, hr1n⟩ := next_eq_some.1 h2
  obtain ⟨re', h0', f0⟩ := face_eq_some.1 hF0
  have : re' = re := Option.some.inj (h0'.symm.trans h0)
  rw [this] at f0
  obtain ⟨rF, hrF⟩ : ∃ rF, g.mFace[F]? = some rF := ⟨_, List.getElem?_eq_getElem hFlt⟩
  have le := he_lt h0
  have l1 := he_lt hr1
  have l2 := next_lt h3
  have hne3 : e2 ≠ e := fun hh => hne (by
    rw [hh, h1] at h3
    exact Option.some.inj h3)
  have hne2 : e2 ≠ e1 := fun hh => hne3 (by
    rw [hh, h2] at h3
    exact Option.some.inj h3)
  obtain ⟨g', hins⟩ : ∃ g', g.insert pa e = some g' :=
    ⟨_, @insert_eq g pa e e1 F re r1 rF h0 hre hr1 hne f0 hrF⟩
  obtain ⟨-, hlen, hfc, hnd⟩ := insert_he h0 hre hr1 hne f0 hrF hins
  obtain ⟨t1, t2, t3, t4⟩ := insert_tables h0 hre hr1 hne f0 hrF hins
  have hne' : e ≠ e1 := Ne.symm hne
  have a0 : g.mHalfEdge.length ≠ e := by omega
  have a1 : g.mHalfEdge.length ≠ e1 := by omega
  have a2 : g.mHalfEdge.length + 1 ≠ e := by omega
  have a3 : g.mHalfEdge.length + 1 ≠ e1 := by omega
  have a4 : g.mHalfEdge.length + 2 ≠ e := by omega
  have a5 : g.mHalfEdge.length + 2 ≠ e1 := by omega
  have nodeE : g.node e = re.node := by simp [node, h0]
  have node1 : g.node e1 = r1.node := by simp [node, hr1]
  refine ⟨g', hins, ⟨?_, hlen, ?_⟩, ⟨?_, ?_⟩, ⟨?_, ?_, ?_, ?_, ?_, ?_, ?_, ?_, ?_⟩,
    ⟨?_, ?_, ?_, ?_, ?_, ?_, ?_, ?_, ?_, ?_, ?_⟩, ⟨?_, ?_⟩, ?_, ?_, ?_, ?_⟩
  all_goals first
    | (rw [t1]; simp [hne, hne', hne2, hne3, hr1n, h3, le, l1, l2, a0, a1, a2, a3, a4, a5]; done)
    | (rw [t2]; simp [hne, hne', hne2, hne3, hF2, le, l1, l2, a0, a1, a2, a3, a4, a5]; done)
    | (rw [t3]; simp [hne, hne', hne2, hne3, nodeE, node1, le, l1, l2, a0, a2, a4]; done)
    | (rw [t4]; simp [hne, hne', hne2, hne3, le, l1, l2]; done)
    | (rw [hnd]; simp [Node.new]; done)
    | (unfold faceEdge; rw [hfc, List.getElem?_set]; simp [hFlt, Nat.lt_succ_of_lt hFlt]; done)
    | (unfold faceEdge; rw [hfc, List.getElem?_set]; simp [Nat.ne_of_lt hFlt]; done)
    | (simp [lastFace, hfc]; done)

/-- Instance of `insert_splits` at the half-edge 0 of the seeded triangle. -/
theorem insert_splits_witness :
    tri0.next 0 = some 1 ∧ tri0.next 1 = some 2 ∧ tri0.next 2 = some 0 ∧
    tri0.face 0 = some 0 ∧ 0 < tri0.mFace.length ∧
    ∃ g', tri0.insert 13 0 = some g' ∧
      (g'.mNode.length = tri0.mNode.length + 1 ∧
        g'.mHalfEdge.length = tri0.mHalfEdge.length + 3 ∧
        g'.mFace.length = tri0.mFace.length + 1) ∧
      (g'.node 0 = some tri0.mNode.length ∧
        g'.mNode[tri0.mNode.length]? =
          some { Node.new with ptr := some 13, edge := some (tri0.mHalfEdge.length + 2) }) ∧
      (g'.faceEdge 0 = some 0 ∧ g'.next 0 = some tri0.mHalfEdge.length ∧
        g'.next tri0.mHalfEdge.length = some 2 ∧ g'.next 2 = some 0 ∧
        g'.face 0 = some 0 ∧ g'.face tri0.mHalfEdge.length = some 0 ∧ g'.face 2 = some 0 ∧
        g'.node tri0.mHalfEdge.length = tri0.node 1 ∧ g'.node 2 = tri0.node 2) ∧
      (g'.lastFace = some tri0.mFace.length ∧
        g'.faceEdge tri0.mFace.length = some (tri0.mHalfEdge.length + 2) ∧
        g'.next (tri0.mHalfEdge.length + 2) = some 1 ∧
        g'.next 1 = some (tri0.mHalfEdge.length + 1) ∧
        g'.next (tri0.mHalfEdge.length + 1) = some (tri0.mHalfEdge.length + 2) ∧
        g'.face (tri0.mHalfEdge.length + 2) = some tri0.mFace.length ∧
        g'.face 1 = some tri0.mFace.length ∧
        g'.face (tri0.mHalfEdge.length + 1) = some tri0.mFace.length ∧
        g'.node (tri0.mHalfEdge.length + 2) = tri0.node 0 ∧ g'.node 1 = tri0.node 1 ∧
        g'.node (tri0.mHalfEdge.length + 1) = some tri0.mNode.length) ∧
      (g'.opp tri0.mHalfEdge.length = some (tri0.mHalfEdge.length + 1) ∧
        g'.opp (tri0.mHalfEdge.length + 1) = some tri0.mHalfEdge.length) ∧
      (g'.node 1 = tri0.node 1 ∧ g'.opp 1 = tri0.opp 1 ∧ g'.node 2 = tri0.node 2 ∧
        g'.opp 2 = tri0.opp 2) :=
  ⟨rfl, rfl, rfl, rfl, by decide,
    insert_splits tri0 13 0 1 2 0 rfl rfl rfl (by decide) rfl rfl (by decide)⟩

/-! ## The two-argument `close` overloads -/

theorem prev_new {g g' : HEGraph} (x : TriExt g g') :
    g'.prev (g.mHalfEdge.length + 2) = some (g.mHalfEdge.length + 1) ∧
      g'.prev (g.mHalfEdge.length + 1) = some g.mHalfEdge.length ∧
      g'.prev g.mHalfEdge.length = some (g.mHalfEdge.length + 2) := by
  unfold prev
  rw [x.next2, x.next1, x.next0]
  exact ⟨x.next0, x.next2, x.next1⟩

theorem close2_border {g : HEGraph} {ha hb pa pb : Nat} {rpa rpb : HalfEdge} (hne : ha ≠ hb)
    (hba : g.isBorder ha = true) (hbb : g.isBorder hb = true) (hpa : g.prev ha = some pa)
    (hrpa : g.he pa = some rpa) (hpb : g.prev hb = some pb) (hrpb : g.he pb = some rpb) :
    ∃ g', g.close2 ha hb = some g' ∧ TriExt g g' ∧ g'.mNode = g.mNode ∧
      g'.node g.mHalfEdge.length = g.node pb ∧
      g'.node (g.mHalfEdge.length + 1) = g.node pa ∧
      g'.node (g.mHalfEdge.length + 2) = g.node hb ∧
      g'.nullEdges.length + 1 = g.nullEdges.length := by
  obtain ⟨hlta, hoa⟩ := isBorder_iff.1 hba
  obtain ⟨hltb, hob⟩ := isBorder_iff.1 hbb
  obtain ⟨ra, hra⟩ := he_of_lt hlta
  obtain ⟨rb, hrb⟩ := he_of_lt hltb
  have hroa : ra.opp = none := by simpa [opp, hra] using hoa
  have hrob : rb.opp = none := by simpa [opp, hrb] using hob
  have h6 : (g.mHalfEdge.set ha { ra with opp := some (g.mHalfEdge.length + 1) })[hb]? =
      some rb := by
    rw [List.getElem?_set_ne hne]
    exact hrb
  have hex : g.close2 ha hb = some
      { mHalfEdge := (g.mHalfEdge.set ha { ra with opp := some (g.mHalfEdge.length + 1) }).set hb
            { rb with opp := some g.mHalfEdge.length } ++
          [{ HalfEdge.new with next := some (g.mHalfEdge.length + 1),
                               face := some g.mFace.length, node := rpb.node, opp := some hb },
           { HalfEdge.new with next := some (g.mHalfEdge.length + 2),
                               face := some g.mFace.length, node := rpa.node, opp := some ha },
           { HalfEdge.new with next := some g.mHalfEdge.length,
                               face := some g.mFace.length, node := rb.node }]
        mFace := g.mFace ++ [{ edge := some g.mHalfEdge.length }]
        mNode := g.mNode } := by
    simp only [close2, hra, hrb, hpa, hpb, hrpa, hrpb, Option.bind_eq_bind, Option.some_bind, h6]
    rfl
  refine ⟨_, hex, close2_triExt hex, rfl, ?_, ?_, ?_, ?_⟩
  · simp only [node, he]
    rw [node_app3 _ _ _ _ g.mHalfEdge.length _ (by simp), if_neg (by omega), if_pos rfl]
    simp [he, hrpb] at hrpb ⊢
    simp [hrpb]
  · simp only [node, he]
    rw [node_app3 _ _ _ _ g.mHalfEdge.length _ (by simp), if_neg (by omega), if_neg (by omega),
      if_pos rfl]
    simp [he] at hrpa ⊢
    simp [hrpa]
  · simp only [node, he]
    rw [node_app3 _ _ _ _ g.mHalfEdge.length _ (by simp), if_neg (by omega), if_neg (by omega),
      if_neg (by omega), if_pos rfl]
    simp [he] at hrb ⊢
    simp [hrb]
  · rw [nullEdges_length, nullEdges_length]
    have c1 := @countP_set_border g.mHalfEdge ha ra hra hroa (g.mHalfEdge.length + 1)
    have c2 := @countP_set_border _ hb rb h6 hrob g.mHalfEdge.length
    simp only [List.countP_append]
    simp only [List.countP_cons, List.countP_nil, HalfEdge.new, Option.isNone_none,
      Option.isNone_some, if_true, Bool.false_eq_true, if_false]
    omega

theorem closeN_border {g : HEGraph} {e n p : Nat} {rp : HalfEdge}
    (hb : g.isBorder e = true) (hp : g.prev e = some p) (hrp : g.he p = some rp)
    (hn : n < g.mNode.length) :
    ∃ g', g.closeN e n = some g' ∧ TriExt g g' ∧ g'.mNode = g.mNode ∧
      g'.node g.mHalfEdge.length = g.node e ∧
      g'.node (g.mHalfEdge.length + 1) = g.node p ∧
      g'.node (g.mHalfEdge.length + 2) = some n ∧
      g'.nullEdges.length = g.nullEdges.length + 1 := by
  obtain ⟨hlt, ho⟩ := isBorder_iff.1 hb
  obtain ⟨re, hre⟩ := he_of_lt hlt
  have hro : re.opp = none := by simpa [opp, hre] using ho
  have h3 := List.getElem?_eq_getElem hn
  have hex : g.closeN e n = some
      { mHalfEdge := g.mHalfEdge.set e { re with opp := some (g.mHalfEdge.length + 1) } ++
          [{ HalfEdge.new with next := some (g.mHalfEdge.length + 1),
                               face := some g.mFace.length, node := re.node },
           { HalfEdge.new with next := some (g.mHalfEdge.length + 2),
                               face := some g.mFace.length, node := rp.node, opp := some e },
           { HalfEdge.new with next := some g.mHalfEdge.length,
                               face := some g.mFace.length, node := some n }]
        mFace := g.mFace ++ [{ edge := some g.mHalfEdge.length }]
        mNode := g.mNode } := by
    simp only [closeN, hre, hp, hrp, h3, Option.bind_eq_bind, Option.some_bind]
    rfl
  refine ⟨_, hex, closeN_triExt hex, rfl, ?_, ?_, ?_, ?_⟩
  · simp only [node, he]
    rw [node_app3 _ _ _ _ g.mHalfEdge.length _ (by simp), if_neg (by omega), if_pos rfl]
    simp [he] at hre ⊢
    simp [hre]
  · simp only [node, he]
    rw [node_app3 _ _ _ _ g.mHalfEdge.length _ (by simp), if_neg (by omega), if_neg (by omega),
      if_pos rfl]
    simp [he] at hrp ⊢
    simp [hrp]
  · simp only [node, he]
    rw [node_app3 _ _ _ _ g.mHalfEdge.length _ (by simp), if_neg (by omega), if_neg (by omega),
      if_neg (by omega), if_pos rfl]
  · rw [nullEdges_length, nullEdges_length]
    have c1 := @countP_set_border g.mHalfEdge e re hre hro (g.mHalfEdge.length + 1)
    simp only [List.countP_append]
    simp only [List.countP_cons, List.countP_nil, HalfEdge.new, Option.isNone_none,
      Option.isNone_some, if_true, Bool.false_eq_true, if_false]
    omega

/-- C17. Each two-argument `close` overload returns with one more face, three more
half-edges (`ea`, `eb`, `ec`, a cycle of the new face) and the same nodes.  After
`close(ha,hb)` on distinct border half-edges, `ha` is sealed to `eb` and `hb` to `ea`, both
are non-border, `ec` is the only new border half-edge, it runs from `ha.prev().node` to
`hb.node`, and the border count has dropped by 1.  After `close(e,n)` on a border
half-edge, `e` is sealed to `eb`, the new face has the vertices
`(e.node, e.prev().node, n)`, `ea` and `ec` are the new border half-edges, and the border
count has risen by 1. -/
theorem close_two_args (g : HEGraph) :
    (∀ ha hb pa pb, ha ≠ hb → g.isBorder ha = true → g.isBorder hb = true →
      g.prev ha = some pa → pa < g.mHalfEdge.length → g.prev hb = some pb →
      pb < g.mHalfEdge.length →
      ∃ g', g.close2 ha hb = some g' ∧
        (g'.mFace.length = g.mFace.length + 1 ∧
          g'.mHalfEdge.length = g.mHalfEdge.length + 3 ∧ g'.mNode = g.mNode) ∧
        (g'.opp ha = some (g.mHalfEdge.length + 1) ∧
          g'.opp (g.mHalfEdge.length + 1) = some ha ∧
          g'.opp hb = some g.mHalfEdge.length ∧ g'.opp g.mHalfEdge.length = some hb) ∧
        (g'.isBorder ha = false ∧ g'.isBorder hb = false ∧
          g'.isBorder g.mHalfEdge.length = false ∧
          g'.isBorder (g.mHalfEdge.length + 1) = false ∧
          g'.isBorder (g.mHalfEdge.length + 2) = true) ∧
        (g'.prev (g.mHalfEdge.length + 2) = some (g.mHalfEdge.length + 1) ∧
          g'.node (g.mHalfEdge.length + 1) = g.node pa ∧
          g'.node (g.mHalfEdge.length + 2) = g.node hb) ∧
        g'.nullEdges.length + 1 = g.nullEdges.length) ∧
    (∀ e n p, g.isBorder e = true → g.prev e = some p → p < g.mHalfEdge.length →
      n < g.mNode.length →
      ∃ g', g.closeN e n = some g' ∧
        (g'.mFace.length = g.mFace.length + 1 ∧
          g'.mHalfEdge.length = g.mHalfEdge.length + 3 ∧ g'.mNode = g.mNode) ∧
        (g'.opp e = some (g.mHalfEdge.length + 1) ∧
          g'.opp (g.mHalfEdge.length + 1) = some e ∧ g'.isBorder e = false) ∧
        (g'.lastFace = some g.mFace.length ∧
          g'.faceEdge g.mFace.length = some g.mHalfEdge.length ∧
          g'.next g.mHalfEdge.length = some (g.mHalfEdge.length + 1) ∧
          g'.next (g.mHalfEdge.length + 1) = some (g.mHalfEdge.length + 2) ∧
          g'.next (g.mHalfEdge.length + 2) = some g.mHalfEdge.length ∧
          g'.node g.mHalfEdge.length = g.node e ∧
          g'.node (g.mHalfEdge.length + 1) = g.node p ∧
          g'.node (g.mHalfEdge.length + 2) = some n) ∧
        (g'.isBorder g.mHalfEdge.length = true ∧
          g'.isBorder (g.mHalfEdge.length + 1) = false ∧
          g'.isBorder (g.mHalfEdge.length + 2) = true) ∧
        g'.nullEdges.length = g.nullEdges.length + 1) := by
  constructor
  · intro ha hb pa pb hne hba hbb hpa hlpa hpb hlpb
    obtain ⟨rpa, hrpa⟩ := he_of_lt hlpa
    obtain ⟨rpb, hrpb⟩ := he_of_lt hlpb
    obtain ⟨g', h, x, hnd, n0, n1, n2, hc⟩ := close2_border hne hba hbb hpa hrpa hpb hrpb
    have hlta := (isBorder_iff.1 hba).1
    have hltb := (isBorder_iff.1 hbb).1
    have hopp := close2_opp h
    have o1 : g'.opp ha = some (g.mHalfEdge.length + 1) := by
      rw [hopp, if_neg hne, if_neg (by omega), if_pos rfl]
    have o2 : g'.opp (g.mHalfEdge.length + 1) = some ha := by
      rw [hopp, if_neg (by omega), if_neg (by omega), if_neg (by omega), if_pos rfl]
    have o3 : g'.opp hb = some g.mHalfEdge.length := by rw [hopp, if_pos rfl]
    have o4 : g'.opp g.mHalfEdge.length = some hb := by
      rw [hopp, if_neg (by omega), if_pos rfl]
    have o5 : g'.opp (g.mHalfEdge.length + 2) = none := by
      rw [hopp, if_neg (by omega), if_neg (by omega), if_neg (by omega), if_neg (by omega)]
      exact opp_none_of_le (by omega)
    exact ⟨g', h, ⟨by simp [x.faces], x.len, hnd⟩, ⟨o1, o2, o3, o4⟩,
      ⟨isBorder_false_of_opp o1, isBorder_false_of_opp o3, isBorder_false_of_opp o4,
        isBorder_false_of_opp o2, isBorder_iff.2 ⟨by rw [x.len]; omega, o5⟩⟩,
      ⟨(prev_new x).1, n1, n2⟩, hc⟩
  · intro e n p hb hp hlp hn
    obtain ⟨rp, hrp⟩ := he_of_lt hlp
    obtain ⟨g', h, x, hnd, n0, n1, n2, hc⟩ := closeN_border hb hp hrp hn
    have hlt := (isBorder_iff.1 hb).1
    have hopp := closeN_opp h
    have o1 : g'.opp e = some (g.mHalfEdge.length + 1) := by rw [hopp, if_pos rfl]
    have o2 : g'.opp (g.mHalfEdge.length + 1) = some e := by
      rw [hopp, if_neg (by omega), if_pos rfl]
    have o0 : g'.opp g.mHalfEdge.length = none := by
      rw [hopp, if_neg (by omega), if_neg (by omega)]
      exact opp_none_of_le (Nat.le_refl _)
    have o3 : g'.opp (g.mHalfEdge.length + 2) = none := by
      rw [hopp, if_neg (by omega), if_neg (by omega)]
      exact opp_none_of_le (by omega)
    exact ⟨g', h, ⟨by simp [x.faces], x.len, hnd⟩, ⟨o1, o2, isBorder_false_of_opp o1⟩,
      ⟨by simp [lastFace, x.faces], by simp [faceEdge, x.faces], x.next0, x.next1, x.next2,
        n0, n1, n2⟩,
      ⟨isBorder_iff.2 ⟨by rw [x.len]; omega, o0⟩, isBorder_false_of_opp o2,
        isBorder_iff.2 ⟨by rw [x.len]; omega, o3⟩⟩, hc⟩

/-- Instance of `close_two_args` at the seeded triangle: `close(edge(0), edge(1))` and
`close(edge(0), node 0)`. -/
theorem close_two_args_witness :
    (tri0.isBorder 0 = true ∧ tri0.isBorder 1 = true ∧ tri0.prev 0 = some 2 ∧
      tri0.prev 1 = some 0 ∧ tri0.node 0 = (tri0.prev 1).bind tri0.node ∧
      ∃ g', tri0.close2 0 1 = some g' ∧ g'.isBorder 0 = false ∧ g'.isBorder 1 = false ∧
        g'.nullEdges.length + 1 = tri0.nullEdges.length) ∧
    (0 < tri0.mNode.length ∧
      ∃ g', tri0.closeN 0 0 = some g' ∧ g'.isBorder 0 = false ∧
        g'.nullEdges.length = tri0.nullEdges.length + 1) := by
  obtain ⟨g1, h1, -, -, ⟨b1, b2, -⟩, -, c1⟩ :=
    (close_two_args tri0).1 0 1 2 0 (by decide) rfl rfl rfl (by decide) rfl (by decide)
  obtain ⟨g2, h2, -, ⟨-, -, b3⟩, -, -, c2⟩ :=
    (close_two_args tri0).2 0 0 2 rfl rfl (by decide) (by decide)
  exact ⟨⟨rfl, rfl, rfl, rfl, rfl, g1, h1, b1, b2, c1⟩, by decide, g2, h2, b3, c2⟩

/-! ## `nulls` and `faces` of a node -/

theorem nullsSecond_none {g : HEGraph} :
    ∀ (fuel : Nat) (o x : Option Nat), g.nullsSecond fuel o = some x → x = none := by
  intro fuel
  induction fuel with
  | zero =>
    intro o x h
    cases o with
    | none => exact (Option.some.inj h).symm
    | some e => cases h
  | succ n ih =>
    intro o x h
    cases o with
    | none => exact (Option.some.inj h).symm
    | some e =>
      unfold nullsSecond at h
      simp only [Option.bind_eq_bind, Option.bind_eq_some] at h
      obtain ⟨re, -, a, -, ra, -, p, -, rp, -, h⟩ := h
      exact ih _ _ h

/-- C18. Whatever `nulls()` returns is either the empty sequence or two `NULL` pointers:
both `push_back(e)` calls run when `e == NULL`.  At every node of the seeded triangle,
which is a boundary node (`closed()` is `false`), and at every boundary node of the
3 × 3 grid, `nulls()` returns two `NULL` entries, none of which is a half-edge. -/
theorem nulls_null_entries :
    (∀ (g : HEGraph) (fuel N : Nat) (l : List (Option Nat)), g.nulls fuel N = some l →
      l = [] ∨ l = [none, none]) ∧
    (∀ N, N < 3 → tri0.closed 3 N = some false ∧ tri0.nulls 3 N = some [none, none]) ∧
    (∀ N, N < 9 → grid33.closed 24 N = some false →
      grid33.nulls 24 N = some [none, none]) := by
  refine ⟨fun g fuel N l h => ?_, by decide!, by decide!⟩
  unfold nulls at h
  simp only [Option.bind_eq_bind, Option.bind_eq_some] at h
  obtain ⟨rs, -, edge, -, redge, -, e, -, h⟩ := h
  split at h
  · rename_i he
    simp only [Option.bind_eq_some] at h
    obtain ⟨n, -, rn, -, p, -, rp, -, e2, h2, h⟩ := h
    have := nullsSecond_none _ _ _ h2
    right
    rw [← Option.some.inj h, he, this]
    rfl
  · left
    exact (Option.some.inj h).symm

/-- C19. The method `faces()` never returns a sequence: its body fills `tmp` and ends
without a `return` statement.  At the node 0 of the seeded triangle `valence()` returns
the half-edge 0, whose face is the face 0, and `faces()` has no result. -/
theorem faces_no_result :
    (∀ (g : HEGraph) (fuel N : Nat), g.faces fuel N = none) ∧
    (tri0.valence 3 0 = some [0] ∧ tri0.face 0 = some 0 ∧ tri0.faces 3 0 = none) := by
  refine ⟨fun g fuel N => ?_, by decide!⟩
  unfold faces
  cases g.valence fuel N with
  | none => rfl
  | some res =>
    simp only [Option.bind_eq_bind, Option.some_bind]
    cases res.mapM (fun i => (g.he i).map (fun r => r.face)) <;> rfl

/-! ## `edge(int)` -/

/-- C20. For a graph with `s` half-edges (`s` below `2^64`, the range of a vector size)
and an index in the range of `int`: `edge(i)` for `0 ≤ i < s` is the half-edge at
position `i`; `edge(-k)` for `1 ≤ k ≤ s` is the half-edge at position `s - k`;
`edge(-1)` is `lastEdge()`; any other index resolves to no half-edge. -/
theorem edge_index (g : HEGraph) (hs : g.mHalfEdge.length < 2 ^ 64) :
    (∀ i : Nat, i < g.mHalfEdge.length → g.edge (i : Int) = some i) ∧
    (∀ k : Nat, 1 ≤ k → k ≤ g.mHalfEdge.length →
      g.edge (-(k : Int)) = some (g.mHalfEdge.length - k)) ∧
    g.edge (-1) = g.lastEdge ∧
    (∀ idx : Int, -(2 ^ 31) ≤ idx → idx < 2 ^ 31 →
      (g.mHalfEdge.length : Int) ≤ idx ∨ idx < -(g.mHalfEdge.length : Int) →
      g.edge idx = none) := by
  have hs' : (g.mHalfEdge.length : Int) < 18446744073709551616 := by
    have : (2 : Nat) ^ 64 = 18446744073709551616 := by norm_num
    omega
  have neg : ∀ k : Nat, 1 ≤ k → k ≤ g.mHalfEdge.length →
      g.edge (-(k : Int)) = some (g.mHalfEdge.length - k) := by
    intro k h1 h2
    unfold edge
    have e0 : (-(k : Int)) < 0 := by omega
    have e1 : ((g.mHalfEdge.length : Int) + -(k : Int)) % 2 ^ 64 =
        ((g.mHalfEdge.length - k : Nat) : Int) := by
      rw [Int.emod_eq_of_lt (by omega) (by norm_num; omega)]
      omega
    simp only [e0, if_true, e1, Int.toNat_ofNat]
    rw [if_pos (by omega)]
  refine ⟨fun i hi => ?_, neg, ?_, fun idx hlo hhi h => ?_⟩
  · unfold edge
    have e0 : ¬ ((i : Int) < 0) := by omega
    simp only [e0, if_false, Int.toNat_ofNat]
    rw [if_pos hi]
  · by_cases h0 : g.mHalfEdge.length = 0
    · have : g.edge (-1) = none := by
        unfold edge
        have e1 : ((g.mHalfEdge.length : Int) + -1) % 2 ^ 64 = 18446744073709551615 := by
          rw [h0]
          norm_num
        simp only [show ((-1 : Int) < 0) by omega, if_true, e1]
        rw [if_neg (by rw [h0]; omega)]
      rw [this]
      simp [lastEdge, h0]
    · have := neg 1 (by omega) (by omega)
      simp only [Nat.cast_one] at this
      rw [this]
      simp [lastEdge, h0]
  · unfold edge
    rcases h with h | h
    · have e0 : ¬ (idx < 0) := by omega
      simp only [e0, if_false]
      rw [if_neg (by omega)]
    · have e0 : idx < 0 := by omega
      have e1 : ((g.mHalfEdge.length : Int) + idx) % 2 ^ 64 =
          (g.mHalfEdge.length : Int) + idx + 18446744073709551616 := by
        have hmod : ((g.mHalfEdge.length : Int) + idx) % 2 ^ 64 =
            ((g.mHalfEdge.length : Int) + idx + 18446744073709551616) % 2 ^ 64 := by
          norm_num
        rw [hmod, Int.emod_eq_of_lt (by norm_num at hlo ⊢; omega) (by norm_num; omega)]
      simp only [e0, if_true, e1]
      rw [if_neg (by norm_num at hlo; omega)]

/-- Instance of `edge_index` at the seeded triangle. -/
theorem edge_index_witness :
    tri0.mHalfEdge.length < 2 ^ 64 ∧ tri0.edge 2 = some 2 ∧ tri0.edge (-3) = some 0 ∧
      tri0.edge (-1) = tri0.lastEdge ∧ tri0.edge 3 = none ∧ tri0.edge (-4) = none := by
  have hs : tri0.mHalfEdge.length < 2 ^ 64 := by decide
  obtain ⟨h1, h2, h3, h4⟩ := edge_index tri0 hs
  exact ⟨hs, h1 2 (by decide), h2 3 (by decide) (by decide), h3,
    h4 3 (by norm_num) (by norm_num) (Or.inl (by decide)),
    h4 (-4) (by norm_num) (by norm_num) (Or.inr (by decide))⟩

/-! ## Border queries -/

theorem nullEdgesFrom_eq_filter (i : Nat) (l : List HalfEdge) :
    nullEdgesFrom i l =
      ((List.range l.length).filter (fun k =>
        match l[k]? with
        | some r => r.opp.isNone
        | none => false)).map (fun k => i + k) := by
  induction l generalizing i with
  | nil => rfl
  | cons r t ih =>
    rw [List.length_cons, List.range_succ_eq_map, List.filter_cons]
    have hrest : (List.filter (fun k =>
          match (r :: t)[k]? with
          | some r => r.opp.isNone
          | none => false) (List.map Nat.succ (List.range t.length))).map (fun k => i + k) =
        nullEdgesFrom (i + 1) t := by
      have e1 : ((fun k => i + k) ∘ Nat.succ) = (fun k => i + 1 + k) := by
        funext k
        simp only [Function.comp, Nat.succ_eq_add_one]
        omega
      have e2 : ((fun k =>
            match (r :: t)[k]? with
            | some r => r.opp.isNone
            | none => false) ∘ Nat.succ) =
          (fun k =>
            match t[k]? with
            | some r => r.opp.isNone
            | none => false) := by
        funext k
        simp only [Function.comp, Nat.succ_eq_add_one, List.getElem?_cons_succ]
      rw [ih (i + 1), List.filter_map, List.map_map, e1, e2]
    unfold nullEdgesFrom
    simp only [List.getElem?_cons_zero]
    cases ho : r.opp.isNone with
    | true => simp only [if_true, List.map_cons, Nat.add_zero, hrest]
    | false => simp only [Bool.false_eq_true, if_false, hrest]

theorem firstNullFrom_head (i : Nat) (l : List HalfEdge) :
    firstNullFrom i l = (nullEdgesFrom i l).head? := by
  induction l generalizing i with
  | nil => rfl
  | cons r t ih =>
    unfold firstNullFrom nullEdgesFrom
    cases ho : r.opp.isNone with
    | true => simp
    | false => simpa using ih (i + 1)

/-- C21. The list `nullEdges()` is the list of positions of the half-edge vector, in
increasing order, whose half-edge is border; `hasBorder()` is true exactly when that list
is non-empty; `firstNull()` is its first element, and it yields no half-edge exactly when
`hasBorder()` is false. -/
theorem border_queries (g : HEGraph) :
    g.nullEdges = (List.range g.mHalfEdge.length).filter (fun i => g.isBorder i) ∧
    (g.hasBorder = true ↔ g.nullEdges ≠ []) ∧
    g.firstNull = g.nullEdges.head? ∧
    (g.hasBorder = true → ∃ e, g.firstNull = some e ∧ g.nullEdges.head? = some e ∧
      g.isBorder e = true) ∧
    (g.firstNull = none ↔ g.hasBorder = false) := by
  have h1 : g.nullEdges = (List.range g.mHalfEdge.length).filter (fun i => g.isBorder i) := by
    unfold nullEdges
    rw [nullEdgesFrom_eq_filter]
    simp only [Nat.zero_add, List.map_id']
    rfl
  have h2 : g.hasBorder = true ↔ g.nullEdges ≠ [] := by
    rw [Ne, ← hasBorder_false_iff]
    cases g.hasBorder <;> simp
  have h3 : g.firstNull = g.nullEdges.head? := firstNullFrom_head 0 g.mHalfEdge
  refine ⟨h1, h2, h3, fun hb => ?_, ?_⟩
  · obtain ⟨e, he, hbe⟩ := firstNull_spec hb
    exact ⟨e, he, by rw [← h3, he], hbe⟩
  · rw [h3, hasBorder_false_iff]
    cases g.nullEdges <;> simp

/-- Instance of `border_queries` at the seeded triangle. -/
theorem border_queries_witness :
    tri0.hasBorder = true ∧ ∃ e, tri0.firstNull = some e ∧ tri0.nullEdges.head? = some e ∧
      tri0.isBorder e = true :=
  ⟨by decide, (border_queries tri0).2.2.2.1 (by decide)⟩

/-! ## `lastEdge`, `lastFace`, `lastNode` -/

/-- C22. The accessors `lastEdge()` and `lastFace()` return the last record of their
vector, but `lastNode()` returns the node the last half-edge points to: on the seeded
triangle (3 nodes) that is the node 0, not the last node 2; after `insert(v, edge(0))`
(4 nodes) it is the node 1, not the new node 3.  After `addAt` it is the new node. -/
theorem lastNode_not_last :
    (∀ g : HEGraph, 0 < g.mHalfEdge.length → g.lastEdge = some (g.mHalfEdge.length - 1)) ∧
    (∀ g : HEGraph, 0 < g.mFace.length → g.lastFace = some (g.mFace.length - 1)) ∧
    (seeded = some tri0 ∧ tri0.mNode.length = 3 ∧ tri0.lastNode = some 0) ∧
    (∃ g, tri0.insert 13 0 = some g ∧ g.mNode.length = 4 ∧ g.lastNode = some 1) ∧
    (∃ g, tri0.addAt 13 2 = some g ∧ g.mNode.length = 4 ∧ g.lastNode = some 3) := by
  refine ⟨fun g h => ?_, fun g h => ?_, ⟨rfl, rfl, rfl⟩, ⟨_, rfl, rfl, rfl⟩, ⟨_, rfl, rfl, rfl⟩⟩
  · unfold lastEdge
    rw [if_neg (by omega)]
  · unfold lastFace
    rw [if_neg (by omega)]

/-! ## No deletion -/

theorem Keep.same {α β : Type} (c : α → β) (W : Nat → Prop) (l : List α) : Keep c W l l :=
  fun _ r h => ⟨r, h, rfl, fun _ => rfl⟩

theorem Keep.mono {α β : Type} {c : α → β} {W W' : Nat → Prop} {l l' : List α}
    (h : Keep c W l l') (hw : ∀ i, i < l.length → W i → W' i) : Keep c W' l l' := by
  intro i r hi
  obtain ⟨r', h1, h2, h3⟩ := h i r hi
  exact ⟨r', h1, h2, fun n => h3 (fun w => n (hw i (List.getElem?_eq_some.1 hi).1 w))⟩

theorem Keep.trans {α β : Type} {c : α → β} {W : Nat → Prop} {l l' l'' : List α}
    (h : Keep c W l l') (k : Keep c W l' l'') : Keep c W l l'' := by
  intro i r hi
  obtain ⟨r', h1, h2, h3⟩ := h i r hi
  obtain ⟨r'', k1, k2, k3⟩ := k i r' h1
  exact ⟨r'', k1, k2.trans h2, fun n => (k3 n).trans (h3 n)⟩

theorem Keep.append {α β : Type} {c : α → β} {W : Nat → Prop} {l l' : List α}
    (h : Keep c W l l') (m : List α) : Keep c W l (l' ++ m) := by
  intro i r hi
  obtain ⟨r', h1, h2, h3⟩ := h i r hi
  refine ⟨r', ?_, h2, h3⟩
  rw [List.getElem?_append_left (List.getElem?_eq_some.1 h1).1]
  exact h1

theorem Keep.of_initial {α β : Type} (c : α → β) (W : Nat → Prop) {l l' : List α}
    (h : l <+: l') : Keep c W l l' := by
  obtain ⟨m, rfl⟩ := h
  exact (Keep.same c W l).append m

theorem Keep.set {α β : Type} {c : α → β} {W : Nat → Prop} {l l' : List α}
    (h : Keep c W l l') {x : Nat} {rx a : α} (hx : l'[x]? = some rx) (hc : c a = c rx)
    (hw : W x ∨ l.length ≤ x) : Keep c W l (l'.set x a) := by
  intro i r hi
  obtain ⟨r', h1, h2, h3⟩ := h i r hi
  have hxl : x < l'.length := (List.getElem?_eq_some.1 hx).1
  have hil : i < l.length := (List.getElem?_eq_some.1 hi).1
  by_cases c0 : x = i
  · subst c0
    rw [hx] at h1
    cases h1
    refine ⟨a, by simp [hxl], hc.trans h2, fun n => ?_⟩
    rcases hw with w | w
    · exact absurd w n
    · omega
  · exact ⟨r', by rw [List.getElem?_set_ne c0]; exact h1, h2, h3⟩

theorem Keep.length_le {α β : Type} {c : α → β} {W : Nat → Prop} {l l' : List α}
    (h : Keep c W l l') : l.length ≤ l'.length := by
  by_contra n
  have hl : l'.length < l.length := by omega
  obtain ⟨r', h1, -⟩ := h l'.length _ (List.getElem?_eq_getElem hl)
  have := (List.getElem?_eq_some.1 h1).1
  omega

/-- With no position written in place, the old arena is a prefix of the new one. -/
theorem Keep.initial {α β : Type} {c : α → β} {l l' : List α}
    (h : Keep c (fun _ => False) l l') : l <+: l' := by
  rw [List.prefix_iff_eq_take]
  apply List.ext_getElem?
  intro i
  rw [List.getElem?_take]
  split_ifs with c0
  · obtain ⟨r', h1, -, h3⟩ := h i _ (List.getElem?_eq_getElem c0)
    rw [h1, h3 (fun f => f)]
    exact List.getElem?_eq_getElem c0
  · exact List.getElem?_eq_none (by omega)

/-- A vector that lost its first half-edge does not keep the records of the seeded
triangle in position. -/
theorem keep_not_drop :
    ¬ Keep heLinks (fun i => i = 2) tri0.mHalfEdge tri0.mHalfEdge.tail := by
  intro h
  obtain ⟨r', h1, h2, -⟩ := h 0 _ rfl
  cases Option.some.inj h1
  exact absurd h2 (by decide)

theorem addNode_keep (g : HEGraph) (v : Nat) :
    g.mHalfEdge <+: (g.addNode v).mHalfEdge ∧ g.mFace <+: (g.addNode v).mFace ∧
      g.mNode <+: (g.addNode v).mNode :=
  ⟨List.prefix_refl _, List.prefix_refl _, List.prefix_append _ _⟩

theorem seedNodes_keep {g g' : HEGraph} (h : g.seedNodes = some g') :
    g.mHalfEdge <+: g'.mHalfEdge ∧ g.mFace <+: g'.mFace ∧
      Keep nodeData (fun i => i < 3) g.mNode g'.mNode := by
  obtain ⟨na, nb, nc, h0, h1, h2, rfl⟩ := seedNodes_some h
  refine ⟨List.prefix_append _ _, List.prefix_append _ _, ?_⟩
  have k1 : (g.mNode.set 0 { na with edge := some g.mHalfEdge.length })[1]? = some nb := by
    rw [List.getElem?_set_ne (by omega)]
    exact h1
  have k2 : ((g.mNode.set 0 { na with edge := some g.mHalfEdge.length }).set 1
      { nb with edge := some (g.mHalfEdge.length + 1) })[2]? = some nc := by
    rw [List.getElem?_set_ne (by omega), List.getElem?_set_ne (by omega)]
    exact h2
  exact (((Keep.same nodeData (fun i => i < 3) g.mNode).set h0 (by rfl)
    (Or.inl (by decide))).set k1 (by rfl) (Or.inl (by decide))).set k2 (by rfl)
    (Or.inl (by decide))

theorem addAt_keep {g g' : HEGraph} {v e : Nat} (h : g.addAt v e = some g') :
    Keep heLinks (fun i => i = e) g.mHalfEdge g'.mHalfEdge ∧ g.mFace <+: g'.mFace ∧
      g.mNode <+: g'.mNode := by
  obtain ⟨re, e1, r1, e2, r2, h0, -, -, -, -, rfl⟩ := addAt_some h
  exact ⟨((Keep.same heLinks (fun i => i = e) g.mHalfEdge).set h0 (by rfl) (Or.inl rfl)).append _,
    List.prefix_append _ _, List.prefix_append _ _⟩

theorem close2_keep {g g' : HEGraph} {ha hb : Nat} (h : g.close2 ha hb = some g') :
    Keep heLinks (fun i => i = ha ∨ i = hb) g.mHalfEdge g'.mHalfEdge ∧ g.mFace <+: g'.mFace ∧
      g'.mNode = g.mNode := by
  obtain ⟨ra, rb, pb, rpb, pa, rpa, rb1, h0, -, -, -, -, -, h6, rfl⟩ := close2_some h
  exact ⟨(((Keep.same heLinks (fun i => i = ha ∨ i = hb) g.mHalfEdge).set h0 (by rfl)
    (Or.inl (Or.inl rfl))).set h6 (by rfl) (Or.inl (Or.inr rfl))).append _,
    List.prefix_append _ _, rfl⟩

theorem closeN_keep {g g' : HEGraph} {e n : Nat} (h : g.closeN e n = some g') :
    Keep heLinks (fun i => i = e) g.mHalfEdge g'.mHalfEdge ∧ g.mFace <+: g'.mFace ∧
      g'.mNode = g.mNode := by
  obtain ⟨re, p, rp, rn, h0, -, -, -, rfl⟩ := closeN_some h
  exact ⟨((Keep.same heLinks (fun i => i = e) g.mHalfEdge).set h0 (by rfl) (Or.inl rfl)).append _,
    List.prefix_append _ _, rfl⟩

theorem close_keep {g g' : HEGraph} {fuel e : Nat} (h : g.close fuel e = some g') :
    Keep heLinks
        (fun i => i = e ∨ g.nextNull fuel false e = some i ∨ g.nextNull fuel true e = some i)
        g.mHalfEdge g'.mHalfEdge ∧
      g.mFace <+: g'.mFace ∧ g'.mNode = g.mNode := by
  obtain ⟨tb, tc, re, rtb, rtc, rtb1, rtc1, n0, n1, h2, -, -, h5, h6, rfl⟩ := close_some h
  exact ⟨((((Keep.same heLinks _ g.mHalfEdge).set h2 (by rfl) (Or.inl (Or.inl rfl))).set h5
    (by rfl) (Or.inl (Or.inr (Or.inl n0)))).set h6 (by rfl)
    (Or.inl (Or.inr (Or.inr n1)))).append _, List.prefix_append _ _, rfl⟩

theorem insert_keep {g g' : HEGraph} {pa e : Nat} (h : g.insert pa e = some g') :
    Keep heSeal (fun i => i = e ∨ g.next e = some i) g.mHalfEdge g'.mHalfEdge ∧
      Keep (fun _ : Face => ()) (fun i => g.face e = some i) g.mFace g'.mFace ∧
      g.mNode <+: g'.mNode := by
  simp only [insert, Option.bind_eq_bind, Option.bind_eq_some] at h
  obtain ⟨re, h0, e1, h1, r1, -, g1, s1, g2, s2, g3, s3, s4⟩ := h
  have le := he_lt h0
  have a0 : (g.insertFresh pa re r1).he e = some re := by rw [he_insertFresh_old _ _ _ le, h0]
  have n0 : g.next e = some e1 := next_eq_some.2 ⟨_, h0, h1⟩
  simp only [setNextFace, Option.bind_eq_bind, Option.bind_eq_some, Option.pure_def,
    Option.some.injEq] at s1
  obtain ⟨x1, hx1, rx1, hrx1, rfl⟩ := s1
  obtain ⟨q, hq, hqn⟩ := next_eq_some.1 hx1
  rw [a0] at hq
  cases hq
  rw [h1] at hqn
  cases hqn
  simp only [setNextNext, Option.bind_eq_bind, Option.bind_eq_some, Option.pure_def,
    Option.some.injEq] at s2
  obtain ⟨x2, hx2, rx2, hrx2, rfl⟩ := s2
  have b0 : ∃ rb, ((g.insertFresh pa re r1).setHE e1 { rx1 with face := some g.mFace.length }).he
      e = some rb ∧ rb.next = some e1 ∧
      (rb.face = some g.mFace.length ∨ rb.face = re.face) := by
    rw [he_setHE]
    by_cases c : e1 = e
    · subst c
      rw [a0] at hrx1
      cases hrx1
      rw [if_pos rfl, if_pos (he_lt a0)]
      exact ⟨_, rfl, h1, Or.inl rfl⟩
    · rw [if_neg c]
      exact ⟨_, a0, h1, Or.inr rfl⟩
  obtain ⟨rb, hb, hbn, hbf⟩ := b0
  obtain ⟨q, hq, hqn⟩ := next_eq_some.1 hx2
  rw [hb] at hq
  cases hq
  rw [hbn] at hqn
  cases hqn
  simp only [setNodeNext, Option.bind_eq_bind, Option.bind_eq_some, Option.pure_def,
    Option.some.injEq] at s3
  obtain ⟨r3, hr3, rfl⟩ := s3
  have c0 : r3.face = some g.mFace.length ∨ r3.face = re.face := by
    rw [he_setHE] at hr3
    by_cases c : e1 = e
    · subst c
      rw [hb] at hrx2
      cases hrx2
      rw [if_pos rfl] at hr3
      split_ifs at hr3
      cases hr3
      exact hbf
    · rw [if_neg c, hb] at hr3
      cases hr3
      exact hbf
  simp only [setFaceEdge, Option.bind_eq_bind, Option.bind_eq_some, Option.pure_def,
    Option.some.injEq] at s4
  obtain ⟨fe, hfe, rf, hrf, rfl⟩ := s4
  have d0 : g.face e = some fe ∨ g.mFace.length ≤ fe := by
    obtain ⟨q, hq, hqf⟩ := face_eq_some.1 hfe
    rw [he_setHE, if_pos rfl] at hq
    split_ifs at hq
    cases hq
    rcases c0 with c | c
    · right
      have : some g.mFace.length = some fe := c.symm.trans hqf
      cases this
      exact Nat.le_refl _
    · left
      exact face_eq_some.2 ⟨_, h0, c.symm.trans hqf⟩
  refine ⟨?_, ?_, List.prefix_append _ _⟩
  · exact ((((Keep.same heSeal (fun i => i = e ∨ g.next e = some i) g.mHalfEdge).append _).set
      hrx1 (by rfl) (Or.inl (Or.inr n0))).set hrx2 (by rfl) (Or.inl (Or.inr n0))).set
      hr3 (by rfl) (Or.inl (Or.inl rfl))
  · exact ((Keep.same (fun _ : Face => ()) (fun i => g.face e = some i) g.mFace).append _).set
      hrf (by rfl) d0

theorem add_keep {g g' : HEGraph} {v : Nat} (h : g.add v = some g') :
    Keep heLinks (fun i => 3 ≤ g.mNode.length ∧ g.lastEdge = some i) g.mHalfEdge g'.mHalfEdge ∧
      g.mFace <+: g'.mFace ∧
      Keep nodeData (fun i => g.mNode.length = 2 ∧ i < 3) g.mNode g'.mNode := by
  rcases add_cases h with ⟨-, rfl⟩ | ⟨c2, h2⟩ | ⟨c3, e, le, h3⟩
  · exact ⟨Keep.same _ _ _, List.prefix_refl _, Keep.of_initial _ _ (List.prefix_append _ _)⟩
  · obtain ⟨k1, k2, k3⟩ := seedNodes_keep h2
    refine ⟨Keep.of_initial _ _ k1, k2, ?_⟩
    exact (Keep.of_initial nodeData _ (List.prefix_append g.mNode _)).trans
      (k3.mono (fun i _ w => ⟨c2, w⟩))
  · obtain ⟨k1, k2, k3⟩ := addAt_keep h3
    exact ⟨k1.mono (fun i _ w => ⟨c3, w ▸ le⟩), k2, Keep.of_initial _ _ k3⟩

/-- C23. No record is removed or re-indexed and no arena shrinks: after each of `addNode`,
`seedNodes`, `add`, `addAt`, `insert` and the three `close` overloads every node,
half-edge and face of the graph is found at its old position.  The node arena, the face
arena and the half-edge arena are prefixes of the new ones wherever the call writes no
existing record of them.  Where it does, the records at the positions it writes keep the
fields it does not assign and every other record is unchanged: `addAt(v,e)` and
`close(e,n)` write `opp` of `e`; `close(ha,hb)` writes `opp` of `ha` and `hb`; `close(e)`
writes `opp` of `e` and of its two `nextNull` results; `seedNodes` writes `edge` of the
nodes 0, 1, 2; `insert(v,e)` writes `node`, `next`, `face` of `e` and `e.next` and the
`edge` of the face of `e`; `add` writes what `seedNodes` or `addAt(v, lastEdge())` write.
`removeFacet(idx)` and `removeEdge(idx)` return the graph unchanged; `reset()` keeps the
faces, the lengths and every field other than `bVisited`, which it sets to `false` in
every half-edge and node; `clear()` leaves the three vectors empty. -/
theorem no_deletion (g : HEGraph) :
    (∀ v, g.mHalfEdge <+: (g.addNode v).mHalfEdge ∧ g.mFace <+: (g.addNode v).mFace ∧
      g.mNode <+: (g.addNode v).mNode) ∧
    (∀ g', g.seedNodes = some g' →
      g.mHalfEdge <+: g'.mHalfEdge ∧ g.mFace <+: g'.mFace ∧
      Keep nodeData (fun i => i < 3) g.mNode g'.mNode) ∧
    (∀ v g', g.add v = some g' →
      Keep heLinks (fun i => 3 ≤ g.mNode.length ∧ g.lastEdge = some i)
        g.mHalfEdge g'.mHalfEdge ∧
      g.mFace <+: g'.mFace ∧
      Keep nodeData (fun i => g.mNode.length = 2 ∧ i < 3) g.mNode g'.mNode) ∧
    (∀ v e g', g.addAt v e = some g' →
      Keep heLinks (fun i => i = e) g.mHalfEdge g'.mHalfEdge ∧ g.mFace <+: g'.mFace ∧
      g.mNode <+: g'.mNode) ∧
    (∀ v e g', g.insert v e = some g' →
      Keep heSeal (fun i => i = e ∨ g.next e = some i) g.mHalfEdge g'.mHalfEdge ∧
      Keep (fun _ : Face => ()) (fun i => g.face e = some i) g.mFace g'.mFace ∧
      g.mNode <+: g'.mNode) ∧
    (∀ ha hb g', g.close2 ha hb = some g' →
      Keep heLinks (fun i => i = ha ∨ i = hb) g.mHalfEdge g'.mHalfEdge ∧
      g.mFace <+: g'.mFace ∧ g'.mNode = g.mNode) ∧
    (∀ e n g', g.closeN e n = some g' →
      Keep heLinks (fun i => i = e) g.mHalfEdge g'.mHalfEdge ∧ g.mFace <+: g'.mFace ∧
      g'.mNode = g.mNode) ∧
    (∀ fuel e g', g.close fuel e = some g' →
      Keep heLinks
        (fun i => i = e ∨ g.nextNull fuel false e = some i ∨ g.nextNull fuel true e = some i)
        g.mHalfEdge g'.mHalfEdge ∧
      g.mFace <+: g'.mFace ∧ g'.mNode = g.mNode) ∧
    (∀ idx, g.removeFacet idx = g ∧ g.removeEdge idx = g) ∧
    ((g.reset).mFace = g.mFace ∧
      (∀ (i : Nat) (r : HalfEdge), g.mHalfEdge[i]? = some r →
        (g.reset).mHalfEdge[i]? = some { r with bVisited := false }) ∧
      (∀ (i : Nat) (r : Node), g.mNode[i]? = some r →
        (g.reset).mNode[i]? = some { r with bVisited := false }) ∧
      (g.reset).mHalfEdge.length = g.mHalfEdge.length ∧
      (g.reset).mNode.length = g.mNode.length) ∧
    ((g.clear).mHalfEdge = [] ∧ (g.clear).mFace = [] ∧ (g.clear).mNode = []) := by
  refine ⟨addNode_keep g, fun _ h => seedNodes_keep h, fun _ _ h => add_keep h,
    fun _ _ _ h => addAt_keep h, fun _ _ _ h => insert_keep h,
    fun _ _ _ h => close2_keep h, fun _ _ _ h => closeN_keep h,
    fun _ _ _ h => close_keep h,
    fun _ => ⟨rfl, rfl⟩, ⟨rfl, ?_, ?_, ?_, ?_⟩, rfl, rfl, rfl⟩
  · intro i r h
    simp [reset, h]
  · intro i r h
    simp [reset, h]
  · simp [reset]
  · simp [reset]

/-- Instance of `no_deletion` at the seeded triangle: `addAt(v, edge(2))`. -/
theorem no_deletion_witness :
    ∃ g', tri0.addAt 13 2 = some g' ∧
      Keep heLinks (fun i => i = 2) tri0.mHalfEdge g'.mHalfEdge ∧ tri0.mFace <+: g'.mFace ∧
      tri0.mNode <+: g'.mNode :=
  ⟨_, rfl, (no_deletion tri0).2.2.2.1 13 2 _ rfl⟩

/-! ## `valence` and `neighbors` of an interior node -/

/-- When `closed` returns `true`, the rotation `t ↦ t.opp.next` from `t` meets an opposite
at every round and reaches `edge -> next -> next` after fewer rounds than the fuel. -/
theorem closedLoop_true {g : HEGraph} {edge : Nat} :
    ∀ (fuel e t : Nat), g.opp t = some e → g.closedLoop edge fuel e = some true →
      ∃ k, k < fuel ∧ (∀ i, i ≤ k → ∃ o, g.opp ((g.roundOf g.next)^[i] t) = some o) ∧
        (∀ i, i < k → g.opp ((g.roundOf g.next)^[i] t) ≠ g.prev edge) ∧
        g.opp ((g.roundOf g.next)^[k] t) = g.prev edge := by
  intro fuel
  induction fuel with
  | zero => intro e t _ h; cases h
  | succ n ih =>
    intro e t hot h
    unfold closedLoop at h
    simp only [Option.bind_eq_bind, Option.bind_eq_some] at h
    obtain ⟨redge, hredge, a, ha, ra, hra, h⟩ := h
    have hprev : g.prev edge = ra.next := by
      simp [prev, next, hredge, ha, hra]
    split at h
    · rename_i heq
      refine ⟨0, by omega, fun i hi => ?_, fun i hi => by omega, ?_⟩
      · have : i = 0 := by omega
        subst this
        exact ⟨e, hot⟩
      · rw [Function.iterate_zero_apply, hot, hprev, heq]
    · rename_i hneq
      simp only [Option.bind_eq_some] at h
      obtain ⟨re, hre, t', ht', rt, hrt, h⟩ := h
      have hn : g.next e = some t' := next_eq_some.2 ⟨re, hre, ht'⟩
      have hR : g.roundOf g.next t = t' := by simp [roundOf, hot, hn]
      cases ho : rt.opp with
      | none => rw [ho] at h; cases h
      | some e1 =>
        rw [ho] at h
        have hot' : g.opp t' = some e1 := by rw [opp_of_he hrt, ho]
        obtain ⟨k, hk, h1, h2, h3⟩ := ih e1 t' hot' h
        refine ⟨k + 1, by omega, fun i hi => ?_, fun i hi => ?_, ?_⟩
        · cases i with
          | zero => exact ⟨e, hot⟩
          | succ j =>
            rw [Function.iterate_succ_apply, hR]
            exact h1 j (by omega)
        · cases i with
          | zero =>
            rw [Function.iterate_zero_apply, hot, hprev]
            exact hneq
          | succ j =>
            rw [Function.iterate_succ_apply, hR]
            exact h2 j (by omega)
        · rw [Function.iterate_succ_apply, hR]
          exact h3

theorem valenceCycle_succ {g : HEGraph} {edge fuel e p e1 : Nat} (tmp : List Nat)
    (hp : g.prev e = some p) (ho : g.opp p = some e1) :
    g.valenceCycle edge (fuel + 1) e tmp =
      if e1 = edge then some (tmp ++ [e]) else g.valenceCycle edge fuel e1 (tmp ++ [e]) := by
  obtain ⟨a, h1, h2⟩ := prev_some hp
  obtain ⟨re, hre, hre'⟩ := next_eq_some.1 h1
  obtain ⟨ra, hra, hra'⟩ := next_eq_some.1 h2
  obtain ⟨rp, hrp, hrp'⟩ := opp_eq_some.1 ho
  simp [valenceCycle, hre, hre', hra, hra', hrp, hrp']

/-- The step `e ↦ e -> next -> next -> opp` of `valence` undoes the rotation. -/
theorem spoke_round {g : HEGraph} (hg : NextCycle g) (hs : OppSym g) {t o : Nat}
    (ho : g.opp t = some o) :
    ∃ p, g.prev (g.roundOf g.next t) = some p ∧ g.opp p = some t := by
  have h := (round_spec hg.move_next hs ho).2
  exact ⟨o, hg.prev_next h, (hs t o ho).1⟩

/-- The loop of the closed branch of `valence`, entered `j + 1` rounds of the rotation
before `edge`, walks them back and returns at `edge`. -/
theorem valenceCycle_iter {g : HEGraph} (hg : NextCycle g) (hs : OppSym g) {edge k : Nat}
    (hopp : ∀ i, i ≤ k → ∃ o, g.opp ((g.roundOf g.next)^[i] edge) = some o)
    (hne : ∀ i, 1 ≤ i → i ≤ k → (g.roundOf g.next)^[i] edge ≠ edge) :
    ∀ j, j ≤ k → ∀ (fuel : Nat) (tmp : List Nat), j < fuel →
      g.valenceCycle edge fuel ((g.roundOf g.next)^[j + 1] edge) tmp =
        some (tmp ++ (List.range (j + 1)).map
          (fun i => (g.roundOf g.next)^[j + 1 - i] edge)) := by
  intro j
  induction j with
  | zero =>
    intro _ fuel tmp hf
    obtain ⟨f, rfl⟩ : ∃ f, fuel = f + 1 := ⟨fuel - 1, by omega⟩
    obtain ⟨o, ho⟩ := hopp 0 (by omega)
    obtain ⟨p, hp, hop⟩ := spoke_round hg hs ho
    rw [Function.iterate_succ_apply' (g.roundOf g.next) 0 edge, valenceCycle_succ tmp hp hop]
    simp only [Function.iterate_zero_apply, if_true]
    rfl
  | succ n ih =>
    intro hk fuel tmp hf
    obtain ⟨f, rfl⟩ : ∃ f, fuel = f + 1 := ⟨fuel - 1, by omega⟩
    obtain ⟨o, ho⟩ := hopp (n + 1) hk
    obtain ⟨p, hp, hop⟩ := spoke_round hg hs ho
    rw [Function.iterate_succ_apply' (g.roundOf g.next) (n + 1) edge,
      valenceCycle_succ tmp hp hop, if_neg (hne (n + 1) (by omega) hk),
      ih (by omega) f _ (by omega)]
    congr 1
    rw [List.range_succ_eq_map (n + 1), List.map_cons, List.map_map, List.append_assoc]
    congr 1
    simp only [List.singleton_append, Nat.sub_zero, List.cons.injEq]
    refine ⟨(Function.iterate_succ_apply' (g.roundOf g.next) (n + 1) edge).symm, ?_⟩
    apply List.map_congr_left
    intro i _
    simp only [Function.comp, Nat.succ_eq_add_one]
    congr 1
    omega

/-- C24. In a graph with the next-3-cycle and opp-symmetry invariants, for a node `N` whose
`closed()` is `true`, `valence()` returns with the same fuel a list `v` that starts at
`N.edge`, steps by `e ↦ e.next.next.opp` (an opposite is present at every step), comes
back to `N.edge` after its last entry, has pairwise distinct entries none of which is
border, and `neighbors()` is the list of the nodes of `v`, of the same length.  In the
graph of `UV(3,3,p)` the node 3 is the only node with `closed()` true and its valence has
length 6. -/
theorem valence_closed :
    (∀ (g : HEGraph) (fuel N : Nat), NextCycle g → OppSym g → g.closed fuel N = some true →
      ∃ v edge el nb, g.nodeEdge N = some edge ∧ g.valence fuel N = some v ∧
        v[0]? = some edge ∧
        (∀ i a b, v[i]? = some a → v[i + 1]? = some b → (g.prev a).bind g.opp = some b) ∧
        v.getLast? = some el ∧ (g.prev el).bind g.opp = some edge ∧
        (∀ x, x ∈ v → g.isBorder x = false) ∧ v.Nodup ∧
        g.neighbors fuel N = some nb ∧ nb = v.map g.node ∧ nb.length = v.length) ∧
    (UV 3 3 [0, 1, 2, 3, 4, 5, 6, 7, 8] HEGraph.empty = some grid33 ∧
      (∀ N, N < 9 → (grid33.closed 24 N = some true ↔ N = 3)) ∧
      (grid33.valence 24 3).map List.length = some 6) := by
  refine ⟨fun g fuel N hg hs hc => ?_, grid33_built, by decide!, by decide!⟩
  have hc0 := hc
  unfold closed at hc
  simp only [Option.bind_eq_bind, Option.bind_eq_some] at hc
  obtain ⟨rs, hrs, edge, hedge, redge, hredge, hc⟩ := hc
  have hel := he_lt hredge
  cases hro : redge.opp with
  | none => rw [hro] at hc; cases hc
  | some e0 =>
    rw [hro] at hc
    have hot : g.opp edge = some e0 := by rw [opp_of_he hredge, hro]
    obtain ⟨k, hk, hopp, hmin, hstop⟩ := closedLoop_true fuel e0 edge hot hc
    obtain ⟨st, hst⟩ := hopp k (le_refl k)
    have hprev : g.prev edge = some st := by rw [← hstop, hst]
    have hback : (g.roundOf g.next)^[k + 1] edge = edge := by
      rw [Function.iterate_succ_apply' (g.roundOf g.next) k edge]
      simp [roundOf, hst, hg.next_prev hprev]
    have hne : ∀ i, 1 ≤ i → i ≤ k → (g.roundOf g.next)^[i] edge ≠ edge := by
      intro i h1 h2 heq
      obtain ⟨j, rfl⟩ : ∃ j, i = j + 1 := ⟨i - 1, by omega⟩
      obtain ⟨o, ho⟩ := hopp j (by omega)
      have h3 := (round_spec hg.move_next hs ho).2
      rw [← Function.iterate_succ_apply' (g.roundOf g.next) j edge, heq] at h3
      exact hmin j (by omega) (by rw [ho, hg.prev_next h3])
    have hv := valenceCycle_iter hg hs hopp hne k (le_refl k) fuel [] hk
    rw [hback, List.nil_append] at hv
    have hval : g.valence fuel N =
        some ((List.range (k + 1)).map (fun i => (g.roundOf g.next)^[k + 1 - i] edge)) := by
      unfold valence
      simp [hrs, hc0, hedge, hv]
    have hlen : ((List.range (k + 1)).map
        (fun i => (g.roundOf g.next)^[k + 1 - i] edge)).length = k + 1 := by
      rw [List.length_map, List.length_range]
    have hoppm : ∀ m, 1 ≤ m → m ≤ k + 1 →
        ∃ o, g.opp ((g.roundOf g.next)^[m] edge) = some o := by
      intro m h1 h2
      by_cases c : m ≤ k
      · exact hopp m c
      · have : m = k + 1 := by omega
        rw [this, hback]
        exact ⟨e0, hot⟩
    have hstep : ∀ m, m ≤ k → (g.prev ((g.roundOf g.next)^[m + 1] edge)).bind g.opp =
        some ((g.roundOf g.next)^[m] edge) := by
      intro m hm
      obtain ⟨o, ho⟩ := hopp m hm
      obtain ⟨p, hp, hop⟩ := spoke_round hg hs ho
      rw [Function.iterate_succ_apply' (g.roundOf g.next) m edge, hp, Option.some_bind, hop]
    have hmem : ∀ x, x ∈ (List.range (k + 1)).map
        (fun i => (g.roundOf g.next)^[k + 1 - i] edge) →
        ∃ m, 1 ≤ m ∧ m ≤ k + 1 ∧ x = (g.roundOf g.next)^[m] edge := by
      intro x hx
      obtain ⟨i, hi, rfl⟩ := List.mem_map.1 hx
      exact ⟨k + 1 - i, by have := List.mem_range.1 hi; omega, by omega, rfl⟩
    have hnb : g.neighbors fuel N =
        some (((List.range (k + 1)).map
          (fun i => (g.roundOf g.next)^[k + 1 - i] edge)).map g.node) := by
      unfold neighbors
      have hlt : ∀ x, x ∈ (List.range (k + 1)).map
          (fun i => (g.roundOf g.next)^[k + 1 - i] edge) → x < g.mHalfEdge.length := by
        intro x hx
        obtain ⟨m, h1, h2, rfl⟩ := hmem x hx
        obtain ⟨o, ho⟩ := hoppm m h1 h2
        exact opp_lt ho
      simp only [Option.bind_eq_bind, hval, Option.some_bind, mapM_node _ hlt, hc0, if_true]
    refine ⟨_, edge, (g.roundOf g.next)^[1] edge, _, by simp [nodeEdge, hrs, hedge], hval, ?_,
      ?_, ?_, hstep 0 (by omega), ?_, ?_, hnb, rfl, by simp⟩
    · rw [getElem?_map_range _ (by omega)]
      exact congrArg some hback
    · intro i a b ha hb
      have hi : i + 1 < k + 1 := by
        have := (List.getElem?_eq_some.1 hb).1
        rw [hlen] at this
        exact this
      rw [getElem?_map_range _ (by omega)] at ha
      rw [getElem?_map_range _ hi] at hb
      have e1 : k + 1 - i = (k - i) + 1 := by omega
      have e2 : k + 1 - (i + 1) = k - i := by omega
      rw [← Option.some.inj ha, ← Option.some.inj hb, e1, e2]
      exact hstep (k - i) (by omega)
    · rw [List.getLast?_eq_getElem?, hlen, getElem?_map_range _ (by omega)]
      have : k + 1 - (k + 1 - 1) = 1 := by omega
      rw [this]
    · intro x hx
      obtain ⟨m, h1, h2, rfl⟩ := hmem x hx
      obtain ⟨o, ho⟩ := hoppm m h1 h2
      exact isBorder_false_of_opp ho
    · have key : ∀ a b, 1 ≤ a → a < b → b ≤ k + 1 →
          (g.roundOf g.next)^[a] edge ≠ (g.roundOf g.next)^[b] edge := by
        intro a b h1 hab hb heq
        have hp := iterate_peel (g.roundOf g.next) (fun x => ∃ o, g.opp x = some o)
          (fun x y hx hy h => round_inj hg.move_next hs hx hy h) edge (k + 1)
          (fun i hi => hopp i (by omega)) a b (by omega) hb heq
        exact hne (b - a) (by omega) (by omega) hp.symm
      refine List.Nodup.map_on ?_ (List.nodup_range (k + 1))
      intro i hi j hj hij
      have hi' := List.mem_range.1 hi
      have hj' := List.mem_range.1 hj
      rcases Nat.lt_trichotomy i j with h | h | h
      · exact absurd hij.symm (key (k + 1 - j) (k + 1 - i) (by omega) (by omega) (by omega))
      · exact h
      · exact absurd hij (key (k + 1 - i) (k + 1 - j) (by omega) (by omega) (by omega))

/-- Instance of `valence_closed` at the node 3 of the 3 × 3 grid. -/
theorem valence_closed_witness :
    NextCycle grid33 ∧ OppSym grid33 ∧ grid33.closed 24 3 = some true ∧
      ∃ v edge el nb, grid33.nodeEdge 3 = some edge ∧ grid33.valence 24 3 = some v ∧
        v[0]? = some edge ∧
        (∀ i a b, v[i]? = some a → v[i + 1]? = some b →
          (grid33.prev a).bind grid33.opp = some b) ∧
        v.getLast? = some el ∧ (grid33.prev el).bind grid33.opp = some edge ∧
        (∀ x, x ∈ v → grid33.isBorder x = false) ∧ v.Nodup ∧
        grid33.neighbors 24 3 = some nb ∧ nb = v.map grid33.node ∧ nb.length = v.length :=
  ⟨grid33_inv.1.1, grid33_inv.2, by decide!,
    valence_closed.1 grid33 24 3 grid33_inv.1.1 grid33_inv.2 (by decide!)⟩

/-! ## Termination of `nextNull` -/

/-- In a graph without border half-edge the loop of `nextNull` runs out of any fuel. -/
theorem walk_never {g : HEGraph} {m m' : Nat → Option Nat} (hm : Move g m m') (hs : OppSym g)
    (hnb : ∀ x, x < g.mHalfEdge.length → ∃ o, g.opp x = some o) :
    ∀ (fuel e t : Nat), e < g.mHalfEdge.length → g.walk m fuel (some e) t = none := by
  intro fuel
  induction fuel with
  | zero => intro e t _; rfl
  | succ n ih =>
    intro e t he
    obtain ⟨t', ht', hmt⟩ := hm.total e he
    obtain ⟨rt, hrt⟩ := he_of_lt ht'
    obtain ⟨o, ho⟩ := hnb t' ht'
    rw [walk_succ, hmt, Option.some_bind, hrt, Option.some_bind, ← opp_of_he hrt, ho]
    exact ih o t' (hs.valid ho)

theorem nextNull_never {g : HEGraph} (hg : NextCycle g) (hs : OppSym g)
    (hnb : ∀ x, x < g.mHalfEdge.length → ∃ o, g.opp x = some o) (fuel : Nat) (c : Bool)
    {e : Nat} (he : e < g.mHalfEdge.length) : g.nextNull fuel c e = none := by
  obtain ⟨n, hn, hmn⟩ := (hg.move c).total e he
  obtain ⟨rn, hrn⟩ := he_of_lt hn
  obtain ⟨o, ho⟩ := hnb n hn
  rw [nextNull_eq_walk, hmn, Option.some_bind, hrn, Option.some_bind, ← opp_of_he hrn, ho]
  exact walk_never (hg.move c) hs hnb fuel o n (hs.valid ho)

/-- C25. In a graph with the next-3-cycle and opp-symmetry invariants, for a border
half-edge `e` and either sense, the loop of `e.nextNull(clockwise)` stops after a number
`k` of iterations that is at most the number of half-edges: it returns with every fuel of
at least `k`.  In the graph `close(edge(0))` builds from the seeded triangle no half-edge
is border and the loop started at any half-edge, in either sense, never stops. -/
theorem nextNull_terminates :
    (∀ (g : HEGraph) (c : Bool) (e : Nat), NextCycle g → OppSym g → g.isBorder e = true →
      ∃ r k, k ≤ g.mHalfEdge.length ∧ ∀ fuel, k ≤ fuel → g.nextNull fuel c e = some r) ∧
    (seeded = some tri0 ∧ tri0.edge 0 = some 0 ∧ tri0.close 3 0 = some tri2 ∧
      tri2.hasBorder = false ∧
      ∀ (fuel : Nat) (c : Bool) (e : Nat), e < tri2.mHalfEdge.length →
        tri2.isBorder e = false ∧ tri2.nextNull fuel c e = none) := by
  refine ⟨fun g c e hg hs hb => ?_, rfl, by decide, by decide!, by decide!,
    fun fuel c e he => ?_⟩
  · obtain ⟨hlt, ho⟩ := isBorder_iff.1 hb
    obtain ⟨t0, ht0, h0⟩ := (hg.move c).total e hlt
    obtain ⟨k, hk, hstop, hne⟩ := exists_stop (hg.move c) hs ho h0 ht0
    obtain ⟨rt, hrt⟩ := he_of_lt ht0
    refine ⟨(g.roundOf (g.mv c))^[k] t0, k, hk, fun fuel hf => ?_⟩
    rw [nextNull_eq_walk, h0, Option.some_bind, hrt, Option.some_bind, ← opp_of_he hrt]
    exact walk_iter (hg.move c) hs k fuel t0 ht0 hne hstop hf
  · have hnb : ∀ x, x < tri2.mHalfEdge.length → ∃ o, tri2.opp x = some o := by
      intro x hx
      have hx6 : x < 6 := hx
      interval_cases x <;> exact ⟨_, rfl⟩
    obtain ⟨o, ho⟩ := hnb e he
    exact ⟨isBorder_false_of_opp ho,
      nextNull_never (by decide!) (by decide!) hnb fuel c he⟩

/-- Instance of `nextNull_terminates` at the half-edge 0 of the 3 × 3 grid. -/
theorem nextNull_terminates_witness :
    NextCycle grid33 ∧ OppSym grid33 ∧ grid33.isBorder 0 = true ∧
      ∃ r k, k ≤ grid33.mHalfEdge.length ∧
        ∀ fuel, k ≤ fuel → grid33.nextNull fuel true 0 = some r :=
  ⟨grid33_inv.1.1, grid33_inv.2, by decide!,
    nextNull_terminates.1 grid33 true 0 grid33_inv.1.1 grid33_inv.2 (by decide!)⟩

/-! ## Sealed pairs are geometric partners -/

theorem node_of_he {g : HEGraph} {x : Nat} {r : HalfEdge} (h : g.he x = some r) :
    g.node x = r.node := by
  simp [node, h]

/-- The test `isOpp` in terms of the links: both half-edges and their `prev()` exist,
`a.node = b.prev().node` and `a.prev().node = b.node`. -/
theorem isOpp_iff {g : HEGraph} {a b : Nat} :
    g.isOpp a b = some true ↔
      a < g.mHalfEdge.length ∧ b < g.mHalfEdge.length ∧
        ∃ pa pb, g.prev a = some pa ∧ g.prev b = some pb ∧ pa < g.mHalfEdge.length ∧
          pb < g.mHalfEdge.length ∧ g.node a = g.node pb ∧ g.node pa = g.node b := by
  constructor
  · intro h
    obtain ⟨ra, rb, pb, rpb, pa, rpa, hra, hrb, hpb, hrpb, hpa, hrpa, e1, e2⟩ := isOpp_true h
    exact ⟨he_lt hra, he_lt hrb, pa, pb, hpa, hpb, he_lt hrpa, he_lt hrpb,
      by rw [node_of_he hra, node_of_he hrpb, e1], by rw [node_of_he hrpa, node_of_he hrb, e2]⟩
  · rintro ⟨ha, hb, pa, pb, hpa, hpb, hla, hlb, e1, e2⟩
    obtain ⟨ra, hra⟩ := he_of_lt ha
    obtain ⟨rb, hrb⟩ := he_of_lt hb
    obtain ⟨rpa, hrpa⟩ := he_of_lt hla
    obtain ⟨rpb, hrpb⟩ := he_of_lt hlb
    rw [node_of_he hra, node_of_he hrpb] at e1
    rw [node_of_he hrpa, node_of_he hrb] at e2
    simp [isOpp, ccwFrom, cwFrom, hra, hrb, hpa, hpb, hrpa, hrpb, e1, e2]

/-- Sealed pairs stay geometric partners when the half-edges `x` with `S x` keep their
node and the node of their `prev()`, and every sealed pair of the new graph is either an
old pair of such half-edges or a geometric pair. -/
theorem oppGeo_transfer {g g' : HEGraph} (S : Nat → Prop) (ho : OppGeo g)
    (hlen : g.mHalfEdge.length ≤ g'.mHalfEdge.length)
    (hN : ∀ x, S x → x < g.mHalfEdge.length → g'.node x = g.node x)
    (hP : ∀ x p, S x → g.prev x = some p → p < g.mHalfEdge.length →
      ∃ p', g'.prev x = some p' ∧ p' < g'.mHalfEdge.length ∧ g'.node p' = g.node p)
    (hO : ∀ a b, g'.opp a = some b →
      (g.opp a = some b ∧ S a ∧ S b) ∨ g'.isOpp a b = some true) : OppGeo g' := by
  intro a b hab
  rcases hO a b hab with ⟨h1, sa, sb⟩ | h
  · obtain ⟨ha, hb, pa, pb, hpa, hpb, hla, hlb, e1, e2⟩ := isOpp_iff.1 (ho a b h1)
    obtain ⟨pa', hpa', hla', na⟩ := hP a pa sa hpa hla
    obtain ⟨pb', hpb', hlb', nb⟩ := hP b pb sb hpb hlb
    exact isOpp_iff.2 ⟨by omega, by omega, pa', pb', hpa', hpb', hla', hlb',
      by rw [hN a sa ha, nb, e1], by rw [na, hN b sb hb, e2]⟩
  · exact h

theorem TriExt.prev_old {g g' : HEGraph} (x : TriExt g g') {i p : Nat}
    (h : g.prev i = some p) : g'.prev i = some p := by
  obtain ⟨a, h1, h2⟩ := prev_some h
  unfold prev
  rw [x.next_old i (next_lt h1), h1, Option.some_bind, x.next_old a (next_lt h2), h2]

theorem TriExt.oppGeo {g g' : HEGraph} (x : TriExt g g') (ho : OppGeo g)
    (hO : ∀ a b, g'.opp a = some b → g.opp a = some b ∨ g'.isOpp a b = some true) :
    OppGeo g' := by
  refine oppGeo_transfer (fun _ => True) ho (by rw [x.len]; omega)
    (fun i _ hi => x.node_old i hi)
    (fun i p _ hp hlt => ⟨p, x.prev_old hp, by rw [x.len]; omega, x.node_old p hlt⟩)
    (fun a b hab => ?_)
  rcases hO a b hab with h | h
  · exact Or.inl ⟨h, trivial, trivial⟩
  · exact Or.inr h

/-- In an extension by a triangle, an old half-edge `h` and the new half-edge at offset
`j` are geometric partners once the nodes match. -/
theorem TriExt.isOpp_new {g g' : HEGraph} (x : TriExt g g') {h p q pq : Nat}
    (hp : g.prev h = some p) (hlt : p < g.mHalfEdge.length)
    (hq : g.mHalfEdge.length ≤ q) (hq' : q < g.mHalfEdge.length + 3)
    (hpq : g'.prev q = some pq) (hpq' : pq < g.mHalfEdge.length + 3)
    (e1 : g.node h = g'.node pq) (e2 : g.node p = g'.node q) :
    g'.isOpp h q = some true ∧ g'.isOpp q h = some true := by
  obtain ⟨a, h1, -⟩ := prev_some hp
  have hh := next_lt h1
  have hp' := x.prev_old hp
  constructor
  · exact isOpp_iff.2 ⟨by rw [x.len]; omega, by rw [x.len]; omega, p, pq, hp', hpq,
      by rw [x.len]; omega, by rw [x.len]; omega, by rw [x.node_old h hh, e1],
      by rw [x.node_old p hlt, e2]⟩
  · exact isOpp_iff.2 ⟨by rw [x.len]; omega, by rw [x.len]; omega, pq, p, hpq, hp',
      by rw [x.len]; omega, by rw [x.len]; omega, by rw [x.node_old p hlt, e2],
      by rw [x.node_old h hh, e1]⟩

theorem seedNodes_opp {g g' : HEGraph} (h : g.seedNodes = some g') (i : Nat) :
    g'.opp i = g.opp i := by
  obtain ⟨na, nb, nc, -, -, -, rfl⟩ := seedNodes_some h
  simp only [opp, he]
  rw [opp_app3 _ _ _ _ g.mHalfEdge.length i rfl]
  by_cases c : i < g.mHalfEdge.length
  · rw [if_pos c]
  · have c2 : g.mHalfEdge[i]? = none := List.getElem?_eq_none (by omega)
    rw [if_neg c, c2]
    split_ifs <;> rfl

theorem seedNodes_oppGeo {g g' : HEGraph} (ho : OppGeo g) (h : g.seedNodes = some g') :
    OppGeo g' :=
  (seedNodes_triExt h).oppGeo ho (fun a b hab => Or.inl (by rw [← seedNodes_opp h a]; exact hab))

theorem addAt_nodes {g g' : HEGraph} {v e : Nat} (h : g.addAt v e = some g') :
    ∃ e1 e2, g.next e = some e1 ∧ g.next e1 = some e2 ∧ e2 < g.mHalfEdge.length ∧
      g'.node g.mHalfEdge.length = g.node e ∧
      g'.node (g.mHalfEdge.length + 1) = g.node e2 ∧
      g'.node (g.mHalfEdge.length + 2) = some g.mNode.length := by
  obtain ⟨re, e1, r1, e2, r2, k0, k1, k2, k3, k4, rfl⟩ := addAt_some h
  refine ⟨e1, e2, next_eq_some.2 ⟨re, k0, k1⟩, next_eq_some.2 ⟨r1, k2, k3⟩, he_lt k4, ?_, ?_, ?_⟩
  · simp only [node, he]
    rw [node_app3 _ _ _ _ g.mHalfEdge.length _ (by simp), if_neg (by omega), if_pos rfl]
    rw [show g.mHalfEdge[e]? = some re from k0]
    rfl
  · simp only [node, he]
    rw [node_app3 _ _ _ _ g.mHalfEdge.length _ (by simp), if_neg (by omega), if_neg (by omega),
      if_pos rfl]
    rw [show g.mHalfEdge[e2]? = some r2 from k4]
    rfl
  · simp only [node, he]
    rw [node_app3 _ _ _ _ g.mHalfEdge.length _ (by simp), if_neg (by omega), if_neg (by omega),
      if_neg (by omega), if_pos rfl]

theorem addAt_oppGeo {g g' : HEGraph} {v e : Nat} (ho : OppGeo g)
    (h : g.addAt v e = some g') : OppGeo g' := by
  have x := addAt_triExt h
  obtain ⟨e1, e2, h1, h2, hlt2, n0, n1, -⟩ := addAt_nodes h
  have hp : g.prev e = some e2 := by rw [prev, h1, Option.some_bind, h2]
  obtain ⟨i1, i2⟩ := x.isOpp_new hp hlt2 (q := g.mHalfEdge.length + 1) (by omega) (by omega)
    (prev_new x).2.1 (by omega) n0.symm n1.symm
  refine x.oppGeo ho (fun a b hab => ?_)
  rw [addAt_opp h] at hab
  split_ifs at hab with c0 c1
  · rw [c0, ← Option.some.inj hab]
    exact Or.inr i1
  · rw [c1, ← Option.some.inj hab]
    exact Or.inr i2
  · exact Or.inl hab

theorem closeN_oppGeo {g g' : HEGraph} {e n : Nat} (ho : OppGeo g)
    (hb : g.isBorder e = true) (h : g.closeN e n = some g') : OppGeo g' := by
  have x := closeN_triExt h
  obtain ⟨re, p, rp, rn, -, hp, hrp, hrn, -⟩ := closeN_some h
  obtain ⟨g'', h', -, -, n0, n1, -, -⟩ :=
    closeN_border hb hp hrp (List.getElem?_eq_some.1 hrn).1
  have : g'' = g' := Option.some.inj (h'.symm.trans h)
  subst this
  obtain ⟨i1, i2⟩ := x.isOpp_new hp (he_lt hrp) (q := g.mHalfEdge.length + 1) (by omega)
    (by omega) (prev_new x).2.1 (by omega) n0.symm n1.symm
  refine x.oppGeo ho (fun a b hab => ?_)
  rw [closeN_opp h] at hab
  split_ifs at hab with c0 c1
  · rw [c0, ← Option.some.inj hab]
    exact Or.inr i1
  · rw [c1, ← Option.some.inj hab]
    exact Or.inr i2
  · exact Or.inl hab

theorem close2_newnodes {g g' : HEGraph} {ha hb : Nat} (h : g.close2 ha hb = some g') :
    ∃ pa pb, g.prev ha = some pa ∧ g.prev hb = some pb ∧ pa < g.mHalfEdge.length ∧
      pb < g.mHalfEdge.length ∧ g'.node g.mHalfEdge.length = g.node pb ∧
      g'.node (g.mHalfEdge.length + 1) = g.node pa ∧
      g'.node (g.mHalfEdge.length + 2) = g.node hb := by
  obtain ⟨ra, rb, pb, rpb, pa, rpa, rb1, k0, k1, k2, k3, k4, k5, -, rfl⟩ := close2_some h
  refine ⟨pa, pb, k4, k2, he_lt k5, he_lt k3, ?_, ?_, ?_⟩
  · rw [node_of_he k3]
    simp only [node, he]
    rw [node_app3 _ _ _ _ g.mHalfEdge.length _ (by simp), if_neg (by omega), if_pos rfl]
  · rw [node_of_he k5]
    simp only [node, he]
    rw [node_app3 _ _ _ _ g.mHalfEdge.length _ (by simp), if_neg (by omega), if_neg (by omega),
      if_pos rfl]
  · rw [node_of_he k1]
    simp only [node, he]
    rw [node_app3 _ _ _ _ g.mHalfEdge.length _ (by simp), if_neg (by omega), if_neg (by omega),
      if_neg (by omega), if_pos rfl]

theorem ccwFrom_true {g : HEGraph} {a b : Nat} (h : g.ccwFrom a b = some true) :
    ∃ pb, g.prev b = some pb ∧ g.node a = g.node pb := by
  unfold ccwFrom at h
  simp only [Option.bind_eq_bind, Option.bind_eq_some, Option.pure_def, Option.some.injEq,
    decide_eq_true_eq] at h
  obtain ⟨ra, hra, pb, hpb, rpb, hrpb, e1⟩ := h
  exact ⟨pb, hpb, by rw [node_of_he hra, node_of_he hrpb, e1]⟩

theorem close2_oppGeo {g g' : HEGraph} {ha hb : Nat} (ho : OppGeo g)
    (hc : g.ccwFrom ha hb = some true) (h : g.close2 ha hb = some g') : OppGeo g' := by
  have x := close2_triExt h
  obtain ⟨pa, pb, hpa, hpb, hla, hlb, n0, n1, n2⟩ := close2_newnodes h
  obtain ⟨pb', hpb', hcc⟩ := ccwFrom_true hc
  have : pb' = pb := Option.some.inj (hpb'.symm.trans hpb)
  rw [this] at hcc
  obtain ⟨i1, i2⟩ := x.isOpp_new hpb hlb (q := g.mHalfEdge.length) (by omega) (by omega)
    (prev_new x).2.2 (by omega) n2.symm n0.symm
  obtain ⟨i3, i4⟩ := x.isOpp_new hpa hla (q := g.mHalfEdge.length + 1) (by omega) (by omega)
    (prev_new x).2.1 (by omega) (hcc.trans n0.symm) n1.symm
  refine x.oppGeo ho (fun a b hab => ?_)
  rw [close2_opp h] at hab
  split_ifs at hab with c0 c1 c2 c3
  · rw [c0, ← Option.some.inj hab]
    exact Or.inr i1
  · rw [c1, ← Option.some.inj hab]
    exact Or.inr i2
  · rw [c2, ← Option.some.inj hab]
    exact Or.inr i3
  · rw [c3, ← Option.some.inj hab]
    exact Or.inr i4
  · exact Or.inl hab

theorem nextNull_false_node {g : HEGraph} (ho : OppGeo g) {fuel e r : Nat}
    (h : g.nextNull fuel false e = some r) :
    ∃ p, g.prev e = some p ∧ p < g.mHalfEdge.length ∧ r < g.mHalfEdge.length ∧
      g.node r = g.node p := by
  rw [nextNull_eq_walk] at h
  obtain ⟨n, hn, h⟩ := Option.bind_eq_some.1 h
  obtain ⟨rn, hrn, h⟩ := Option.bind_eq_some.1 h
  rw [← opp_of_he hrn] at h
  obtain ⟨rr, hrr, e1⟩ := walk_prev_node ho fuel n r h rn hrn
  exact ⟨n, hn, he_lt hrn, he_lt hrr, by rw [node_of_he hrr, node_of_he hrn, e1]⟩

theorem nextNull_true_node {g : HEGraph} (hg : NextCycle g) (ho : OppGeo g) {fuel e r : Nat}
    (h : g.nextNull fuel true e = some r) :
    ∃ p, g.prev r = some p ∧ p < g.mHalfEdge.length ∧ r < g.mHalfEdge.length ∧
      g.node p = g.node e := by
  have hb := nextNull_border h
  rw [nextNull_eq_walk] at h
  obtain ⟨n, hn, h⟩ := Option.bind_eq_some.1 h
  obtain ⟨rn, hrn, h⟩ := Option.bind_eq_some.1 h
  rw [← opp_of_he hrn] at h
  have hn' : g.next e = some n := hn
  obtain ⟨re, hre⟩ := he_of_lt (next_lt hn')
  obtain ⟨q, rq, hq, hrq, e1⟩ := walk_next_node hg ho fuel n r h e re (hg.prev_next hn') hre
  exact ⟨q, hq, he_lt hrq, (isBorder_iff.1 hb).1, by rw [node_of_he hrq, node_of_he hre, e1]⟩

theorem close_newnodes {g g' : HEGraph} {fuel e tb tc : Nat} (h : g.close fuel e = some g')
    (hb : g.nextNull fuel false e = some tb) (hc : g.nextNull fuel true e = some tc) :
    g'.node g.mHalfEdge.length = g.node tb ∧ g'.node (g.mHalfEdge.length + 1) = g.node tc ∧
      g'.node (g.mHalfEdge.length + 2) = g.node e := by
  obtain ⟨tb', tc', re, rtb, rtc, rtb1, rtc1, n0, n1, k2, k3, k4, -, -, rfl⟩ := close_some h
  have e1 : tb' = tb := Option.some.inj (n0.symm.trans hb)
  have e2 : tc' = tc := Option.some.inj (n1.symm.trans hc)
  subst e1 e2
  refine ⟨?_, ?_, ?_⟩
  · rw [node_of_he k3]
    simp only [node, he]
    rw [node_app3 _ _ _ _ g.mHalfEdge.length _ (by simp), if_neg (by omega), if_pos rfl]
  · rw [node_of_he k4]
    simp only [node, he]
    rw [node_app3 _ _ _ _ g.mHalfEdge.length _ (by simp), if_neg (by omega), if_neg (by omega),
      if_pos rfl]
  · rw [node_of_he k2]
    simp only [node, he]
    rw [node_app3 _ _ _ _ g.mHalfEdge.length _ (by simp), if_neg (by omega), if_neg (by omega),
      if_neg (by omega), if_pos rfl]

theorem triangle_true {g : HEGraph} {fuel e : Nat} (h : g.triangle fuel e = some true) :
    ∃ tb tc, g.nextNull fuel false e = some tb ∧ g.nextNull fuel true e = some tc ∧
      g.nextNull fuel false tb = some tc := by
  unfold triangle at h
  simp only [Option.bind_eq_bind, Option.bind_eq_some, Option.pure_def, Option.some.injEq,
    decide_eq_true_eq] at h
  obtain ⟨eb, h1, x, h2, y, h3, hxy⟩ := h
  exact ⟨eb, x, h1, h2, by rw [h3, hxy]⟩

theorem close_oppGeo {g g' : HEGraph} {fuel e : Nat} (hg : NextCycle g) (ho : OppGeo g)
    (ht : g.triangle fuel e = some true) (h : g.close fuel e = some g') : OppGeo g' := by
  have x := close_triExt h
  obtain ⟨tb, tc, hb, hc, hbc⟩ := triangle_true ht
  obtain ⟨n0, n1, n2⟩ := close_newnodes h hb hc
  obtain ⟨pe, hpe, hlpe, hltb, e1⟩ := nextNull_false_node ho hb
  obtain ⟨ptb, hptb, hlptb, hltc, e2⟩ := nextNull_false_node ho hbc
  obtain ⟨ptc, hptc, hlptc, -, e3⟩ := nextNull_true_node hg ho hc
  obtain ⟨i1, i2⟩ := x.isOpp_new hpe hlpe (q := g.mHalfEdge.length) (by omega) (by omega)
    (prev_new x).2.2 (by omega) n2.symm (e1.symm.trans n0.symm)
  obtain ⟨i3, i4⟩ := x.isOpp_new hptb hlptb (q := g.mHalfEdge.length + 1) (by omega) (by omega)
    (prev_new x).2.1 (by omega) n0.symm (e2.symm.trans n1.symm)
  obtain ⟨i5, i6⟩ := x.isOpp_new hptc hlptc (q := g.mHalfEdge.length + 2) (by omega) (by omega)
    (prev_new x).1 (by omega) n1.symm (e3.trans n2.symm)
  refine x.oppGeo ho (fun a b hab => ?_)
  obtain ⟨tb', tc', hb', hc', hopp⟩ := close_opp h
  have q1 : tb' = tb := Option.some.inj (hb'.symm.trans hb)
  have q2 : tc' = tc := Option.some.inj (hc'.symm.trans hc)
  subst q1 q2
  rw [hopp] at hab
  split_ifs at hab with c0 c1 c2 c3 c4 c5
  · rw [c0, ← Option.some.inj hab]
    exact Or.inr i5
  · rw [c1, ← Option.some.inj hab]
    exact Or.inr i6
  · rw [c2, ← Option.some.inj hab]
    exact Or.inr i3
  · rw [c3, ← Option.some.inj hab]
    exact Or.inr i4
  · rw [c4, ← Option.some.inj hab]
    exact Or.inr i1
  · rw [c5, ← Option.some.inj hab]
    exact Or.inr i2
  · exact Or.inl hab

theorem OppSym.oppLive {g : HEGraph} (hs : OppSym g) : OppLive g := by
  intro a b hab hn
  have := (hs a b hab).1
  rw [hn] at this
  cases this

theorem opp_lt_of_ne {g : HEGraph} {b : Nat} (h : g.opp b ≠ none) : b < g.mHalfEdge.length := by
  by_contra c
  exact h (opp_none_of_le (by omega))

theorem seedNodes_oppLive {g g' : HEGraph} (hl : OppLive g) (h : g.seedNodes = some g') :
    OppLive g' := by
  intro a b hab
  rw [seedNodes_opp h] at hab ⊢
  exact hl a b hab

theorem addAt_oppLive {g g' : HEGraph} {v e : Nat} (hl : OppLive g)
    (h : g.addAt v e = some g') : OppLive g' := by
  obtain ⟨re, -, -, -, -, h0, -⟩ := addAt_some h
  have le := he_lt h0
  intro a b hab
  rw [addAt_opp h] at hab ⊢
  split_ifs at hab with c0 c1
  · cases hab
    split_ifs <;> first | exact Option.some_ne_none _ | (exfalso; omega)
  · cases hab
    split_ifs <;> first | exact Option.some_ne_none _ | (exfalso; omega)
  · have := hl a b hab
    split_ifs <;> first | exact Option.some_ne_none _ | exact this

theorem closeN_oppLive {g g' : HEGraph} {e n : Nat} (hl : OppLive g)
    (h : g.closeN e n = some g') : OppLive g' := by
  obtain ⟨re, -, -, -, h0, -⟩ := closeN_some h
  have le := he_lt h0
  intro a b hab
  rw [closeN_opp h] at hab ⊢
  split_ifs at hab with c0 c1
  · cases hab
    split_ifs <;> first | exact Option.some_ne_none _ | (exfalso; omega)
  · cases hab
    split_ifs <;> first | exact Option.some_ne_none _ | (exfalso; omega)
  · have := hl a b hab
    split_ifs <;> first | exact Option.some_ne_none _ | exact this

theorem close2_oppLive {g g' : HEGraph} {ha hb : Nat} (hl : OppLive g)
    (h : g.close2 ha hb = some g') : OppLive g' := by
  obtain ⟨ra, rb, -, -, -, -, -, h0, h1, -⟩ := close2_some h
  have la := he_lt h0
  have lb := he_lt h1
  intro a b hab
  rw [close2_opp h] at hab ⊢
  split_ifs at hab with c0 c1 c2 c3
  · cases hab
    split_ifs <;> first | exact Option.some_ne_none _ | (exfalso; omega)
  · cases hab
    split_ifs <;> first | exact Option.some_ne_none _ | (exfalso; omega)
  · cases hab
    split_ifs <;> first | exact Option.some_ne_none _ | (exfalso; omega)
  · cases hab
    split_ifs <;> first | exact Option.some_ne_none _ | (exfalso; omega)
  · have := hl a b hab
    split_ifs <;> first | exact Option.some_ne_none _ | exact this

theorem close_oppLive {g g' : HEGraph} {fuel e : Nat} (hl : OppLive g)
    (h : g.close fuel e = some g') : OppLive g' := by
  obtain ⟨tb, tc, re, rtb, rtc, -, -, n0, n1, h2, h3, h4, -⟩ := close_some h
  obtain ⟨tb', tc', n0', n1', t⟩ := close_opp h
  rw [n0] at n0'
  rw [n1] at n1'
  cases n0'
  cases n1'
  have le := he_lt h2
  have lb := he_lt h3
  have lc := he_lt h4
  intro a b hab
  rw [t] at hab ⊢
  split_ifs at hab with c0 c1 c2 c3 c4 c5
  · cases hab
    split_ifs <;> first | exact Option.some_ne_none _ | (exfalso; omega)
  · cases hab
    split_ifs <;> first | exact Option.some_ne_none _ | (exfalso; omega)
  · cases hab
    split_ifs <;> first | exact Option.some_ne_none _ | (exfalso; omega)
  · cases hab
    split_ifs <;> first | exact Option.some_ne_none _ | (exfalso; omega)
  · cases hab
    split_ifs <;> first | exact Option.some_ne_none _ | (exfalso; omega)
  · cases hab
    split_ifs <;> first | exact Option.some_ne_none _ | (exfalso; omega)
  · have := hl a b hab
    split_ifs <;> first | exact Option.some_ne_none _ | exact this

theorem insert_oppLive {g g' : HEGraph} {pa e : Nat} (hg : Tri g) (hl : OppLive g)
    (h : g.insert pa e = some g') : OppLive g' := by
  have hlt := insert_lt h
  obtain ⟨re, r1, r2, e1, e2, F, rF, h0, h1, h2, h3, h4, h5, f0, -, -, hrF⟩ := hg.1.at hlt
  have n0 : g.next e = some e1 := next_eq_some.2 ⟨_, h0, h1⟩
  have hne : e1 ≠ e := fun hh => hg.2 e hlt (hh ▸ n0)
  obtain ⟨-, -, -, t4⟩ := insert_tables h0 h1 h2 hne f0 hrF h
  have old : ∀ a b, g.opp a = some b → g'.opp b ≠ none := by
    intro a b hab
    have k := hl a b hab
    rw [t4, if_pos (opp_lt_of_ne k)]
    exact k
  intro a b hab
  rw [t4] at hab
  split_ifs at hab with c0 c1 c2 c3
  · exact old a b hab
  · cases hab
    rw [t4]
    split_ifs <;> first | exact Option.some_ne_none _ | (exfalso; omega)
  · cases hab
    rw [t4]
    split_ifs <;> first | exact Option.some_ne_none _ | (exfalso; omega)
  · rw [← opp_of_he h0] at hab
    exact old e b hab

theorem built_oppLive {g : HEGraph} (hb : Built g) : OppLive g := by
  induction hb with
  | empty =>
    intro a b hab
    simp [opp, he, HEGraph.empty] at hab
  | addNode v _ ih => exact ih
  | @add g g' v hb h ih =>
    rcases add_cases h with ⟨-, h'⟩ | ⟨-, h'⟩ | ⟨-, e, -, h'⟩
    · rw [h']
      exact ih
    · exact seedNodes_oppLive (g := g.addNode v) ih h'
    · exact addAt_oppLive ih h'
  | @seedNodes g g' hb h ih => exact seedNodes_oppLive ih h
  | @addAt g g' v e hb h ih => exact addAt_oppLive ih h
  | @insert g g' v e hb h ih => exact insert_oppLive (built_inv hb).1 ih h
  | @close2 g g' ha hb' hb h ih => exact close2_oppLive ih h
  | @closeN g g' e n hb h ih => exact closeN_oppLive ih h
  | @close g g' fuel e hb h ih => exact close_oppLive ih h

theorem insert_oppGeo {g g' : HEGraph} {pa e : Nat} (hg : Tri g) (hs : OppLive g)
    (ho : OppGeo g) (hb : g.isBorder e = true) (h : g.insert pa e = some g') : OppGeo g' := by
  have hlt := insert_lt h
  obtain ⟨re, r1, r2, e1, e2, F, rF, h0, h1, h2, h3, h4, h5, f0, -, -, hrF⟩ := hg.1.at hlt
  have n0 : g.next e = some e1 := next_eq_some.2 ⟨_, h0, h1⟩
  have n1 : g.next e1 = some e2 := next_eq_some.2 ⟨_, h2, h3⟩
  have n2 : g.next e2 = some e := next_eq_some.2 ⟨_, h4, h5⟩
  have l1 := he_lt h2
  have l2 := he_lt h4
  have hne : e1 ≠ e := fun hh => hg.2 e hlt (hh ▸ n0)
  have hne2 : e2 ≠ e1 := fun hh => hg.2 e1 l1 (hh ▸ n1)
  have hne3 : e2 ≠ e := fun hh => hg.2 e2 l2 (by rw [n2, hh])
  obtain ⟨-, hlen, -, -⟩ := insert_he h0 h1 h2 hne f0 hrF h
  obtain ⟨t1, -, t3, t4⟩ := insert_tables h0 h1 h2 hne f0 hrF h
  have hoe : g.opp e = none := (isBorder_iff.1 hb).2
  have a0 : g.mHalfEdge.length ≠ e := by omega
  have a1 : g.mHalfEdge.length ≠ e1 := by omega
  have a2 : g.mHalfEdge.length + 1 ≠ e := by omega
  have a3 : g.mHalfEdge.length + 1 ≠ e1 := by omega
  have a4 : g.mHalfEdge.length + 2 ≠ e := by omega
  have a5 : g.mHalfEdge.length + 2 ≠ e1 := by omega
  have nxe : g'.next e = some g.mHalfEdge.length := by rw [t1, if_pos rfl]
  have nx1 : g'.next e1 = some (g.mHalfEdge.length + 1) := by rw [t1, if_neg hne, if_pos rfl]
  have nxold : ∀ x, x ≠ e → x ≠ e1 → x < g.mHalfEdge.length → g'.next x = g.next x := by
    intro x c0 c1 c2
    rw [t1, if_neg c0, if_neg c1, if_pos c2]
  have nxs : g'.next g.mHalfEdge.length = some e2 := by
    rw [t1, if_neg a0, if_neg a1, if_neg (by omega), if_pos rfl, h3]
  have nxs1 : g'.next (g.mHalfEdge.length + 1) = some (g.mHalfEdge.length + 2) := by
    rw [t1, if_neg a2, if_neg a3, if_neg (by omega), if_neg (by omega), if_pos rfl]
  have nxs2 : g'.next (g.mHalfEdge.length + 2) = some e1 := by
    rw [t1, if_neg a4, if_neg a5, if_neg (by omega), if_neg (by omega), if_neg (by omega),
      if_pos rfl]
  have nde : g'.node e = some g.mNode.length := by rw [t3, if_pos rfl]
  have nold : ∀ x, x ≠ e → x < g.mHalfEdge.length → g'.node x = g.node x := by
    intro x c0 c2
    rw [t3, if_neg c0, if_pos c2]
  have nds : g'.node g.mHalfEdge.length = g.node e1 := by
    rw [t3, if_neg a0, if_neg (by omega), if_pos rfl, node_of_he h2]
  have nds1 : g'.node (g.mHalfEdge.length + 1) = some g.mNode.length := by
    rw [t3, if_neg a2, if_neg (by omega), if_neg (by omega), if_pos rfl]
  have nds2 : g'.node (g.mHalfEdge.length + 2) = g.node e := by
    rw [t3, if_neg a4, if_neg (by omega), if_neg (by omega), if_neg (by omega), if_pos rfl,
      node_of_he h0]
  have pe1 : g'.prev e1 = some (g.mHalfEdge.length + 2) := by
    rw [prev, nx1, Option.some_bind, nxs1]
  have pe2 : g'.prev e2 = some g.mHalfEdge.length := by
    rw [prev, nxold e2 hne3 hne2 l2, n2, Option.some_bind, nxe]
  have ps : g'.prev g.mHalfEdge.length = some e := by
    rw [prev, nxs, Option.some_bind, nxold e2 hne3 hne2 l2, n2]
  have ps1 : g'.prev (g.mHalfEdge.length + 1) = some e1 := by
    rw [prev, nxs1, Option.some_bind, nxs2]
  have i1 : g'.isOpp g.mHalfEdge.length (g.mHalfEdge.length + 1) = some true :=
    isOpp_iff.2 ⟨by omega, by omega, e, e1, ps, ps1, by omega, by omega,
      by rw [nds, nold e1 hne l1], by rw [nde, nds1]⟩
  have i2 : g'.isOpp (g.mHalfEdge.length + 1) g.mHalfEdge.length = some true :=
    isOpp_iff.2 ⟨by omega, by omega, e1, e, ps1, ps, by omega, by omega,
      by rw [nds1, nde], by rw [nold e1 hne l1, nds]⟩
  refine oppGeo_transfer (fun x => x ≠ e) ho (by omega) nold ?_ ?_
  · intro x p sx hp hpl
    obtain ⟨a, hxa, hap⟩ := prev_some hp
    have lx := next_lt hxa
    have la := next_lt hap
    by_cases c1 : x = e1
    · subst c1
      have : a = e2 := Option.some.inj (hxa.symm.trans n1)
      subst this
      have : p = e := Option.some.inj (hap.symm.trans n2)
      subst this
      exact ⟨_, pe1, by omega, nds2⟩
    · by_cases c2 : x = e2
      · subst c2
        have : a = e := Option.some.inj (hxa.symm.trans n2)
        subst this
        have : p = e1 := Option.some.inj (hap.symm.trans n0)
        subst this
        exact ⟨_, pe2, by omega, nds⟩
      · have pe : g.prev e = some e2 := by rw [prev, n0, Option.some_bind, n1]
        have pe1' : g.prev e1 = some e := hg.1.prev_next n0
        have pe2' : g.prev e2 = some e1 := hg.1.prev_next n1
        have ae : a ≠ e := fun hh =>
          c2 (Option.some.inj ((hg.1.prev_next (hh ▸ hxa)).symm.trans pe))
        have ae1 : a ≠ e1 := fun hh =>
          sx (Option.some.inj ((hg.1.prev_next (hh ▸ hxa)).symm.trans pe1'))
        have ppe : p ≠ e := by
          intro hh
          have : a = e2 := Option.some.inj ((hg.1.prev_next (hh ▸ hap)).symm.trans pe)
          exact c1 (Option.some.inj ((hg.1.prev_next (this ▸ hxa)).symm.trans pe2'))
        refine ⟨p, ?_, by omega, nold p ppe hpl⟩
        rw [prev, nxold x sx c1 lx, hxa, Option.some_bind, nxold a ae ae1 la, hap]
  · intro a b hab
    rw [t4] at hab
    split_ifs at hab with c0 c1 c2 c3
    · refine Or.inl ⟨hab, fun hh => ?_, fun hh => ?_⟩
      · rw [hh, hoe] at hab
        cases hab
      · exact hs a b hab (hh ▸ hoe)
    · rw [c1, ← Option.some.inj hab]
      exact Or.inr i1
    · rw [c2, ← Option.some.inj hab]
      exact Or.inr i2
    · rw [← opp_of_he h0, hoe] at hab
      cases hab

/-- Remark: the preservation by `insert` and `close(e)` uses the shape of the graph.  In
`oneWay` every sealed pair is a geometric pair, the faces are triangles and the half-edge
2 is border, but the half-edge 4 names 2 as its opposite; `insert(v, edge(2))` moves the
half-edge 2 to the new node and the pair `(4, 2)` is no longer geometric.  In `lasso` no
pair is sealed, `triangle()` holds at the border half-edge 0 with `nextNull` results 1 and
2, and after `close(edge(0))` the half-edge 1 is sealed to the new half-edge 6 without
being its geometric partner.  Neither graph is returned by a sequence of construction
calls: in `oneWay` an `opp` link ends at a border half-edge, in `lasso` the `next` links
form no 3-cycle. -/
theorem oppGeo_not_preserved :
    (OppGeo oneWay ∧ Tri oneWay ∧ ¬ OppLive oneWay ∧ oneWay.isBorder 2 = true ∧
      (oneWay.insert 14 2).map (fun g => (g.opp 4, g.isOpp 4 2, decide (OppGeo g))) =
        some (some 2, some false, false)) ∧
    (OppGeo lasso ∧ OppSym lasso ∧ ¬ NextCycle lasso ∧ lasso.isBorder 0 = true ∧
      lasso.isBorder 1 = true ∧
      lasso.isBorder 2 = true ∧ lasso.triangle 4 0 = some true ∧
      lasso.nextNull 4 true 0 = some 1 ∧ lasso.nextNull 4 false 0 = some 2 ∧
      (lasso.close 4 0).map (fun g => (g.opp 1, g.isOpp 1 6, decide (OppGeo g))) =
        some (some 6, some false, false)) := by
  refine ⟨⟨by decide!, by decide!, fun hl => hl 4 2 rfl rfl, by decide!, by decide!⟩,
    by decide!, by decide!, by decide!, by decide!, by decide!, by decide!, by decide!,
    by decide!, by decide!, by decide!⟩

/-- C26. On every graph built from the empty graph by the construction calls, the
property that every sealed pair is a geometric pair (`e.opp = f` gives `e.isOpp(f)`) is
preserved by `seedNodes()`, by `addAt(v,e)`, by `close(e,n)` and `insert(v,e)` for a border
half-edge `e`, by `close(e)` when `e.triangle()` holds, and by `close(ha,hb)` when
`ha.ccwFrom(hb)`; and it holds after `seedNodes()` on three nodes.  Of a graph that is not
known to be built this way, `seedNodes`, `addAt`, `close(e,n)` and `close(ha,hb)` use
nothing else, `close(e)` uses the next-3-cycle invariant, and `insert(v,e)` uses that
faces are cycles of three distinct half-edges and that no `opp` link ends at a border
half-edge, which a symmetric `opp` gives. -/
theorem oppGeo_preserved :
    (∀ g : HEGraph, Built g → OppGeo g →
      (∀ g', g.seedNodes = some g' → OppGeo g') ∧
      (∀ v e g', g.isBorder e = true → g.addAt v e = some g' → OppGeo g') ∧
      (∀ e n g', g.isBorder e = true → g.closeN e n = some g' → OppGeo g') ∧
      (∀ v e g', g.isBorder e = true → g.insert v e = some g' → OppGeo g') ∧
      (∀ fuel e g', g.triangle fuel e = some true → g.close fuel e = some g' → OppGeo g') ∧
      (∀ ha hb g', g.ccwFrom ha hb = some true → g.close2 ha hb = some g' → OppGeo g')) ∧
    (∀ g : HEGraph, OppGeo g →
      (∀ g', g.seedNodes = some g' → OppGeo g') ∧
      (∀ v e g', g.addAt v e = some g' → OppGeo g') ∧
      (∀ e n g', g.isBorder e = true → g.closeN e n = some g' → OppGeo g') ∧
      (∀ v e g', Tri g → OppSym g → g.isBorder e = true → g.insert v e = some g' →
        OppGeo g') ∧
      (∀ v e g', Tri g → OppLive g → g.isBorder e = true → g.insert v e = some g' →
        OppGeo g') ∧
      (∀ fuel e g', NextCycle g → g.triangle fuel e = some true →
        g.close fuel e = some g' → OppGeo g') ∧
      (∀ ha hb g', g.ccwFrom ha hb = some true → g.close2 ha hb = some g' → OppGeo g')) ∧
    (∀ (n0 n1 n2 : Node) (g' : HEGraph),
      seedNodes { mHalfEdge := [], mFace := [], mNode := [n0, n1, n2] } = some g' →
        OppGeo g') := by
  refine ⟨fun g hb ho => ⟨fun _ h => seedNodes_oppGeo ho h,
      fun _ _ _ _ h => addAt_oppGeo ho h,
      fun _ _ _ hb h => closeN_oppGeo ho hb h,
      fun _ _ _ he h => insert_oppGeo (built_inv hb).1 (built_oppLive hb) ho he h,
      fun _ _ _ ht h => close_oppGeo (built_inv hb).1.1 ho ht h,
      fun _ _ _ hc h => close2_oppGeo ho hc h⟩,
    fun g ho => ⟨fun _ h => seedNodes_oppGeo ho h, fun _ _ _ h => addAt_oppGeo ho h,
      fun _ _ _ hb h => closeN_oppGeo ho hb h,
      fun _ _ _ hg hs hb h => insert_oppGeo hg hs.oppLive ho hb h,
      fun _ _ _ hg hs hb h => insert_oppGeo hg hs ho hb h,
      fun _ _ _ hg ht h => close_oppGeo hg ho ht h,
      fun _ _ _ hc h => close2_oppGeo ho hc h⟩, fun n0 n1 n2 g' h => ?_⟩
  refine seedNodes_oppGeo (fun a b hab => ?_) h
  simp [opp, he] at hab

/-- Instance of `oppGeo_preserved` at the seeded triangle, a built graph:
`insert(v, edge(2))` and `close(edge(0))`. -/
theorem oppGeo_preserved_witness :
    Built tri0 ∧ OppGeo tri0 ∧ tri0.isBorder 2 = true ∧
      tri0.triangle 3 0 = some true ∧
      (∃ g', tri0.insert 13 2 = some g' ∧ OppGeo g') ∧
      (∃ g', tri0.close 3 0 = some g' ∧ OppGeo g') := by
  have hb : Built tri0 :=
    Built.add 12 (Built.add 11 (Built.add 10 Built.empty rfl) rfl) rfl
  have ho : OppGeo tri0 := by decide
  obtain ⟨-, -, -, hi, hc, -⟩ := oppGeo_preserved.1 tri0 hb ho
  exact ⟨hb, ho, rfl, by decide, ⟨_, rfl, hi 13 2 _ rfl rfl⟩,
    ⟨_, rfl, hc 3 0 _ (by decide) rfl⟩⟩

/-! ## `add` grows a fan -/

theorem addAt_count {g g' : HEGraph} {v e : Nat} (hb : g.isBorder e = true)
    (h : g.addAt v e = some g') :
    g'.nullEdges.length = g.nullEdges.length + 1 ∧ g'.mNode.length = g.mNode.length + 1 := by
  obtain ⟨re, e1, r1, e2, r2, k0, -, -, -, -, rfl⟩ := addAt_some h
  have hro : re.opp = none := by
    have := (isBorder_iff.1 hb).2
    rwa [opp_of_he k0] at this
  refine ⟨?_, by simp⟩
  rw [nullEdges_length, nullEdges_length]
  have := @countP_set_border g.mHalfEdge e re k0 hro (g.mHalfEdge.length + 1)
  simp only [List.countP_append]
  simp only [List.countP_cons, List.countP_nil, HalfEdge.new, Option.isNone_none,
    Option.isNone_some, if_true, Bool.false_eq_true, if_false]
  omega

theorem TriExt.hasVertex_old {g g' : HEGraph} (x : TriExt g g') {f v : Nat}
    (hf : f < g.mFace.length) (h : hasVertex g f v) : hasVertex g' f v := by
  obtain ⟨h0, a, b, hfe, h1, h2, h3, hv⟩ := h
  have l0 := next_lt h1
  have l1 := next_lt h2
  have l2 := next_lt h3
  refine ⟨h0, a, b, ?_, by rw [x.next_old _ l0, h1], by rw [x.next_old _ l1, h2],
    by rw [x.next_old _ l2, h3], ?_⟩
  · unfold faceEdge at hfe ⊢
    rw [x.faces, List.getElem?_append_left hf]
    exact hfe
  · rw [x.node_old _ l0, x.node_old _ l1, x.node_old _ l2]
    exact hv

theorem fan_step {g : HEGraph} {n : Nat} (hf : Fan g n) (v : Nat) :
    ∃ g', g.add v = some g' ∧ Fan g' (n + 1) := by
  obtain ⟨l, e1, e2, hl, hb, h1, h2, hn2⟩ := hf.last
  obtain ⟨re, hre, hre1⟩ := next_eq_some.1 h1
  obtain ⟨r1, hr1, hr11⟩ := next_eq_some.1 h2
  obtain ⟨r2, hr2, -⟩ := node_eq_some.1 hn2
  obtain ⟨g', h⟩ : ∃ g', g.addAt v l = some g' := by simp [addAt, hre, hre1, hr1, hr11, hr2]
  have hadd : g.add v = some g' := by
    have t1 : ¬ g.mNode.length < 3 := by rw [hf.nodes]; have := hf.three; omega
    have t2 : ¬ g.mNode.length = 2 := by rw [hf.nodes]; have := hf.three; omega
    have t3 : g.mNode.length ≥ 3 := by rw [hf.nodes]; exact hf.three
    simp only [add, if_neg t1, if_neg t2, if_pos t3, Option.bind_eq_bind, Option.some_bind, hl,
      h]
  have x := addAt_triExt h
  obtain ⟨hc, hnl⟩ := addAt_count hb h
  obtain ⟨e1', e2', h1', h2', -, -, n1, -⟩ := addAt_nodes h
  have q1 : e1' = e1 := Option.some.inj (h1'.symm.trans h1)
  subst q1
  have q2 : e2' = e2 := Option.some.inj (h2'.symm.trans h2)
  subst q2
  have three := hf.three
  refine ⟨g', hadd, ⟨by omega, by rw [hnl, hf.nodes], ?_, ?_, by rw [hc, hf.border], ?_, ?_⟩⟩
  · rw [x.flen, hf.faces]
    omega
  · rw [x.len, hf.edges]
    omega
  · intro f hlt
    rw [x.flen] at hlt
    by_cases c : f < g.mFace.length
    · exact x.hasVertex_old c (hf.vertex f c)
    · have : f = g.mFace.length := by omega
      subst this
      refine ⟨g.mHalfEdge.length, g.mHalfEdge.length + 1, g.mHalfEdge.length + 2, ?_, x.next0,
        x.next1, x.next2, Or.inr (Or.inl (by rw [n1, hn2]))⟩
      simp [faceEdge, x.faces]
  · have o3 : g'.opp (g.mHalfEdge.length + 2) = none := by
      rw [addAt_opp h, if_neg (by have := he_lt hre; omega), if_neg (by omega)]
      exact opp_none_of_le (by omega)
    refine ⟨g.mHalfEdge.length + 2, g.mHalfEdge.length, g.mHalfEdge.length + 1, ?_,
      isBorder_iff.2 ⟨by rw [x.len]; omega, o3⟩, x.next2, x.next0, by rw [n1, hn2]⟩
    simp [lastEdge, x.len]

theorem fan_addAll : ∀ (rest : List Nat) (g : HEGraph) (n : Nat), Fan g n →
    ∃ g', addAll rest g = some g' ∧ Fan g' (n + rest.length) := by
  intro rest
  induction rest with
  | nil => intro g n hf; exact ⟨g, rfl, hf⟩
  | cons v t ih =>
    intro g n hf
    obtain ⟨g1, h1, hf1⟩ := fan_step hf v
    obtain ⟨g2, h2, hf2⟩ := ih g1 (n + 1) hf1
    refine ⟨g2, ?_, ?_⟩
    · unfold addAll at h2 ⊢
      rw [List.foldlM_cons, h1]
      exact h2
    · have : n + (v :: t).length = n + 1 + t.length := by simp; omega
      rw [this]
      exact hf2

theorem fan_seed (a b c : Nat) :
    ∃ g, addAll [a, b, c] HEGraph.empty = some g ∧ Fan g 3 := by
  refine ⟨_, rfl, ⟨by omega, rfl, rfl, rfl, rfl, ?_, ⟨2, 0, 1, rfl, rfl, rfl, rfl, rfl⟩⟩⟩
  intro f hf
  have : f = 0 := by
    have h1 : f < 1 := hf
    omega
  subst this
  exact ⟨0, 1, 2, rfl, rfl, rfl, rfl, Or.inr (Or.inl rfl)⟩

/-- C27. For `n ≥ 3`, `n` successive calls of `add` on an empty graph return a graph with
`n` nodes, `n - 2` faces, `3 * (n - 2)` half-edges and `n` border half-edges, in which
every face has the third added node (position 2 of the node vector) as a vertex; for
`n < 3` they return `n` nodes and no half-edge or face. -/
theorem add_fan :
    (∀ ps : List Nat, 3 ≤ ps.length →
      ∃ g, addAll ps HEGraph.empty = some g ∧ g.mNode.length = ps.length ∧
        g.mFace.length = ps.length - 2 ∧ g.mHalfEdge.length = 3 * (ps.length - 2) ∧
        g.nullEdges.length = ps.length ∧ (∀ x, x ∈ g.nullEdges ↔ g.isBorder x = true) ∧
        ∀ f, f < g.mFace.length → hasVertex g f 2) ∧
    (∀ ps : List Nat, ps.length < 3 →
      ∃ g, addAll ps HEGraph.empty = some g ∧ g.mNode.length = ps.length ∧
        g.mHalfEdge = [] ∧ g.mFace = []) := by
  constructor
  · intro ps hps
    match ps, hps with
    | a :: b :: c :: rest, _ =>
      obtain ⟨g3, h3, hf3⟩ := fan_seed a b c
      obtain ⟨g, hg, hf⟩ := fan_addAll rest g3 3 hf3
      have hlen : (a :: b :: c :: rest).length = 3 + rest.length := by simp; omega
      refine ⟨g, ?_, ?_⟩
      · have : a :: b :: c :: rest = [a, b, c] ++ rest := rfl
        unfold addAll at h3 hg ⊢
        rw [this, List.foldlM_append, h3]
        exact hg
      · rw [hlen]
        exact ⟨hf.nodes, hf.faces, hf.edges, hf.border, fun x => mem_nullEdges, hf.vertex⟩
  · intro ps hps
    match ps, hps with
    | [], _ => exact ⟨_, rfl, rfl, rfl, rfl⟩
    | [a], _ => exact ⟨_, rfl, rfl, rfl, rfl⟩
    | [a, b], _ => exact ⟨_, rfl, rfl, rfl, rfl⟩

/-- Instance of `add_fan` at six points. -/
theorem add_fan_witness :
    3 ≤ [10, 11, 12, 13, 14, 15].length ∧
      ∃ g, addAll [10, 11, 12, 13, 14, 15] HEGraph.empty = some g ∧ g.mNode.length = 6 ∧
        g.mFace.length = 4 ∧ g.mHalfEdge.length = 12 ∧ g.nullEdges.length = 6 := by
  obtain ⟨g, h, a1, a2, a3, a4, -⟩ := add_fan.1 [10, 11, 12, 13, 14, 15] (by decide)
  exact ⟨by decide, g, h, a1, a2, a3, a4⟩

end HEGraph

end Versor
